import Mathlib

/-!
Verification of the laser_plot (pewpew) repository claims.

The expression parser and reducer live in `pewpew/lib/pratt.py`, which is not
present in the source tree (only its test suite `tests/test_parser.py` and its
callers are).  The definitions in the `Pratt` namespace are therefore modelled
from the specification, faithful to its words and pinned to the behaviour the
test suite demands.  The remaining namespaces embed source files that are
present: `util/krisskross.py`, `util/laser.py`, `util/importer.py`,
`pewpew/lib/io/vtk.py` and `pewpew/lib/calc.py`.
-/

/-- Decidable equality for `Except` results, used to evaluate the executable
definitions on concrete inputs. -/
instance {ε α : Type} [DecidableEq ε] [DecidableEq α] : DecidableEq (Except ε α) :=
  fun x y =>
    match x, y with
    | .error a, .error b =>
      if h : a = b then .isTrue (congrArg Except.error h)
      else .isFalse (fun hh => h (by cases hh; rfl))
    | .ok a, .ok b =>
      if h : a = b then .isTrue (congrArg Except.ok h)
      else .isFalse (fun hh => h (by cases hh; rfl))
    | .error _, .ok _ => .isFalse (fun hh => by cases hh)
    | .ok _, .error _ => .isFalse (fun hh => by cases hh)

/-- Split a character list at spaces (the string `split` the tokenisers use),
kept structurally recursive so concrete runs reduce inside the kernel. -/
def splitSp : List Char → List (List Char)
  | [] => [[]]
  | c :: cs =>
    let r := splitSp cs
    if c = ' ' then [] :: r
    else (c :: r.headD []) :: r.tail

namespace Pratt

/-- Binary operators of the expression language. -/
inductive BOp
  | add | sub | mul | div | pow
  | blt | bgt | ble | bge | beq | bne
  deriving DecidableEq, Repr

/-- Modelled from the spec: tokens of the infix expression grammar
(`pewpew/lib/pratt.py` is missing from the source tree).  Numeric literals and
variable names carry their spelling; `bf`/`tf` style built-in functions are
binary or ternary. -/
inductive Tok
  | num (s : String)
  | sym (s : String)
  | fnB (s : String)
  | fnT (s : String)
  | bop (o : BOp)
  | question | colon | lparen | rparen | comma
  | kIf | kThen | kElse
  deriving DecidableEq, Repr

/-- Modelled from the spec: the prefix-ordered operator tree produced by the
parser. -/
inductive Expr
  | num (s : String)
  | var (s : String)
  | neg (e : Expr)
  | bin (o : BOp) (l r : Expr)
  | tern (c t f : Expr)
  | callB (f : String) (a b : Expr)
  | callT (f : String) (a b c : Expr)
  deriving DecidableEq, Repr

/-- Parser configuration: declared variable names and the names of the
registered binary and ternary built-in functions. -/
structure Cfg where
  vars : List String
  fnBs : List String
  fnTs : List String
  deriving Repr

/-- Rendering of a binary operator, as used by both the infix input syntax and
the prefix output. -/
def BOp.str : BOp → String
  | .add => "+" | .sub => "-" | .mul => "*" | .div => "/" | .pow => "^"
  | .blt => "<" | .bgt => ">" | .ble => "<=" | .bge => ">=" | .beq => "="
  | .bne => "!="

/-- Left binding power of an infix operator, realising the precedence ladder:
ternary 10 < comparison 20 < additive 30 < multiplicative 40 <
exponentiation 50. -/
def BOp.lbp : BOp → Nat
  | .add | .sub => 30
  | .mul | .div => 40
  | .pow => 50
  | _ => 20

/-- Right binding power used when parsing the right operand: exponentiation is
right-associative (49), all other binary operators are left-associative. -/
def BOp.rbp : BOp → Nat
  | .pow => 49
  | o => o.lbp

/-- Characters that begin (and continue) operator tokens. -/
def opChars : List Char :=
  ['+', '-', '*', '/', '^', '<', '>', '=', '!', '?', ':']

/-- Characters that always stand alone and terminate a word. -/
def stopChar (c : Char) : Bool :=
  c = '(' || c = ')' || c = ','

/-- Characters that may appear inside a scanned word. -/
def okChar (c : Char) : Bool :=
  !stopChar c && c != ' '

/-- One or more digits and nothing else. -/
def digits1 : List Char → Bool
  | [] => false
  | c :: cs => c.isDigit && cs.all Char.isDigit

/-- Exponent part after the e: an optional sign then one or more digits. -/
def expSign : List Char → Bool
  | [] => false
  | c :: cs => if c = '+' || c = '-' then digits1 cs else digits1 (c :: cs)

/-- Exponent part including the leading e or E. -/
def expAfter : List Char → Bool
  | [] => false
  | c :: cs => (c = 'e' || c = 'E') && expSign cs

/-- Fractional digits, optionally followed by an exponent. -/
def numFrac : List Char → Bool
  | [] => true
  | c :: cs => if c.isDigit then numFrac cs else expAfter (c :: cs)

/-- Literal tail after the first digit: digits, an optional fraction, an
optional exponent. -/
def numTail : List Char → Bool
  | [] => true
  | c :: cs =>
    if c.isDigit then numTail cs
    else if c = '.' then numFrac cs
    else expAfter (c :: cs)

/-- Numeric literal grammar: digits, an optional fraction, an optional signed
exponent — accepting spellings such as 1, 1.0 and 1.0e-1 and rejecting
1.0.0 or 1a. -/
def isNumLit : List Char → Bool
  | [] => false
  | c :: cs => c.isDigit && numTail cs

/-- Classify a word: declared variables first, then the conditional keywords,
then registered functions, then numeric literals; anything else is an unknown
identifier or malformed literal and is a parse error. -/
def classify (cfg : Cfg) (w : List Char) : Except String Tok :=
  let s := String.mk w
  if s ∈ cfg.vars then .ok (.sym s)
  else if s = "if" then .ok .kIf
  else if s = "then" then .ok .kThen
  else if s = "else" then .ok .kElse
  else if s ∈ cfg.fnBs then .ok (.fnB s)
  else if s ∈ cfg.fnTs then .ok (.fnT s)
  else if isNumLit w then .ok (.num s)
  else .error ("unknown identifier or malformed literal " ++ s)

/-- Tokenise one whitespace-delimited chunk.  Parentheses and commas separate;
operator characters form operator tokens; any other character starts a word
running to the next parenthesis or comma, so that a-a is a single (unknown)
word while -1 is an operator followed by a literal. -/
def scanChunk (cfg : Cfg) : Nat → List Char → Except String (List Tok)
  | 0, _ => .error "fuel exhausted"
  | fuel + 1, l =>
    match l with
    | [] => .ok []
    | c :: cs =>
    if c = '(' then do
      let ts ← scanChunk cfg fuel cs
      .ok (.lparen :: ts)
    else if c = ')' then do
      let ts ← scanChunk cfg fuel cs
      .ok (.rparen :: ts)
    else if c = ',' then do
      let ts ← scanChunk cfg fuel cs
      .ok (.comma :: ts)
    else if c ∈ opChars then
      if (c = '<' ∨ c = '>' ∨ c = '!') ∧ cs.headD ' ' = '=' then do
        let o : Tok :=
          if c = '<' then .bop .ble else if c = '>' then .bop .bge
          else .bop .bne
        let ts ← scanChunk cfg fuel cs.tail
        .ok (o :: ts)
      else if c = '!' then .error "stray character"
      else do
        let o : Tok ←
          if c = '+' then .ok (.bop .add)
          else if c = '-' then .ok (.bop .sub)
          else if c = '*' then .ok (.bop .mul)
          else if c = '/' then .ok (.bop .div)
          else if c = '^' then .ok (.bop .pow)
          else if c = '<' then .ok (.bop .blt)
          else if c = '>' then .ok (.bop .bgt)
          else if c = '=' then .ok (.bop .beq)
          else if c = '?' then .ok .question
          else if c = ':' then .ok .colon
          else .error "stray character"
        let ts ← scanChunk cfg fuel cs
        .ok (o :: ts)
    else do
      let w := c :: cs.takeWhile (fun d => !stopChar d)
      let t ← classify cfg w
      let ts ← scanChunk cfg fuel (cs.dropWhile (fun d => !stopChar d))
      .ok (t :: ts)

/-- Tokenise an input string: split on spaces, scan each chunk. -/
def tokenize (cfg : Cfg) (s : String) : Except String (List Tok) := do
  let tss ← ((splitSp s.toList).filter (fun c => !c.isEmpty)).mapM
    (fun ch => scanChunk cfg (ch.length + 1) ch)
  .ok tss.flatten

/-- Parser mode: `.inl ()` parses a fresh sub-expression (null denotation),
`.inr left` extends `left` with infix operators of binding power above the
current right binding power (left denotations). -/
abbrev PMode := Unit ⊕ Expr

/-- Modelled from the spec: the Pratt parser core of `Parser.parse`
(`pewpew/lib/pratt.py` is missing from the source tree).  One fuelled
recursion carrying the current right binding power; unary minus parses its
operand at binding power 45, so that exponentiation (50) groups inside it and
everything else (at most 40) stays outside, as the source test suite pins with
1 * - 2 ^ 3 rendering to * 1 u- ^ 2 3. -/
def pP (cfg : Cfg) : Nat → Nat → PMode → List Tok → Except String (Expr × List Tok)
  | 0, _, _, _ => .error "fuel exhausted"
  | fuel + 1, rbp, .inl _, toks =>
    match toks with
    | [] => .error "expected an operand"
    | t :: ts =>
      match t with
      | .num s => pP cfg fuel rbp (.inr (.num s)) ts
      | .sym s => pP cfg fuel rbp (.inr (.var s)) ts
      | .bop .sub =>
        match pP cfg fuel 45 (.inl ()) ts with
        | .error e => .error e
        | .ok (x, r) => pP cfg fuel rbp (.inr (.neg x)) r
      | .lparen =>
        match pP cfg fuel 0 (.inl ()) ts with
        | .error e => .error e
        | .ok (x, r) =>
          match r with
          | .rparen :: r2 => pP cfg fuel rbp (.inr x) r2
          | _ => .error "mismatched parenthesis"
      | .kIf =>
        match pP cfg fuel 0 (.inl ()) ts with
        | .error e => .error e
        | .ok (c, r1) =>
          match r1 with
          | .kThen :: r2 =>
            match pP cfg fuel 0 (.inl ()) r2 with
            | .error e => .error e
            | .ok (a, r3) =>
              match r3 with
              | .kElse :: r4 =>
                match pP cfg fuel 9 (.inl ()) r4 with
                | .error e => .error e
                | .ok (b, r5) => pP cfg fuel rbp (.inr (.tern c a b)) r5
              | _ => .error "expected else"
          | _ => .error "expected then"
      | .fnB f =>
        match ts with
        | .lparen :: u1 =>
          match pP cfg fuel 0 (.inl ()) u1 with
          | .error e => .error e
          | .ok (a, r1) =>
            match r1 with
            | .comma :: r2 =>
              match pP cfg fuel 0 (.inl ()) r2 with
              | .error e => .error e
              | .ok (b, r3) =>
                match r3 with
                | .rparen :: r4 => pP cfg fuel rbp (.inr (.callB f a b)) r4
                | _ => .error "expected closing parenthesis"
            | _ => .error "expected comma"
        | _ => .error "expected opening parenthesis"
      | .fnT f =>
        match ts with
        | .lparen :: u1 =>
          match pP cfg fuel 0 (.inl ()) u1 with
          | .error e => .error e
          | .ok (a, r1) =>
            match r1 with
            | .comma :: r2 =>
              match pP cfg fuel 0 (.inl ()) r2 with
              | .error e => .error e
              | .ok (b, r3) =>
                match r3 with
                | .comma :: r4 =>
                  match pP cfg fuel 0 (.inl ()) r4 with
                  | .error e => .error e
                  | .ok (c, r5) =>
                    match r5 with
                    | .rparen :: r6 => pP cfg fuel rbp (.inr (.callT f a b c)) r6
                    | _ => .error "expected closing parenthesis"
                | _ => .error "expected comma"
            | _ => .error "expected comma"
        | _ => .error "expected opening parenthesis"
      | _ => .error "unexpected token"
  | fuel + 1, rbp, .inr left, toks =>
    match toks with
    | .bop o :: ts =>
      if o.lbp > rbp then
        match pP cfg fuel o.rbp (.inl ()) ts with
        | .error e => .error e
        | .ok (r, rest) => pP cfg fuel rbp (.inr (.bin o left r)) rest
      else .ok (left, toks)
    | .question :: ts =>
      if 10 > rbp then
        match pP cfg fuel 0 (.inl ()) ts with
        | .error e => .error e
        | .ok (m, r1) =>
          match r1 with
          | .colon :: r2 =>
            match pP cfg fuel 9 (.inl ()) r2 with
            | .error e => .error e
            | .ok (fb, r3) => pP cfg fuel rbp (.inr (.tern left m fb)) r3
          | _ => .error "expected colon"
      else .ok (left, toks)
    | _ => .ok (left, toks)

/-- Parse a sub-expression at the given right binding power. -/
def pExpr (cfg : Cfg) (fuel rbp : Nat) (toks : List Tok) :
    Except String (Expr × List Tok) :=
  pP cfg fuel rbp (.inl ()) toks

/-- Extend a parsed left operand with infix operators. -/
def pLeds (cfg : Cfg) (fuel rbp : Nat) (left : Expr) (toks : List Tok) :
    Except String (Expr × List Tok) :=
  pP cfg fuel rbp (.inr left) toks

/-- Parse a complete token list: a single expression, with no tokens left
over. -/
def parseToks (cfg : Cfg) (toks : List Tok) : Except String Expr :=
  match pExpr cfg (2 * toks.length + 1) 0 toks with
  | .error e => .error e
  | .ok (e, []) => .ok e
  | .ok (_, _ :: _) => .error "missing operator between operands"

/-- Modelled from the spec: `Parser.parse` — tokenise an infix string and
parse it into a prefix-ordered operator tree. -/
def parse (cfg : Cfg) (s : String) : Except String Expr :=
  match tokenize cfg s with
  | .error e => .error e
  | .ok toks => parseToks cfg toks

/-- The words of the rendered prefix form (`str()` of the parse result). -/
def Expr.preWords : Expr → List String
  | .num s => [s]
  | .var s => [s]
  | .neg x => "u-" :: x.preWords
  | .bin o l r => o.str :: (l.preWords ++ r.preWords)
  | .tern c t f => "?" :: (c.preWords ++ t.preWords ++ f.preWords)
  | .callB f a b => f :: (a.preWords ++ b.preWords)
  | .callT f a b c => f :: (a.preWords ++ b.preWords ++ c.preWords)

/-- Join words with single spaces. -/
def joinWords : List String → String
  | [] => ""
  | [w] => w
  | w :: ws => w ++ " " ++ joinWords ws

/-- Rendered prefix string of a parsed expression, matching `str()` in the
tests: operators precede their operands, unary minus prints as u-. -/
def Expr.preStr (e : Expr) : String :=
  joinWords e.preWords

/-- Parse and render, the composition the test suite checks. -/
def parseStr (cfg : Cfg) (s : String) : Except String String :=
  (parse cfg s).map Expr.preStr

/-- The configuration of test_parser_basic: variables a1 and 1a. -/
def cfgBasic : Cfg := ⟨["a1", "1a"], [], []⟩

/-- The configuration of test_parser_additional: functions bf and tf. -/
def cfgFns : Cfg := ⟨[], ["bf"], ["tf"]⟩

/-- The configuration of test_parser_raises: variable a, function tf. -/
def cfgRaises : Cfg := ⟨["a"], [], ["tf"]⟩

example : parseStr cfgBasic "1.0e-1" = .ok "1.0e-1" := by decide
example : parseStr cfgBasic "a1" = .ok "a1" := by decide
example : parseStr cfgBasic "1a" = .ok "1a" := by decide
example : parseStr cfgBasic "1 + 2 - 3" = .ok "- + 1 2 3" := by decide
example : parseStr cfgBasic "1 * 2 / 3" = .ok "/ * 1 2 3" := by decide
example : parseStr cfgBasic "1 ^ 2" = .ok "^ 1 2" := by decide
example : parseStr cfgBasic "1 + 2 * 3" = .ok "+ 1 * 2 3" := by decide
example : parseStr cfgBasic "(1 + 2) * 3" = .ok "* + 1 2 3" := by decide
example : parseStr cfgBasic "1 ^ 2 * 3" = .ok "* ^ 1 2 3" := by decide
example : parseStr cfgBasic "1 ^ (2 * 3)" = .ok "^ 1 * 2 3" := by decide
example : parseStr cfgBasic "1 ^ 2 ^ 3" = .ok "^ 1 ^ 2 3" := by decide
example : parseStr cfgBasic "-1" = .ok "u- 1" := by decide
example : parseStr cfgBasic "-1 - 2" = .ok "- u- 1 2" := by decide
example : parseStr cfgBasic "1 - - 2" = .ok "- 1 u- 2" := by decide
example : parseStr cfgBasic "1 * - 2 ^ 3" = .ok "* 1 u- ^ 2 3" := by decide
example : parseStr cfgBasic "1 > 2" = .ok "> 1 2" := by decide
example : parseStr cfgBasic "1 < 2" = .ok "< 1 2" := by decide
example : parseStr cfgBasic "1 >= 2 <= 3" = .ok "<= >= 1 2 3" := by decide
example : parseStr cfgBasic "1 = 2 != 3" = .ok "!= = 1 2 3" := by decide
example : parseStr cfgBasic "1 > 2 ? 3 : 4" = .ok "? > 1 2 3 4" := by decide
example : parseStr cfgBasic "if 1 > 2 then 3 else 4" = .ok "? > 1 2 3 4" := by
  decide
example : parseStr cfgBasic "1 > 2 ? 3 < 4 ? 5 : 6 : 7" =
    .ok "? > 1 2 ? < 3 4 5 6 7" := by decide
example : parseStr cfgFns "bf(1 + 2, 3 * 4)" = .ok "bf + 1 2 * 3 4" := by
  decide
example : parseStr cfgFns "tf(1 + 2, 3, 4 + 5)" = .ok "tf + 1 2 3 + 4 5" := by
  decide
example : (parse cfgRaises "").isOk = false := by decide
example : (parse cfgRaises "a2").isOk = false := by decide
example : (parse cfgRaises "a-a").isOk = false := by decide
example : (parse cfgRaises "1.0.0").isOk = false := by decide
example : (parse cfgRaises "1 1 + 2").isOk = false := by decide
example : (parse cfgRaises "1 + (2 + 3").isOk = false := by decide
example : (parse cfgRaises "1 + (2 + 3))").isOk = false := by decide
example : (parse cfgRaises "1 ? 2 3").isOk = false := by decide
example : (parse cfgRaises "1 ? 2 else 3").isOk = false := by decide
example : (parse cfgRaises "tf(1 2, 3)").isOk = false := by decide
example : (parse cfgRaises "tf(1, 2, 3,)").isOk = false := by decide
example : (parse cfgRaises "tf 1, 2, 3").isOk = false := by decide

/-! ### A canonical infix renderer, used to state the precedence claims.

`renderT e c` prints `e` as infix tokens inside a context of right binding
power `c`, adding parentheses exactly when the node binds too loosely for its
context.  Reparsing this canonical form must reproduce `e`; that round trip is
the formal content of "the parser honors the precedence ordering, with
explicit parentheses overriding it". -/

/-- Precedence of a node: the left binding power its root operator offers to
the context.  Atoms and function calls are maximal; unary minus sits between
multiplicative (40) and exponentiation (50). -/
def prec : Expr → Nat
  | .num _ | .var _ | .callB _ _ _ | .callT _ _ _ _ => 100
  | .neg _ => 45
  | .bin o _ _ => o.lbp
  | .tern _ _ _ => 10

/-- Context used to render the left operand of a binary operator:
left-associative operators reuse their own binding power, the
right-associative exponentiation forces parentheses on an exponentiation left
operand. -/
def BOp.lctx (o : BOp) : Nat :=
  if o = .pow then 51 else o.lbp

/-- Wrap rendered tokens in parentheses when the node precedence is below the
context. -/
def pwrap (c p : Nat) (ts : List Tok) : List Tok :=
  if p < c then .lparen :: (ts ++ [.rparen]) else ts

/-- Canonical infix rendering with minimal parentheses. -/
def renderT : Expr → Nat → List Tok
  | .num s, c => pwrap c 100 [.num s]
  | .var s, c => pwrap c 100 [.sym s]
  | .neg x, c => pwrap c 45 (.bop .sub :: renderT x 46)
  | .bin o l r, c =>
    pwrap c o.lbp (renderT l o.lctx ++ .bop o :: renderT r (o.rbp + 1))
  | .tern c1 t f, c =>
    pwrap c 10
      (renderT c1 11 ++ .question :: renderT t 0 ++ .colon :: renderT f 10)
  | .callB f a b, c =>
    pwrap c 100
      (.fnB f :: .lparen :: renderT a 0 ++ .comma :: renderT b 0 ++ [.rparen])
  | .callT f a b c2, c =>
    pwrap c 100
      (.fnT f :: .lparen :: renderT a 0 ++ .comma :: renderT b 0 ++
        .comma :: renderT c2 0 ++ [.rparen])

/-- Whether the root of the tree was built by an infix (led) rule. -/
def lRooted : Expr → Bool
  | .bin _ _ _ | .tern _ _ _ => true
  | _ => false

/-- Largest token binding power that may follow the bare rendering of a node
without being captured by one of its trailing sub-parses. -/
def tailB : Expr → Nat
  | .neg x => min 45 (if prec x < 46 then 100 else tailB x)
  | .bin o _ r => min o.rbp (if prec r < o.rbp + 1 then 100 else tailB r)
  | .tern _ _ f => min 9 (if prec f < 10 then 100 else tailB f)
  | _ => 100

/-- Binding power with which a token drives the led loop. -/
def tokLbp : Tok → Nat
  | .bop o => o.lbp
  | .question => 10
  | _ => 0

/-- The head of the continuation binds no tighter than `b`. -/
def headLbpLE : List Tok → Nat → Prop
  | [], _ => True
  | t :: _, b => tokLbp t ≤ b

/-- Spelling of a token, inverse of the tokeniser. -/
def tokStr : Tok → String
  | .num s => s
  | .sym s => s
  | .fnB f => f
  | .fnT f => f
  | .bop o => o.str
  | .question => "?"
  | .colon => ":"
  | .lparen => "("
  | .rparen => ")"
  | .comma => ","
  | .kIf => "if"
  | .kThen => "then"
  | .kElse => "else"

/-- The canonical infix string of an expression. -/
def renderStr (e : Expr) : String :=
  joinWords ((renderT e 0).map tokStr)

/-- A name that survives the tokeniser as a single word: non-empty, free of
spaces, parentheses and commas, and not beginning with an operator
character. -/
def goodName (s : String) : Bool :=
  !s.toList.isEmpty && s.toList.all okChar &&
    decide (s.toList.headD ' ' ∉ opChars)

/-- Well-formed parser configuration: every declared name tokenises as one
word. -/
def cfgWF (cfg : Cfg) : Bool :=
  (cfg.vars ++ cfg.fnBs ++ cfg.fnTs).all goodName

/-- Well-formed expression over a configuration: variables are declared,
function names are registered with the right arity, numeric literals are
valid spellings and are not shadowed by a declared name or keyword. -/
def wfE (cfg : Cfg) : Expr → Bool
  | .num s =>
    isNumLit s.toList && !cfg.vars.contains s && !cfg.fnBs.contains s &&
      !cfg.fnTs.contains s && s ≠ "if" && s ≠ "then" && s ≠ "else"
  | .var s => cfg.vars.contains s
  | .neg x => wfE cfg x
  | .bin _ l r => wfE cfg l && wfE cfg r
  | .tern c t f => wfE cfg c && wfE cfg t && wfE cfg f
  | .callB f a b =>
    cfg.fnBs.contains f && !cfg.vars.contains f && f ≠ "if" && f ≠ "then" &&
      f ≠ "else" && wfE cfg a && wfE cfg b
  | .callT f a b c =>
    cfg.fnTs.contains f && !cfg.fnBs.contains f && !cfg.vars.contains f &&
      f ≠ "if" && f ≠ "then" && f ≠ "else" && wfE cfg a && wfE cfg b &&
      wfE cfg c

/-! ### Facts about precedences and binding powers. -/

theorem lbp_ge20 (o : BOp) : 20 ≤ o.lbp := by
  cases o <;> simp [BOp.lbp]

theorem lbp_le50 (o : BOp) : o.lbp ≤ 50 := by
  cases o <;> simp [BOp.lbp]

theorem rbp_le_lbp (o : BOp) : o.rbp ≤ o.lbp := by
  cases o <;> simp [BOp.rbp, BOp.lbp]

theorem rbp_ge20 (o : BOp) : 20 ≤ o.rbp := by
  cases o <;> simp [BOp.rbp, BOp.lbp]

theorem lbp_le_lctx (o : BOp) : o.lbp ≤ o.lctx := by
  cases o <;> simp [BOp.lctx, BOp.lbp]

theorem lctx_cases (o : BOp) : o.lctx = 51 ∨ (o.lctx = o.lbp ∧ o.lbp ≤ 40) := by
  cases o <;> simp [BOp.lctx, BOp.lbp]

theorem rbp_eq_cases (o : BOp) :
    o.rbp = o.lbp ∨ (o.lbp = 50 ∧ o.rbp = 49) := by
  cases o <;> simp [BOp.rbp, BOp.lbp]

theorem prec_num (s : String) : prec (.num s) = 100 := rfl

theorem prec_var (s : String) : prec (.var s) = 100 := rfl

theorem prec_neg (x : Expr) : prec (.neg x) = 45 := rfl

theorem prec_bin (o : BOp) (l r : Expr) : prec (.bin o l r) = o.lbp := rfl

theorem prec_tern (c t f : Expr) : prec (.tern c t f) = 10 := rfl

theorem prec_callB (f : String) (a b : Expr) : prec (.callB f a b) = 100 := rfl

theorem prec_callT (f : String) (a b c : Expr) :
    prec (.callT f a b c) = 100 := rfl

theorem tailB_neg (x : Expr) :
    tailB (.neg x) = min 45 (if prec x < 46 then 100 else tailB x) := rfl

theorem tailB_bin (o : BOp) (l r : Expr) :
    tailB (.bin o l r) =
      min o.rbp (if prec r < o.rbp + 1 then 100 else tailB r) := rfl

theorem tailB_tern (c t f : Expr) :
    tailB (.tern c t f) = min 9 (if prec f < 10 then 100 else tailB f) := rfl

theorem prec_pos : ∀ e : Expr, 0 < prec e
  | .num _ => by simp [prec_num]
  | .var _ => by simp [prec_var]
  | .neg _ => by simp [prec_neg]
  | .bin o _ _ => by have := lbp_ge20 o; simp [prec_bin]; omega
  | .tern _ _ _ => by simp [prec_tern]
  | .callB _ _ _ => by simp [prec_callB]
  | .callT _ _ _ _ => by simp [prec_callT]

theorem tailB_of_prec51 : ∀ e : Expr, 51 ≤ prec e → tailB e = 100
  | .num _, _ => rfl
  | .var _, _ => rfl
  | .callB _ _ _, _ => rfl
  | .callT _ _ _ _, _ => rfl
  | .neg _, h => absurd h (by simp [prec_neg])
  | .bin o _ _, h => absurd (lbp_le50 o) (by simp [prec_bin] at h; omega)
  | .tern _ _ _, h => absurd h (by simp [prec_tern])

theorem tailB_ge (e : Expr) (h : 20 ≤ prec e) : min (prec e) 49 ≤ tailB e := by
  induction e with
  | num s => simp [prec_num, tailB]
  | var s => simp [prec_var, tailB]
  | callB f a b iha ihb => simp [prec_callB, tailB]
  | callT f a b c iha ihb ihc => simp [prec_callT, tailB]
  | neg x ih =>
    rw [prec_neg, tailB_neg]
    by_cases hx : prec x < 46
    · simp [hx]
    · rw [if_neg hx]
      have := ih (by omega)
      omega
  | bin o l r ihl ihr =>
    rw [prec_bin] at h ⊢
    rw [tailB_bin]
    have h2 := rbp_eq_cases o
    have h3 := lbp_le50 o
    by_cases hr : prec r < o.rbp + 1
    · rw [if_pos hr]
      omega
    · rw [if_neg hr]
      have h1 := ihr (by have := rbp_ge20 o; omega)
      omega
  | tern c t f ihc iht ihf => rw [prec_tern] at h; omega

/-! ### The led loop stops when the continuation binds no tighter. -/

theorem pStops (cfg : Cfg) (rbp : Nat) (x : Expr) (K : List Tok) (f : Nat)
    (h : headLbpLE K rbp) : pP cfg (f + 1) rbp (.inr x) K = .ok (x, K) := by
  cases K with
  | nil => simp [pP]
  | cons t ts =>
    cases t with
    | bop o =>
      have hle : ¬ (o.lbp > rbp) := by
        simp only [headLbpLE, tokLbp] at h; omega
      simp [pP, hle]
    | question =>
      have hle : ¬ (10 > rbp) := by
        simp only [headLbpLE, tokLbp] at h; omega
      simp [pP, hle]
    | num s => simp [pP]
    | sym s => simp [pP]
    | fnB s => simp [pP]
    | fnT s => simp [pP]
    | colon => simp [pP]
    | lparen => simp [pP]
    | rparen => simp [pP]
    | comma => simp [pP]
    | kIf => simp [pP]
    | kThen => simp [pP]
    | kElse => simp [pP]

/-- Same stop lemma stated for every sufficiently large fuel value. -/
theorem pStopsAll (cfg : Cfg) (rbp : Nat) (x : Expr) (K : List Tok)
    (h : headLbpLE K rbp) :
    ∀ f, K.length < f → pP cfg f rbp (.inr x) K = .ok (x, K) := by
  intro f hf
  cases f with
  | zero => omega
  | succ g => exact pStops cfg rbp x K g h

/-! ### Reparsing the canonical rendering. -/

theorem pwrap_zero (p : Nat) (ts : List Tok) : pwrap 0 p ts = ts := by
  simp [pwrap]

theorem renderT_eq (e : Expr) (c : Nat) :
    renderT e c = pwrap c (prec e) (renderT e 0) := by
  cases e <;> simp only [renderT, pwrap_zero, prec_num, prec_var, prec_neg,
    prec_bin, prec_tern, prec_callB, prec_callT]

/-- The continuation behaviour of the led loop after a complete left operand
has been produced: at every sufficient fuel the loop maps `K` to the final
result `R`. -/
def Cont (cfg : Cfg) (c : Nat) (e : Expr) (K : List Tok)
    (R : Expr × List Tok) : Prop :=
  ∀ f, K.length < f → pP cfg f c (.inr e) K = .ok R

/-- Core reparse property of the bare (unparenthesised) rendering of `e`. -/
def SplitP (cfg : Cfg) (e : Expr) : Prop :=
  ∀ c K R, headLbpLE K (tailB e) → (lRooted e = true → c < prec e) →
    Cont cfg c e K R →
    ∀ f, (renderT e 0 ++ K).length < f →
      pP cfg f c (.inl ()) (renderT e 0 ++ K) = .ok R

/-- Reparse property of a rendering in any context: parenthesised renderings
need no side conditions, bare ones the conditions of `SplitP`. -/
theorem splitAt (cfg : Cfg) (e : Expr) (h : SplitP cfg e) :
    ∀ cr c K R,
      (prec e < cr ∨ (headLbpLE K (tailB e) ∧ (lRooted e = true → c < prec e))) →
      Cont cfg c e K R →
      ∀ f, (renderT e cr ++ K).length < f →
        pP cfg f c (.inl ()) (renderT e cr ++ K) = .ok R := by
  intro cr c K R hside hcont f hf
  by_cases hcr : prec e < cr
  · rw [renderT_eq e cr, pwrap, if_pos hcr] at hf ⊢
    cases f with
    | zero => simp at hf
    | succ g =>
      have hlen : (renderT e 0 ++ .rparen :: K).length < g := by
        simp at hf ⊢
        omega
      have hinner :
          pP cfg g 0 (.inl ()) (renderT e 0 ++ .rparen :: K) =
            .ok (e, .rparen :: K) := by
        refine h 0 (.rparen :: K) (e, .rparen :: K) ?_ ?_ ?_ g hlen
        · simp [headLbpLE, tokLbp]
        · intro _
          exact prec_pos e
        · exact pStopsAll cfg 0 e (.rparen :: K) (by simp [headLbpLE, tokLbp])
      have harr :
          (Tok.lparen :: (renderT e 0 ++ [Tok.rparen])) ++ K =
            Tok.lparen :: (renderT e 0 ++ .rparen :: K) := by
        simp
      rw [harr]
      simp only [pP, hinner]
      apply hcont
      simp at hf
      omega
  · rw [renderT_eq e cr, pwrap, if_neg hcr] at hf ⊢
    rcases hside with hside | ⟨h1, h2⟩
    · omega
    · exact h c K R h1 h2 hcont f hf

theorem headLbpLE_mono {K : List Tok} {a b : Nat} (h : headLbpLE K a)
    (hab : a ≤ b) : headLbpLE K b := by
  cases K with
  | nil => trivial
  | cons t ts => simp only [headLbpLE] at h ⊢; omega

theorem prec_cases : ∀ e : Expr, prec e = 10 ∨ 20 ≤ prec e
  | .num _ => Or.inr (by rw [prec_num]; omega)
  | .var _ => Or.inr (by rw [prec_var]; omega)
  | .neg _ => Or.inr (by rw [prec_neg]; omega)
  | .bin o _ _ => Or.inr (by rw [prec_bin]; exact lbp_ge20 o)
  | .tern _ _ _ => Or.inl (prec_tern _ _ _)
  | .callB _ _ _ => Or.inr (by rw [prec_callB]; omega)
  | .callT _ _ _ _ => Or.inr (by rw [prec_callT]; omega)

/-- Every expression satisfies the core reparse property: parsing the bare
canonical rendering followed by any continuation `K` reconstructs exactly the
expression and hands `K` to the led loop. -/
theorem splitAll (cfg : Cfg) : ∀ e, SplitP cfg e := by
  intro e
  induction e with
  | num s =>
    intro c K R hK hlr hcont f hf
    have hbare : renderT (.num s) 0 = [.num s] := by
      simp [renderT, pwrap_zero]
    rw [hbare] at hf ⊢
    cases f with
    | zero => simp at hf
    | succ g =>
      simp only [List.cons_append, List.nil_append] at hf ⊢
      simp only [pP]
      apply hcont
      simp at hf
      omega
  | var s =>
    intro c K R hK hlr hcont f hf
    have hbare : renderT (.var s) 0 = [.sym s] := by
      simp [renderT, pwrap_zero]
    rw [hbare] at hf ⊢
    cases f with
    | zero => simp at hf
    | succ g =>
      simp only [List.cons_append, List.nil_append] at hf ⊢
      simp only [pP]
      apply hcont
      simp at hf
      omega
  | neg x ihx =>
    intro c K R hK hlr hcont f hf
    have hbare : renderT (.neg x) 0 = .bop .sub :: renderT x 46 := by
      simp [renderT, pwrap_zero]
    rw [hbare] at hf ⊢
    have htail : tailB (.neg x) ≤ 45 := by
      rw [tailB_neg]; omega
    cases f with
    | zero => simp at hf
    | succ g =>
      simp only [List.cons_append] at hf ⊢
      simp only [pP]
      have hx : pP cfg g 45 (.inl ()) (renderT x 46 ++ K) = .ok (x, K) := by
        refine splitAt cfg x ihx 46 45 K (x, K) ?_ ?_ g ?_
        · by_cases hw : prec x < 46
          · exact Or.inl hw
          · refine Or.inr ⟨?_, fun _ => by omega⟩
            refine headLbpLE_mono hK ?_
            rw [tailB_neg, if_neg hw]
            omega
        · exact pStopsAll cfg 45 x K (headLbpLE_mono hK htail)
        · simp at hf ⊢
          omega
      rw [hx]
      apply hcont
      simp at hf
      omega
  | bin o l r ihl ihr =>
    intro c K R hK hlr hcont f hf
    have hclt : c < o.lbp := by
      have := hlr rfl
      rwa [prec_bin] at this
    have hbare : renderT (.bin o l r) 0 =
        renderT l o.lctx ++ .bop o :: renderT r (o.rbp + 1) := by
      simp [renderT, pwrap_zero]
    rw [hbare] at hf ⊢
    simp only [List.append_assoc, List.cons_append] at hf ⊢
    have htailr : tailB (.bin o l r) ≤ o.rbp := by
      rw [tailB_bin]; omega
    have hcontl :
        Cont cfg c l (.bop o :: (renderT r (o.rbp + 1) ++ K)) R := by
      intro g hg
      cases g with
      | zero => simp at hg
      | succ g2 =>
        simp only [pP]
        rw [if_pos hclt]
        have hr : pP cfg g2 o.rbp (.inl ()) (renderT r (o.rbp + 1) ++ K) =
            .ok (r, K) := by
          refine splitAt cfg r ihr (o.rbp + 1) o.rbp K (r, K) ?_ ?_ g2 ?_
          · by_cases hw : prec r < o.rbp + 1
            · exact Or.inl hw
            · refine Or.inr ⟨?_, fun _ => by omega⟩
              refine headLbpLE_mono hK ?_
              rw [tailB_bin, if_neg hw]
              omega
          · exact pStopsAll cfg o.rbp r K (headLbpLE_mono hK htailr)
          · simp at hg ⊢
            omega
        rw [hr]
        apply hcont
        simp at hg
        omega
    refine splitAt cfg l ihl o.lctx c
      (.bop o :: (renderT r (o.rbp + 1) ++ K)) R ?_ hcontl f ?_
    · by_cases hw : prec l < o.lctx
      · exact Or.inl hw
      · refine Or.inr ⟨?_, fun _ => ?_⟩
        · show tokLbp (.bop o) ≤ tailB l
          simp only [tokLbp]
          by_cases h51 : 51 ≤ prec l
          · rw [tailB_of_prec51 l h51]
            have := lbp_le50 o
            omega
          · rcases lctx_cases o with hc | ⟨hc, hle40⟩
            · omega
            · have h20 : 20 ≤ prec l := by
                have := lbp_ge20 o
                omega
              have := tailB_ge l h20
              omega
        · have := lbp_le_lctx o
          omega
    · simp at hf ⊢
      omega
  | tern c1 t fb ihc iht ihf =>
    intro c K R hK hlr hcont f hf
    have hclt : c < 10 := by
      have := hlr rfl
      rwa [prec_tern] at this
    have hbare : renderT (.tern c1 t fb) 0 =
        renderT c1 11 ++ .question :: renderT t 0 ++ .colon :: renderT fb 10 := by
      simp [renderT, pwrap_zero]
    rw [hbare] at hf ⊢
    simp only [List.append_assoc, List.cons_append] at hf ⊢
    have htail9 : tailB (.tern c1 t fb) ≤ 9 := by
      rw [tailB_tern]; omega
    have hcontc1 :
        Cont cfg c c1
          (.question :: (renderT t 0 ++ (.colon :: (renderT fb 10 ++ K)))) R := by
      intro g hg
      cases g with
      | zero => simp at hg
      | succ g2 =>
        simp only [pP]
        rw [if_pos hclt]
        have hmid : pP cfg g2 0 (.inl ())
            (renderT t 0 ++ (.colon :: (renderT fb 10 ++ K))) =
            .ok (t, .colon :: (renderT fb 10 ++ K)) := by
          refine splitAt cfg t iht 0 0 (.colon :: (renderT fb 10 ++ K))
            (t, .colon :: (renderT fb 10 ++ K)) ?_ ?_ g2 ?_
          · refine Or.inr ⟨?_, fun _ => prec_pos t⟩
            simp [headLbpLE, tokLbp]
          · exact pStopsAll cfg 0 t _ (by simp [headLbpLE, tokLbp])
          · simp at hg ⊢
            omega
        simp only [hmid]
        have hfb : pP cfg g2 9 (.inl ()) (renderT fb 10 ++ K) =
            .ok (fb, K) := by
          refine splitAt cfg fb ihf 10 9 K (fb, K) ?_ ?_ g2 ?_
          · by_cases hw : prec fb < 10
            · exact Or.inl hw
            · refine Or.inr ⟨?_, fun _ => by omega⟩
              refine headLbpLE_mono hK ?_
              rw [tailB_tern, if_neg hw]
              omega
          · exact pStopsAll cfg 9 fb K (headLbpLE_mono hK htail9)
          · simp at hg ⊢
            omega
        simp only [hfb]
        apply hcont
        simp at hg
        omega
    refine splitAt cfg c1 ihc 11 c
      (.question :: (renderT t 0 ++ (.colon :: (renderT fb 10 ++ K)))) R
      ?_ hcontc1 f ?_
    · by_cases hw : prec c1 < 11
      · exact Or.inl hw
      · refine Or.inr ⟨?_, fun _ => by omega⟩
        show tokLbp .question ≤ tailB c1
        simp only [tokLbp]
        have h20 : 20 ≤ prec c1 := by
          rcases prec_cases c1 with h | h <;> omega
        by_cases h51 : 51 ≤ prec c1
        · rw [tailB_of_prec51 c1 h51]
          omega
        · have := tailB_ge c1 h20
          omega
    · simp at hf ⊢
      omega
  | callB fn a b iha ihb =>
    intro c K R hK hlr hcont f hf
    have hbare : renderT (.callB fn a b) 0 =
        .fnB fn :: .lparen :: renderT a 0 ++ .comma :: renderT b 0 ++
          [.rparen] := by
      simp [renderT, pwrap_zero]
    rw [hbare] at hf ⊢
    simp only [List.append_assoc, List.cons_append, List.singleton_append,
      List.nil_append] at hf ⊢
    cases f with
    | zero => simp at hf
    | succ g =>
      simp only [pP]
      have ha : pP cfg g 0 (.inl ())
          (renderT a 0 ++ (.comma :: (renderT b 0 ++ (.rparen :: K)))) =
          .ok (a, .comma :: (renderT b 0 ++ (.rparen :: K))) := by
        refine splitAt cfg a iha 0 0 _ _ ?_ ?_ g ?_
        · refine Or.inr ⟨?_, fun _ => prec_pos a⟩
          simp [headLbpLE, tokLbp]
        · exact pStopsAll cfg 0 a _ (by simp [headLbpLE, tokLbp])
        · simp at hf ⊢
          omega
      simp only [ha]
      have hb : pP cfg g 0 (.inl ()) (renderT b 0 ++ (.rparen :: K)) =
          .ok (b, .rparen :: K) := by
        refine splitAt cfg b ihb 0 0 _ _ ?_ ?_ g ?_
        · refine Or.inr ⟨?_, fun _ => prec_pos b⟩
          simp [headLbpLE, tokLbp]
        · exact pStopsAll cfg 0 b _ (by simp [headLbpLE, tokLbp])
        · simp at hf ⊢
          omega
      simp only [hb]
      apply hcont
      simp at hf
      omega
  | callT fn a b c2 iha ihb ihc2 =>
    intro c K R hK hlr hcont f hf
    have hbare : renderT (.callT fn a b c2) 0 =
        .fnT fn :: .lparen :: renderT a 0 ++ .comma :: renderT b 0 ++
          .comma :: renderT c2 0 ++ [.rparen] := by
      simp [renderT, pwrap_zero]
    rw [hbare] at hf ⊢
    simp only [List.append_assoc, List.cons_append, List.singleton_append,
      List.nil_append] at hf ⊢
    cases f with
    | zero => simp at hf
    | succ g =>
      simp only [pP]
      have ha : pP cfg g 0 (.inl ())
          (renderT a 0 ++
            (.comma :: (renderT b 0 ++
              (.comma :: (renderT c2 0 ++ (.rparen :: K)))))) =
          .ok (a, .comma :: (renderT b 0 ++
            (.comma :: (renderT c2 0 ++ (.rparen :: K))))) := by
        refine splitAt cfg a iha 0 0 _ _ ?_ ?_ g ?_
        · refine Or.inr ⟨?_, fun _ => prec_pos a⟩
          simp [headLbpLE, tokLbp]
        · exact pStopsAll cfg 0 a _ (by simp [headLbpLE, tokLbp])
        · simp at hf ⊢
          omega
      simp only [ha]
      have hb : pP cfg g 0 (.inl ())
          (renderT b 0 ++ (.comma :: (renderT c2 0 ++ (.rparen :: K)))) =
          .ok (b, .comma :: (renderT c2 0 ++ (.rparen :: K))) := by
        refine splitAt cfg b ihb 0 0 _ _ ?_ ?_ g ?_
        · refine Or.inr ⟨?_, fun _ => prec_pos b⟩
          simp [headLbpLE, tokLbp]
        · exact pStopsAll cfg 0 b _ (by simp [headLbpLE, tokLbp])
        · simp at hf ⊢
          omega
      simp only [hb]
      have hc2 : pP cfg g 0 (.inl ()) (renderT c2 0 ++ (.rparen :: K)) =
          .ok (c2, .rparen :: K) := by
        refine splitAt cfg c2 ihc2 0 0 _ _ ?_ ?_ g ?_
        · refine Or.inr ⟨?_, fun _ => prec_pos c2⟩
          simp [headLbpLE, tokLbp]
        · exact pStopsAll cfg 0 c2 _ (by simp [headLbpLE, tokLbp])
        · simp at hf ⊢
          omega
      simp only [hc2]
      apply hcont
      simp at hf
      omega

/-- Token-level round trip: parsing the canonical rendering of any expression
reproduces the expression exactly. -/
theorem parseToks_renderT (cfg : Cfg) (e : Expr) :
    parseToks cfg (renderT e 0) = .ok e := by
  have h :=
    splitAll cfg e 0 [] (e, [])
      (by simp [headLbpLE])
      (fun _ => prec_pos e)
      (pStopsAll cfg 0 e [] (by simp [headLbpLE]))
      (2 * (renderT e 0).length + 1)
      (by simp; omega)
  rw [List.append_nil] at h
  unfold parseToks pExpr
  rw [h]

/-! ### Tokeniser correctness on rendered words. -/

theorem takeWhile_all {p : Char → Bool} {l : List Char}
    (h : ∀ c ∈ l, p c = true) : l.takeWhile p = l := by
  induction l with
  | nil => rfl
  | cons c cs ih =>
    rw [List.takeWhile_cons, if_pos (h c (by simp))]
    rw [ih (fun d hd => h d (by simp [hd]))]

theorem dropWhile_all {p : Char → Bool} {l : List Char}
    (h : ∀ c ∈ l, p c = true) : l.dropWhile p = [] := by
  induction l with
  | nil => rfl
  | cons c cs ih =>
    rw [List.dropWhile_cons, if_pos (h c (by simp))]
    exact ih (fun d hd => h d (by simp [hd]))

theorem okChar_not_stop {c : Char} (h : okChar c = true) :
    stopChar c = false := by
  simp [okChar] at h
  exact h.1

theorem okChar_spec {c : Char} (h : okChar c = true) :
    c ≠ '(' ∧ c ≠ ')' ∧ c ≠ ',' ∧ c ≠ ' ' := by
  have h2 := okChar_not_stop h
  simp [stopChar] at h2
  simp [okChar] at h
  refine ⟨?_, ?_, ?_, ?_⟩ <;> tauto

theorem digit_okChar {c : Char} (h : c.isDigit = true) : okChar c = true := by
  by_cases h1 : c = '('
  · subst h1; exact absurd h (by decide)
  · by_cases h2 : c = ')'
    · subst h2; exact absurd h (by decide)
    · by_cases h3 : c = ','
      · subst h3; exact absurd h (by decide)
      · by_cases h4 : c = ' '
        · subst h4; exact absurd h (by decide)
        · simp [okChar, stopChar, h1, h2, h3, h4]

theorem digit_not_op {c : Char} (h : c.isDigit = true) : c ∉ opChars := by
  intro hm
  simp [opChars] at hm
  rcases hm with h1 | h1 | h1 | h1 | h1 | h1 | h1 | h1 | h1 | h1 | h1 <;>
    (subst h1; exact absurd h (by decide))

theorem digits1_ok : ∀ cs, digits1 cs = true → ∀ c ∈ cs, okChar c = true := by
  intro cs h c hc
  cases cs with
  | nil => simp [digits1] at h
  | cons d ds =>
    simp only [digits1, Bool.and_eq_true] at h
    rcases List.mem_cons.mp hc with rfl | hc2
    · exact digit_okChar h.1
    · exact digit_okChar (by
        have := (List.all_eq_true.mp h.2) c hc2
        simpa using this)

theorem expSign_ok : ∀ cs, expSign cs = true → ∀ c ∈ cs, okChar c = true := by
  intro cs h c hc
  cases cs with
  | nil => simp [expSign] at h
  | cons d ds =>
    simp only [expSign] at h
    by_cases hd : (d = '+' || d = '-') = true
    · rw [if_pos hd] at h
      rcases List.mem_cons.mp hc with rfl | hc2
      · have hd2 : c = '+' ∨ c = '-' := by simpa using hd
        rcases hd2 with h1 | h1 <;> (subst h1; decide)
      · exact digits1_ok ds h c hc2
    · rw [if_neg hd] at h
      exact digits1_ok (d :: ds) h c hc


theorem expAfter_ok : ∀ cs, expAfter cs = true → ∀ c ∈ cs, okChar c = true := by
  intro cs h c hc
  cases cs with
  | nil => simp [expAfter] at h
  | cons d ds =>
    simp only [expAfter, Bool.and_eq_true] at h
    rcases List.mem_cons.mp hc with rfl | hc2
    · have hd2 : c = 'e' ∨ c = 'E' := by simpa using h.1
      rcases hd2 with h1 | h1 <;> (subst h1; decide)
    · exact expSign_ok ds h.2 c hc2

theorem numFrac_ok : ∀ cs, numFrac cs = true → ∀ c ∈ cs, okChar c = true := by
  intro cs
  induction cs with
  | nil => intro _ c hc; simp at hc
  | cons d ds ih =>
    intro h c hc
    simp only [numFrac] at h
    by_cases hd : d.isDigit = true
    · rw [if_pos hd] at h
      rcases List.mem_cons.mp hc with rfl | hc2
      · exact digit_okChar hd
      · exact ih h c hc2
    · rw [if_neg hd] at h
      exact expAfter_ok (d :: ds) h c hc

theorem numTail_ok : ∀ cs, numTail cs = true → ∀ c ∈ cs, okChar c = true := by
  intro cs
  induction cs with
  | nil => intro _ c hc; simp at hc
  | cons d ds ih =>
    intro h c hc
    simp only [numTail] at h
    by_cases hd : d.isDigit = true
    · rw [if_pos hd] at h
      rcases List.mem_cons.mp hc with rfl | hc2
      · exact digit_okChar hd
      · exact ih h c hc2
    · rw [if_neg hd] at h
      by_cases hdot : d = '.'
      · rw [if_pos hdot] at h
        rcases List.mem_cons.mp hc with rfl | hc2
        · subst hdot; decide
        · exact numFrac_ok ds h c hc2
      · rw [if_neg hdot] at h
        exact expAfter_ok (d :: ds) h c hc

theorem isNumLit_ok : ∀ cs, isNumLit cs = true → ∀ c ∈ cs, okChar c = true := by
  intro cs h c hc
  cases cs with
  | nil => simp [isNumLit] at h
  | cons d ds =>
    simp only [isNumLit, Bool.and_eq_true] at h
    rcases List.mem_cons.mp hc with rfl | hc2
    · exact digit_okChar h.1
    · exact numTail_ok ds h.2 c hc2

theorem isNumLit_head : ∀ cs, isNumLit cs = true →
    ∃ d ds, cs = d :: ds ∧ d.isDigit = true := by
  intro cs h
  cases cs with
  | nil => simp [isNumLit] at h
  | cons d ds =>
    simp only [isNumLit, Bool.and_eq_true] at h
    exact ⟨d, ds, rfl, h.1⟩

theorem scanChunk_nil (cfg : Cfg) (n : Nat) :
    scanChunk cfg (n + 1) [] = .ok [] := rfl

theorem scanChunk_cons (cfg : Cfg) (n : Nat) (c : Char) (cs : List Char)
    (h1 : c ≠ '(') (h2 : c ≠ ')') (h3 : c ≠ ',') (h4 : c ∉ opChars) :
    scanChunk cfg (n + 1) (c :: cs) = (do
      let t ← classify cfg (c :: cs.takeWhile (fun d => !stopChar d))
      let ts ← scanChunk cfg n (cs.dropWhile (fun d => !stopChar d))
      .ok (t :: ts)) := by
  simp only [scanChunk]
  rw [if_neg h1, if_neg h2, if_neg h3, if_neg h4]

/-- Scanning a whole word chunk: every character is a word character, the
head is not an operator character, and the classifier accepts the word. -/
theorem scanChunk_word (cfg : Cfg) (c : Char) (cs : List Char) (t : Tok)
    (hok : ∀ d ∈ c :: cs, okChar d = true)
    (hhead : c ∉ opChars)
    (ht : classify cfg (c :: cs) = .ok t) :
    scanChunk cfg ((c :: cs).length + 1) (c :: cs) = .ok [t] := by
  obtain ⟨h1, h2, h3, _⟩ := okChar_spec (hok c (by simp))
  have htake : cs.takeWhile (fun d => !stopChar d) = cs :=
    takeWhile_all (fun d hd => by
      simp [okChar_not_stop (hok d (by simp [hd]))])
  have hdrop : cs.dropWhile (fun d => !stopChar d) = [] :=
    dropWhile_all (fun d hd => by
      simp [okChar_not_stop (hok d (by simp [hd]))])
  show scanChunk cfg (cs.length + 1 + 1) (c :: cs) = .ok [t]
  rw [scanChunk_cons cfg (cs.length + 1) c cs h1 h2 h3 hhead]
  rw [htake, hdrop, ht, scanChunk_nil]
  rfl

/-- The facts about a token that let its spelling re-scan to itself. -/
def tokOK (cfg : Cfg) : Tok → Prop
  | .sym s => s ∈ cfg.vars
  | .num s => isNumLit s.toList = true ∧ s ∉ cfg.vars ∧ s ∉ cfg.fnBs ∧
      s ∉ cfg.fnTs ∧ s ≠ "if" ∧ s ≠ "then" ∧ s ≠ "else"
  | .fnB s => s ∈ cfg.fnBs ∧ s ∉ cfg.vars ∧ s ≠ "if" ∧ s ≠ "then" ∧ s ≠ "else"
  | .fnT s => s ∈ cfg.fnTs ∧ s ∉ cfg.fnBs ∧ s ∉ cfg.vars ∧ s ≠ "if" ∧
      s ≠ "then" ∧ s ≠ "else"
  | .kIf => False
  | .kThen => False
  | .kElse => False
  | _ => True

theorem classify_toList (cfg : Cfg) (s : String) :
    classify cfg s.toList =
      (if s ∈ cfg.vars then .ok (.sym s)
       else if s = "if" then .ok .kIf
       else if s = "then" then .ok .kThen
       else if s = "else" then .ok .kElse
       else if s ∈ cfg.fnBs then .ok (.fnB s)
       else if s ∈ cfg.fnTs then .ok (.fnT s)
       else if isNumLit s.toList then .ok (.num s)
       else .error ("unknown identifier or malformed literal " ++ s)) := rfl

theorem goodName_of_mem {cfg : Cfg} {s : String} (hcfg : cfgWF cfg = true)
    (h : s ∈ cfg.vars ∨ s ∈ cfg.fnBs ∨ s ∈ cfg.fnTs) : goodName s = true := by
  simp only [cfgWF, List.all_append, Bool.and_eq_true, List.all_eq_true]
    at hcfg
  rcases h with h | h | h
  · exact hcfg.1.1 s h
  · exact hcfg.1.2 s h
  · exact hcfg.2 s h

theorem goodName_spec {s : String} (h : goodName s = true) :
    s.toList ≠ [] ∧ (∀ c ∈ s.toList, okChar c = true) ∧
      s.toList.headD ' ' ∉ opChars := by
  simp only [goodName, Bool.and_eq_true, Bool.not_eq_true', List.all_eq_true,
    decide_eq_true_eq] at h
  refine ⟨?_, h.1.2, h.2⟩
  intro hnil
  rw [hnil] at h
  simp at h

/-- A declared-name word re-scans to its token. -/
theorem scan_word_name (cfg : Cfg) (s : String) (t : Tok)
    (hgood : goodName s = true) (ht : classify cfg s.toList = .ok t) :
    scanChunk cfg (s.toList.length + 1) s.toList = .ok [t] := by
  obtain ⟨hne, hok, hhead⟩ := goodName_spec hgood
  cases hsl : s.toList with
  | nil => exact absurd hsl hne
  | cons c cs =>
    rw [hsl] at ht hok hhead
    exact scanChunk_word cfg c cs t hok (by simpa using hhead) ht

theorem scan_tokStr (cfg : Cfg) (hcfg : cfgWF cfg = true) :
    ∀ t, tokOK cfg t →
      scanChunk cfg ((tokStr t).toList.length + 1) (tokStr t).toList =
        .ok [t] := by
  intro t ht
  cases t with
  | sym s =>
    have hs : s ∈ cfg.vars := ht
    refine scan_word_name cfg s _ (goodName_of_mem hcfg (Or.inl hs)) ?_
    rw [classify_toList, if_pos hs]
  | num s =>
    obtain ⟨hlit, hv, hb, hT, hif, hth, hel⟩ := ht
    obtain ⟨d, ds, hds, hdig⟩ := isNumLit_head s.toList hlit
    show scanChunk cfg (s.toList.length + 1) s.toList = .ok [.num s]
    have hcl : classify cfg s.toList = .ok (.num s) := by
      rw [classify_toList, if_neg hv, if_neg hif, if_neg hth, if_neg hel,
        if_neg hb, if_neg hT, if_pos hlit]
    have hok := isNumLit_ok s.toList hlit
    rw [hds] at hcl hok ⊢
    exact scanChunk_word cfg d ds _ hok (digit_not_op hdig) hcl
  | fnB s =>
    obtain ⟨hs, hv, hif, hth, hel⟩ := ht
    refine scan_word_name cfg s _
      (goodName_of_mem hcfg (Or.inr (Or.inl hs))) ?_
    rw [classify_toList, if_neg hv, if_neg hif, if_neg hth, if_neg hel,
      if_pos hs]
  | fnT s =>
    obtain ⟨hs, hb, hv, hif, hth, hel⟩ := ht
    refine scan_word_name cfg s _
      (goodName_of_mem hcfg (Or.inr (Or.inr hs))) ?_
    rw [classify_toList, if_neg hv, if_neg hif, if_neg hth, if_neg hel,
      if_neg hb, if_pos hs]
  | bop o => cases o <;> rfl
  | question => rfl
  | colon => rfl
  | lparen => rfl
  | rparen => rfl
  | comma => rfl
  | kIf => exact ht.elim
  | kThen => exact ht.elim
  | kElse => exact ht.elim

/-- The spelling of a scannable token is non-empty and has no spaces. -/
theorem tokStr_good (cfg : Cfg) (hcfg : cfgWF cfg = true) (t : Tok)
    (ht : tokOK cfg t) :
    (tokStr t).toList ≠ [] ∧ ∀ c ∈ (tokStr t).toList, c ≠ ' ' := by
  cases t with
  | sym s =>
    obtain ⟨hne, hok, _⟩ := goodName_spec (goodName_of_mem hcfg (Or.inl ht))
    exact ⟨hne, fun c hc => (okChar_spec (hok c hc)).2.2.2⟩
  | num s =>
    obtain ⟨hlit, _⟩ := ht
    have hok := isNumLit_ok s.toList hlit
    obtain ⟨d, ds, hds, _⟩ := isNumLit_head s.toList hlit
    refine ⟨?_, fun c hc => (okChar_spec (hok c hc)).2.2.2⟩
    show s.toList ≠ []
    rw [hds]
    simp
  | fnB s =>
    obtain ⟨hne, hok, _⟩ :=
      goodName_spec (goodName_of_mem hcfg (Or.inr (Or.inl ht.1)))
    exact ⟨hne, fun c hc => (okChar_spec (hok c hc)).2.2.2⟩
  | fnT s =>
    obtain ⟨hne, hok, _⟩ :=
      goodName_spec (goodName_of_mem hcfg (Or.inr (Or.inr ht.1)))
    exact ⟨hne, fun c hc => (okChar_spec (hok c hc)).2.2.2⟩
  | bop o => cases o <;> exact ⟨by decide, by decide⟩
  | question => exact ⟨by decide, by decide⟩
  | colon => exact ⟨by decide, by decide⟩
  | lparen => exact ⟨by decide, by decide⟩
  | rparen => exact ⟨by decide, by decide⟩
  | comma => exact ⟨by decide, by decide⟩
  | kIf => exact ht.elim
  | kThen => exact ht.elim
  | kElse => exact ht.elim

/-! ### Splitting rendered strings back into chunks. -/

theorem splitSp_nosp : ∀ a : List Char, (∀ c ∈ a, c ≠ ' ') →
    splitSp a = [a] := by
  intro a h
  induction a with
  | nil => rfl
  | cons c cs ih =>
    simp only [splitSp]
    rw [if_neg (h c (by simp))]
    rw [ih (fun d hd => h d (by simp [hd]))]
    rfl

theorem splitSp_sep : ∀ a r : List Char, (∀ c ∈ a, c ≠ ' ') →
    splitSp (a ++ ' ' :: r) = a :: splitSp r := by
  intro a r h
  induction a with
  | nil =>
    simp [splitSp]
  | cons c cs ih =>
    simp only [List.cons_append, splitSp, List.append_eq]
    rw [if_neg (h c (by simp))]
    rw [ih (fun d hd => h d (by simp [hd]))]
    rfl

theorem joinWords_cons (w : String) (w2 : String) (ws : List String) :
    joinWords (w :: w2 :: ws) = w ++ " " ++ joinWords (w2 :: ws) := rfl

theorem toList_append (a b : String) : (a ++ b).toList = a.toList ++ b.toList :=
  String.data_append a b

/-- Splitting the space-joined words recovers exactly the word list, provided
every word is non-empty and space-free. -/
theorem splitSp_join : ∀ ws : List String,
    (∀ w ∈ ws, w.toList ≠ [] ∧ ∀ c ∈ w.toList, c ≠ ' ') →
    (splitSp (joinWords ws).toList).filter (fun c => !c.isEmpty) =
      ws.map String.toList := by
  intro ws h
  induction ws with
  | nil => rfl
  | cons w ws ih =>
    cases ws with
    | nil =>
      show (splitSp w.toList).filter (fun c => !c.isEmpty) = [w.toList]
      rw [splitSp_nosp w.toList (h w (by simp)).2]
      have hne := (h w (by simp)).1
      have hne2 : w.data.isEmpty = false := by
        cases hsl : w.data with
        | nil => exact absurd hsl hne
        | cons a b => rfl
      simp [List.filter, hne2]
    | cons w2 ws2 =>
      rw [joinWords_cons]
      have hlist : (w ++ " " ++ joinWords (w2 :: ws2)).toList =
          w.toList ++ ' ' :: (joinWords (w2 :: ws2)).toList := by
        rw [toList_append, toList_append,
          show (" " : String).toList = [' '] from rfl, List.append_assoc]
        rfl
      rw [hlist, splitSp_sep _ _ (h w (by simp)).2]
      rw [List.filter_cons_of_pos (by
        have hne := (h w (by simp)).1
        simpa using hne)]
      rw [ih (fun v hv => h v (by simp [hv]))]
      rfl

theorem mapM_scan (cfg : Cfg) : ∀ ts : List Tok,
    (∀ t ∈ ts, scanChunk cfg ((tokStr t).toList.length + 1)
      (tokStr t).toList = .ok [t]) →
    (ts.map (fun t => (tokStr t).toList)).mapM
        (fun ch => scanChunk cfg (ch.length + 1) ch) =
      .ok (ts.map (fun t => [t])) := by
  intro ts h
  induction ts with
  | nil => rfl
  | cons t ts ih =>
    simp only [List.map_cons, List.mapM_cons]
    rw [h t (by simp)]
    rw [ih (fun u hu => h u (by simp [hu]))]
    rfl

theorem flatten_singletons : ∀ ts : List Tok,
    (ts.map (fun t => [t])).flatten = ts := by
  intro ts
  induction ts with
  | nil => rfl
  | cons t ts ih => simp [ih]

/-- Tokenising the canonical rendering of a token list recovers the list. -/
theorem tokenize_words (cfg : Cfg) (hcfg : cfgWF cfg = true) (ts : List Tok)
    (h : ∀ t ∈ ts, tokOK cfg t) :
    tokenize cfg (joinWords (ts.map tokStr)) = .ok ts := by
  unfold tokenize
  have hwords : ∀ w ∈ ts.map tokStr, w.toList ≠ [] ∧ ∀ c ∈ w.toList, c ≠ ' ' := by
    intro w hw
    obtain ⟨t, ht, rfl⟩ := List.mem_map.mp hw
    exact tokStr_good cfg hcfg t (h t ht)
  rw [splitSp_join (ts.map tokStr) hwords]
  rw [List.map_map]
  have hscan : ∀ t ∈ ts, scanChunk cfg ((tokStr t).toList.length + 1)
      (tokStr t).toList = .ok [t] :=
    fun t ht => scan_tokStr cfg hcfg t (h t ht)
  have hmm := mapM_scan cfg ts hscan
  rw [show String.toList ∘ tokStr = (fun t => (tokStr t).toList) from rfl]
  rw [hmm]
  show Except.ok ((ts.map (fun t => [t])).flatten) = .ok ts
  rw [flatten_singletons]

theorem mem_pwrap {t : Tok} {c p : Nat} {ts : List Tok}
    (h : t ∈ pwrap c p ts) : t ∈ ts ∨ t = .lparen ∨ t = .rparen := by
  unfold pwrap at h
  by_cases hc : p < c
  · rw [if_pos hc] at h
    rcases List.mem_cons.mp h with rfl | h2
    · exact Or.inr (Or.inl rfl)
    · rcases List.mem_append.mp h2 with h3 | h3
      · exact Or.inl h3
      · simp at h3
        exact Or.inr (Or.inr h3)
  · rw [if_neg hc] at h
    exact Or.inl h

/-- Every token of a well-formed rendering satisfies the re-scan facts. -/
theorem renderT_toks (cfg : Cfg) : ∀ e c, wfE cfg e = true →
    ∀ t ∈ renderT e c, tokOK cfg t := by
  intro e
  induction e with
  | num s =>
    intro c he t htm
    simp [wfE] at he
    obtain ⟨⟨⟨⟨⟨⟨h1, h2⟩, h3⟩, h4⟩, h5⟩, h6⟩, h7⟩ := he
    simp only [renderT] at htm
    rcases mem_pwrap htm with h | h | h
    · simp at h
      subst h
      exact ⟨h1, h2, h3, h4, h5, h6, h7⟩
    · subst h; trivial
    · subst h; trivial
  | var s =>
    intro c he t htm
    simp [wfE] at he
    simp only [renderT] at htm
    rcases mem_pwrap htm with h | h | h
    · simp at h
      subst h
      exact he
    · subst h; trivial
    · subst h; trivial
  | neg x ih =>
    intro c he t htm
    simp only [wfE] at he
    simp only [renderT] at htm
    rcases mem_pwrap htm with h | h | h
    · rcases List.mem_cons.mp h with rfl | h2
      · trivial
      · exact ih 46 he t h2
    · subst h; trivial
    · subst h; trivial
  | bin o l r ihl ihr =>
    intro c he t htm
    simp only [wfE, Bool.and_eq_true] at he
    simp only [renderT] at htm
    rcases mem_pwrap htm with h | h | h
    · simp only [List.mem_append, List.mem_cons] at h
      rcases h with h2 | rfl | h2
      · exact ihl o.lctx he.1 t h2
      · trivial
      · exact ihr (o.rbp + 1) he.2 t h2
    · subst h; trivial
    · subst h; trivial
  | tern c1 t1 f1 ihc iht ihf =>
    intro c he t htm
    simp only [wfE, Bool.and_eq_true] at he
    simp only [renderT] at htm
    rcases mem_pwrap htm with h | h | h
    · simp only [List.mem_append, List.mem_cons] at h
      rcases h with (h2 | rfl | h2) | rfl | h2
      · exact ihc 11 he.1.1 t h2
      · trivial
      · exact iht 0 he.1.2 t h2
      · trivial
      · exact ihf 10 he.2 t h2
    · subst h; trivial
    · subst h; trivial
  | callB fn a b iha ihb =>
    intro c he t htm
    simp [wfE] at he
    obtain ⟨⟨⟨⟨⟨⟨h1, h2⟩, h3⟩, h4⟩, h5⟩, ha⟩, hb⟩ := he
    simp only [renderT] at htm
    rcases mem_pwrap htm with h | h | h
    · simp only [List.mem_append, List.mem_cons, List.mem_singleton] at h
      rcases h with ((rfl | rfl | h2) | rfl | h2) | rfl | h2
      · exact ⟨h1, h2, h3, h4, h5⟩
      · trivial
      · exact iha 0 ha t h2
      · trivial
      · exact ihb 0 hb t h2
      · trivial
      · simp at h2
    · subst h; trivial
    · subst h; trivial
  | callT fn a b c2 iha ihb ihc2 =>
    intro c he t htm
    simp [wfE] at he
    obtain ⟨⟨⟨⟨⟨⟨⟨⟨h1, h2⟩, h3⟩, h4⟩, h5⟩, h6⟩, ha⟩, hb⟩, hc⟩ := he
    simp only [renderT] at htm
    rcases mem_pwrap htm with h | h | h
    · simp only [List.mem_append, List.mem_cons, List.mem_singleton] at h
      rcases h with (((rfl | rfl | h2) | rfl | h2) | rfl | h2) | rfl | h2
      · exact ⟨h1, h2, h3, h4, h5, h6⟩
      · trivial
      · exact iha 0 ha t h2
      · trivial
      · exact ihb 0 hb t h2
      · trivial
      · exact ihc2 0 hc t h2
      · trivial
      · simp at h2
    · subst h; trivial
    · subst h; trivial

/-- String-level round trip: rendering any well-formed expression to its
canonical infix spelling and parsing it back reproduces the expression.  The
canonical spelling prints parentheses exactly where the precedence ladder
requires them, so this theorem is the formal statement that the parser honors
precedence, associativity, parenthesisation and function arity. -/
theorem parse_render (cfg : Cfg) (e : Expr) (hcfg : cfgWF cfg = true)
    (he : wfE cfg e = true) : parse cfg (renderStr e) = .ok e := by
  unfold parse renderStr
  rw [tokenize_words cfg hcfg (renderT e 0) (renderT_toks cfg e 0 he)]
  exact parseToks_renderT cfg e

/-! ### The Reducer: evaluating rendered prefix strings against variables.

Modelled from the spec: `Reducer.reduce` parses a space-separated prefix
expression and evaluates it against a mapping of variable names to numeric
arrays or scalars, applying every operator element-wise when operands are
arrays (`pewpew/lib/pratt.py` is missing from the source tree).  Scalars are
exact rationals in a normalised-fraction representation whose arithmetic
reduces inside the kernel, standing in for the floating-point numbers of the
original. -/

/-- An exact scalar: a normalised fraction with positive denominator. -/
structure Sc where
  num : Int
  den : Nat
  deriving DecidableEq, Repr

/-- Build a normalised fraction from a numerator and denominator; a zero
denominator yields zero, matching the total-division convention. -/
def Sc.norm (n d : Int) : Sc :=
  if d = 0 then ⟨0, 1⟩
  else
    let s : Int := if d < 0 then -1 else 1
    let n2 := s * n
    let d2 := (s * d).toNat
    let g := Nat.gcd n2.natAbs d2
    ⟨n2 / g, d2 / g⟩

instance : OfNat Sc n := ⟨⟨n, 1⟩⟩

instance : Add Sc :=
  ⟨fun a b => Sc.norm (a.num * b.den + b.num * a.den) (a.den * b.den)⟩

instance : Sub Sc :=
  ⟨fun a b => Sc.norm (a.num * b.den - b.num * a.den) (a.den * b.den)⟩

instance : Mul Sc := ⟨fun a b => Sc.norm (a.num * b.num) (a.den * b.den)⟩

instance : Div Sc := ⟨fun a b => Sc.norm (a.num * b.den) (a.den * b.num)⟩

instance : Neg Sc := ⟨fun a => ⟨-a.num, a.den⟩⟩

/-- Reciprocal, zero for zero. -/
def Sc.inv (a : Sc) : Sc := Sc.norm a.den a.num

/-- Cross-multiplied strict order (denominators are positive). -/
def Sc.lt (a b : Sc) : Bool := a.num * b.den < b.num * a.den

/-- Cross-multiplied order (denominators are positive). -/
def Sc.le (a b : Sc) : Bool := a.num * b.den ≤ b.num * a.den

/-- Natural powers. -/
def Sc.powN (a : Sc) : Nat → Sc
  | 0 => 1
  | k + 1 => a * a.powN k

/-- A run-time value: a scalar or a one-dimensional numeric array. -/
inductive Value
  | s (q : Sc)
  | arr (l : List Sc)
  deriving DecidableEq, Repr

/-- The element of a value at a position: scalars broadcast. -/
def Value.elemAt (v : Value) (i : Nat) : Sc :=
  match v with
  | .s q => q
  | .arr l => l.getD i 0

/-- Comparison results as numbers, matching numpy boolean coercion. -/
def boolQ (b : Bool) : Sc := if b then 1 else 0

/-- A total stand-in for numpy power: integer exponents exponentiate,
anything else yields zero. -/
def qpow (a b : Sc) : Sc :=
  if b.den = 1 then
    (if 0 ≤ b.num then a.powN b.num.toNat else (a.powN (-b.num).toNat).inv)
  else 0

/-- Arity of a prefix operator word. -/
def opArity (w : String) : Option Nat :=
  if w = "u-" then some 1
  else if w ∈ (["+", "-", "*", "/", "^", "<", ">", "<=", ">=", "=", "!="] :
      List String) then some 2
  else if w = "?" then some 3
  else none

/-- Scalar semantics of each operator. -/
def opApply (w : String) (args : List Sc) : Sc :=
  let a := args.getD 0 0
  let b := args.getD 1 0
  let c := args.getD 2 0
  if w = "u-" then -a
  else if w = "+" then a + b
  else if w = "-" then a - b
  else if w = "*" then a * b
  else if w = "/" then a / b
  else if w = "^" then qpow a b
  else if w = "<" then boolQ (a.lt b)
  else if w = ">" then boolQ (b.lt a)
  else if w = "<=" then boolQ (a.le b)
  else if w = ">=" then boolQ (b.le a)
  else if w = "=" then boolQ (a = b)
  else if w = "!=" then boolQ (a ≠ b)
  else if w = "?" then (if a ≠ 0 then b else c)
  else 0

/-- Element-wise application with numpy-style broadcasting between scalars
and same-length arrays; mismatched array lengths are an error. -/
def broadcast (w : String) (args : List Value) : Except String Value :=
  match args.filterMap
      (fun v => match v with | .arr l => some l.length | _ => none) with
  | [] => .ok (.s (opApply w (args.map (fun v => v.elemAt 0))))
  | n :: rest =>
    if rest.all (fun m => m = n) then
      .ok (.arr ((List.range n).map
        (fun i => opApply w (args.map (fun v => v.elemAt i)))))
    else .error "operands could not be broadcast together"

/-- Numeric value of a digit run. -/
def digitsNat (cs : List Char) : Nat :=
  cs.foldl (fun acc c => 10 * acc + (c.toNat - 48)) 0

/-- Powers of ten. -/
def pow10 : Nat → Sc
  | 0 => 1
  | k + 1 => 10 * pow10 k

/-- Numeric value of a literal spelling: integer part, fraction, signed
decimal exponent. -/
def numValue (s : String) : Sc :=
  let cs := s.toList
  let ds := cs.takeWhile Char.isDigit
  let rest := cs.dropWhile Char.isDigit
  let frac :=
    match rest with
    | '.' :: r => r.takeWhile Char.isDigit
    | _ => []
  let rest2 :=
    match rest with
    | '.' :: r => r.dropWhile Char.isDigit
    | r => r
  let mant : Sc :=
    (⟨digitsNat ds, 1⟩ : Sc) + (⟨digitsNat frac, 1⟩ : Sc) / pow10 frac.length
  match rest2 with
  | _ :: '-' :: r => mant / pow10 (digitsNat (r.takeWhile Char.isDigit))
  | _ :: '+' :: r => mant * pow10 (digitsNat (r.takeWhile Char.isDigit))
  | _ :: r => mant * pow10 (digitsNat (r.takeWhile Char.isDigit))
  | [] => mant

/-- Prefix evaluation: an operator word consumes its fixed number of
operands, a known variable yields its value, a numeric literal its number;
anything else is an undefined variable. -/
def rParse (vars : List (String × Value)) :
    Nat → List String → Except String (Value × List String)
  | 0, _ => .error "fuel exhausted"
  | fuel + 1, l =>
    match l with
    | [] => .error "missing operand"
    | w :: ws =>
      match opArity w with
      | some 1 =>
        match rParse vars fuel ws with
        | .error e => .error e
        | .ok (a, r1) =>
          match broadcast w [a] with
          | .error e => .error e
          | .ok v => .ok (v, r1)
      | some 2 =>
        match rParse vars fuel ws with
        | .error e => .error e
        | .ok (a, r1) =>
          match rParse vars fuel r1 with
          | .error e => .error e
          | .ok (b, r2) =>
            match broadcast w [a, b] with
            | .error e => .error e
            | .ok v => .ok (v, r2)
      | some _ =>
        match rParse vars fuel ws with
        | .error e => .error e
        | .ok (a, r1) =>
          match rParse vars fuel r1 with
          | .error e => .error e
          | .ok (b, r2) =>
            match rParse vars fuel r2 with
            | .error e => .error e
            | .ok (c, r3) =>
              match broadcast w [a, b, c] with
              | .error e => .error e
              | .ok v => .ok (v, r3)
      | none =>
        match vars.lookup w with
        | some v => .ok (v, ws)
        | none =>
          if isNumLit w.toList then .ok (.s (numValue w), ws)
          else .error ("undefined variable " ++ w)

/-- The words of a reducer input string. -/
def reduceWords (s : String) : List String :=
  ((splitSp s.toList).filter (fun c => !c.isEmpty)).map (fun w => String.mk w)

/-- Modelled from the spec: `Reducer.reduce` evaluates a prefix expression
string; exactly one complete term must consume the whole input. -/
def reduce (vars : List (String × Value)) (s : String) : Except String Value :=
  let ws := reduceWords s
  match rParse vars (ws.length + 1) ws with
  | .error e => .error e
  | .ok (v, []) => .ok v
  | .ok (_, _ :: _) => .error "malformed expression"

/-- The array variable of test_reduce_basic, flattened to one dimension. -/
def aVar : List (String × Value) := [("a", .arr [0, 1, 2, 3])]

example : reduce [] "1" = .ok (.s 1) := by decide
example : reduce aVar "a" = .ok (.arr [0, 1, 2, 3]) := by decide
example : reduce [] "+ + 1 2 3" = .ok (.s 6) := by decide
example : reduce [] "* + 1 2 3" = .ok (.s 9) := by decide
example : reduce [] "< 1 2" = .ok (.s 1) := by decide
example : reduce [] "> 2 1" = .ok (.s 1) := by decide
example : reduce [] "<= >= 1 2 3" = .ok (.s 1) := by decide
example : reduce [] "? < 1 2 3 4" = .ok (.s 3) := by decide
example : reduce [] "? > 1 2 3 4" = .ok (.s 4) := by decide
example : reduce [] "? < 1 2 ? > 1 2 3 4 5" = .ok (.s 4) := by decide
example : reduce [] "1.0e-1" = .ok (.s (⟨1, 10⟩ : Sc)) := by decide
example : reduce aVar "* a 2" = .ok (.arr [0, 2, 4, 6]) := by decide
example : reduce aVar "? > a 1 a / a 2" =
    .ok (.arr [0, ⟨1, 2⟩, 2, 3]) := by decide
example : (reduce [] "").isOk = false := by decide
example : (reduce [] "a").isOk = false := by decide
example : (reduce [] "+ 1 2 3").isOk = false := by decide
example : (reduce [] "? 2 3").isOk = false := by decide

/-! ### Element-wise evaluation: scalarising every array variable at one
position commutes with reduction. -/

/-- The scalar value of `v` at position `i`. -/
def scalarizeV (i : Nat) (v : Value) : Value := .s (v.elemAt i)

/-- Replace every variable by its scalar value at position `i`. -/
def scalarize (i : Nat) (vars : List (String × Value)) :
    List (String × Value) :=
  vars.map (fun p => (p.1, scalarizeV i p.2))

/-- Every variable is an array of length `n`. -/
def ArrVars (vars : List (String × Value)) (n : Nat) : Prop :=
  ∀ p ∈ vars, ∃ l : List Sc, p.2 = .arr l ∧ l.length = n

theorem lookup_scalarize (i : Nat) (vars : List (String × Value))
    (w : String) :
    (scalarize i vars).lookup w = (vars.lookup w).map (scalarizeV i) := by
  induction vars with
  | nil => rfl
  | cons p ps ih =>
    by_cases h : (w == p.1) = true
    · simp [scalarize, List.lookup, h]
    · simp only [Bool.not_eq_true] at h
      simp [scalarize, List.lookup, h] at ih ⊢
      exact ih

theorem getD_range_map (f : Nat → Sc) (n i : Nat) (hi : i < n) :
    (((List.range n).map f).getD i 0) = f i := by
  simp [List.getD_eq_getElem?_getD, List.getElem?_map, List.getElem?_range, hi]

theorem filterMap_scalarize (args : List Value) (i : Nat) :
    (args.map (scalarizeV i)).filterMap
      (fun v => match v with | .arr l => some l.length | _ => none) = [] := by
  induction args with
  | nil => rfl
  | cons a as ih => simpa [scalarizeV, List.filterMap_cons] using ih

theorem all_scalar_of_filterMap_nil (args : List Value)
    (h : args.filterMap
      (fun v => match v with | .arr l => some l.length | _ => none) = []) :
    ∀ v ∈ args, ∃ q, v = .s q := by
  intro v hv
  cases v with
  | s q => exact ⟨q, rfl⟩
  | arr l =>
    exfalso
    have : (l.length : Nat) ∈ args.filterMap
        (fun v => match v with | .arr l => some l.length | _ => none) := by
      apply List.mem_filterMap.mpr
      exact ⟨.arr l, hv, rfl⟩
    rw [h] at this
    simp at this

/-- Elementwise correctness of a broadcast application: taking element `i`
of the result equals applying the operator to element `i` of every operand,
and array results keep the common length. -/
theorem broadcast_elem (w : String) (args : List Value) (n i : Nat)
    (hi : i < n)
    (hargs : ∀ v ∈ args, ∀ l, v = .arr l → l.length = n)
    (v : Value) (hv : broadcast w args = .ok v) :
    broadcast w (args.map (scalarizeV i)) = .ok (.s (v.elemAt i)) ∧
      (∀ l, v = .arr l → l.length = n) := by
  have hL : broadcast w (args.map (scalarizeV i)) =
      .ok (.s (opApply w (args.map (fun u => u.elemAt i)))) := by
    unfold broadcast
    rw [filterMap_scalarize]
    have hmap : (args.map (scalarizeV i)).map (fun u => u.elemAt 0) =
        args.map (fun u => u.elemAt i) := by
      rw [List.map_map]
      rfl
    rw [hmap]
  unfold broadcast at hv
  cases hfm : args.filterMap
      (fun u => match u with | .arr l => some l.length | _ => none) with
  | nil =>
    rw [hfm] at hv
    have hv1 : Except.ok (Value.s (opApply w
        (args.map (fun u => u.elemAt 0)))) = Except.ok v := hv
    have hall := all_scalar_of_filterMap_nil args hfm
    have heq : args.map (fun u => u.elemAt 0) =
        args.map (fun u => u.elemAt i) := by
      apply List.map_congr_left
      intro u hu
      obtain ⟨q, rfl⟩ := hall u hu
      rfl
    refine ⟨?_, ?_⟩
    · rw [hL]
      have hv2 : v = .s (opApply w (args.map (fun u => u.elemAt 0))) :=
        (Except.ok.inj hv1).symm
      rw [hv2, heq]
      rfl
    · intro l hl
      have hv2 : v = .s (opApply w (args.map (fun u => u.elemAt 0))) :=
        (Except.ok.inj hv1).symm
      rw [hv2] at hl
      cases hl
  | cons m rest =>
    rw [hfm] at hv
    have hv1 : (if (rest.all fun x => decide (x = m)) = true then
        Except.ok (Value.arr ((List.range m).map
          (fun j => opApply w (args.map (fun u => u.elemAt j)))))
      else Except.error "operands could not be broadcast together") =
        Except.ok v := hv
    have hm : m = n := by
      have hmem : m ∈ args.filterMap
          (fun u => match u with | .arr l => some l.length | _ => none) := by
        rw [hfm]; simp
      obtain ⟨u, hu, hum⟩ := List.mem_filterMap.mp hmem
      cases u with
      | s q => simp at hum
      | arr l =>
        have : l.length = m := by simpa using hum
        rw [← this]
        exact hargs (.arr l) hu l rfl
    by_cases hrest : (rest.all fun x => decide (x = m)) = true
    · rw [if_pos hrest] at hv1
      have hv2 : v = .arr ((List.range m).map
          (fun j => opApply w (args.map (fun u => u.elemAt j)))) :=
        (Except.ok.inj hv1).symm
      subst hm
      refine ⟨?_, ?_⟩
      · rw [hL, hv2]
        show _ = Except.ok (.s (Value.elemAt (.arr _) i))
        simp only [Value.elemAt]
        rw [getD_range_map _ m i hi]
      · intro l hl
        rw [hv2] at hl
        cases hl
        simp
    · rw [if_neg hrest] at hv1
      cases hv1

theorem lookup_mem : ∀ (vars : List (String × Value)) (w : String)
    (u : Value), vars.lookup w = some u → ∃ k, (k, u) ∈ vars := by
  intro vars
  induction vars with
  | nil => intro w u h; cases h
  | cons p ps ih =>
    intro w u h
    by_cases hb : (w == p.1) = true
    · simp [List.lookup, hb] at h
      refine ⟨p.1, ?_⟩
      rw [← h]
      simp
    · simp [List.lookup, hb] at h
      obtain ⟨k, hk⟩ := ih w u h
      exact ⟨k, List.mem_cons_of_mem _ hk⟩

/-- Scalarising the variables commutes with prefix evaluation: the scalar
run returns element `i` of the array run, and array results have the common
variable length. -/
theorem rParse_scalarize (vars : List (String × Value)) (n i : Nat)
    (hvars : ArrVars vars n) (hi : i < n) :
    ∀ f toks v rest, rParse vars f toks = .ok (v, rest) →
      rParse (scalarize i vars) f toks = .ok (.s (v.elemAt i), rest) ∧
        (∀ l, v = .arr l → l.length = n) := by
  intro f
  induction f with
  | zero => intro toks v rest h; cases h
  | succ g ih =>
    intro toks v rest h
    cases toks with
    | nil => cases h
    | cons w ws =>
      simp only [rParse] at h ⊢
      cases ha : opArity w with
      | some k =>
        rw [ha] at h
        rcases k with _ | _ | _ | k3
        ·
          have h1t : (match rParse vars g ws with
              | Except.error e => Except.error e
              | Except.ok (a, r1) =>
                match rParse vars g r1 with
                | Except.error e => Except.error e
                | Except.ok (b, r2) =>
                  match rParse vars g r2 with
                  | Except.error e => Except.error e
                  | Except.ok (c, r3) =>
                    match broadcast w [a, b, c] with
                    | Except.error e => Except.error e
                    | Except.ok v => Except.ok (v, r3)) =
              Except.ok (v, rest) := h
          show (match rParse (scalarize i vars) g ws with
              | Except.error e => Except.error e
              | Except.ok (a, r1) =>
                match rParse (scalarize i vars) g r1 with
                | Except.error e => Except.error e
                | Except.ok (b, r2) =>
                  match rParse (scalarize i vars) g r2 with
                  | Except.error e => Except.error e
                  | Except.ok (c, r3) =>
                    match broadcast w [a, b, c] with
                    | Except.error e => Except.error e
                    | Except.ok v => Except.ok (v, r3)) =
              Except.ok (Value.s (v.elemAt i), rest) ∧
            ∀ (l : List Sc), v = Value.arr l → l.length = n
          cases h1 : rParse vars g ws with
          | error e => rw [h1] at h1t; cases h1t
          | ok p =>
            obtain ⟨a, r1⟩ := p
            rw [h1] at h1t
            have h2t : (match rParse vars g r1 with
                | Except.error e => Except.error e
                | Except.ok (b, r2) =>
                  match rParse vars g r2 with
                  | Except.error e => Except.error e
                  | Except.ok (c, r3) =>
                    match broadcast w [a, b, c] with
                    | Except.error e => Except.error e
                    | Except.ok v => Except.ok (v, r3)) =
                Except.ok (v, rest) := h1t
            obtain ⟨ihv1, ihlen1⟩ := ih ws a r1 h1
            rw [ihv1]
            show (match rParse (scalarize i vars) g r1 with
                | Except.error e => Except.error e
                | Except.ok (b, r2) =>
                  match rParse (scalarize i vars) g r2 with
                  | Except.error e => Except.error e
                  | Except.ok (c, r3) =>
                    match broadcast w [Value.s (a.elemAt i), b, c] with
                    | Except.error e => Except.error e
                    | Except.ok v => Except.ok (v, r3)) =
                Except.ok (Value.s (v.elemAt i), rest) ∧
              ∀ (l : List Sc), v = Value.arr l → l.length = n
            cases h2 : rParse vars g r1 with
            | error e => rw [h2] at h2t; cases h2t
            | ok p2 =>
              obtain ⟨b, r2⟩ := p2
              rw [h2] at h2t
              have h3t : (match rParse vars g r2 with
                  | Except.error e => Except.error e
                  | Except.ok (c, r3) =>
                    match broadcast w [a, b, c] with
                    | Except.error e => Except.error e
                    | Except.ok v => Except.ok (v, r3)) =
                  Except.ok (v, rest) := h2t
              obtain ⟨ihv2, ihlen2⟩ := ih r1 b r2 h2
              rw [ihv2]
              show (match rParse (scalarize i vars) g r2 with
                  | Except.error e => Except.error e
                  | Except.ok (c, r3) =>
                    match broadcast w [Value.s (a.elemAt i),
                        Value.s (b.elemAt i), c] with
                    | Except.error e => Except.error e
                    | Except.ok v => Except.ok (v, r3)) =
                  Except.ok (Value.s (v.elemAt i), rest) ∧
                ∀ (l : List Sc), v = Value.arr l → l.length = n
              cases h3 : rParse vars g r2 with
              | error e => rw [h3] at h3t; cases h3t
              | ok p3 =>
                obtain ⟨c, r3⟩ := p3
                rw [h3] at h3t
                have h4t : (match broadcast w [a, b, c] with
                    | Except.error e => Except.error e
                    | Except.ok v => Except.ok (v, r3)) =
                    Except.ok (v, rest) := h3t
                obtain ⟨ihv3, ihlen3⟩ := ih r2 c r3 h3
                rw [ihv3]
                show (match broadcast w [Value.s (a.elemAt i),
                      Value.s (b.elemAt i), Value.s (c.elemAt i)] with
                    | Except.error e => Except.error e
                    | Except.ok v => Except.ok (v, r3)) =
                    Except.ok (Value.s (v.elemAt i), rest) ∧
                  ∀ (l : List Sc), v = Value.arr l → l.length = n
                cases hb : broadcast w [a, b, c] with
                | error e => rw [hb] at h4t; cases h4t
                | ok bv =>
                  rw [hb] at h4t
                  obtain ⟨rfl, rfl⟩ : bv = v ∧ r3 = rest := by
                    cases h4t; exact ⟨rfl, rfl⟩
                  obtain ⟨hbe, hblen⟩ := broadcast_elem w [a, b, c] n i hi
                    (by
                      intro u hu l hl
                      simp at hu
                      rcases hu with rfl | rfl | rfl
                      · exact ihlen1 l hl
                      · exact ihlen2 l hl
                      · exact ihlen3 l hl) bv hb
                  simp only [scalarizeV, List.map_cons, List.map_nil] at hbe
                  rw [hbe]
                  exact ⟨rfl, hblen⟩
        ·
          have h1t : (match rParse vars g ws with
              | Except.error e => Except.error e
              | Except.ok (a, r1) =>
                match broadcast w [a] with
                | Except.error e => Except.error e
                | Except.ok v => Except.ok (v, r1)) = Except.ok (v, rest) := h
          show (match rParse (scalarize i vars) g ws with
              | Except.error e => Except.error e
              | Except.ok (a, r1) =>
                match broadcast w [a] with
                | Except.error e => Except.error e
                | Except.ok v => Except.ok (v, r1)) =
              Except.ok (Value.s (v.elemAt i), rest) ∧
            ∀ (l : List Sc), v = Value.arr l → l.length = n
          cases h1 : rParse vars g ws with
          | error e => rw [h1] at h1t; cases h1t
          | ok p =>
            obtain ⟨a, r1⟩ := p
            rw [h1] at h1t
            have h2t : (match broadcast w [a] with
                | Except.error e => Except.error e
                | Except.ok v => Except.ok (v, r1)) =
                Except.ok (v, rest) := h1t
            obtain ⟨ihv1, ihlen1⟩ := ih ws a r1 h1
            rw [ihv1]
            show (match broadcast w [Value.s (a.elemAt i)] with
                | Except.error e => Except.error e
                | Except.ok v => Except.ok (v, r1)) =
                Except.ok (Value.s (v.elemAt i), rest) ∧
              ∀ (l : List Sc), v = Value.arr l → l.length = n
            cases hb : broadcast w [a] with
            | error e => rw [hb] at h2t; cases h2t
            | ok bv =>
              rw [hb] at h2t
              obtain ⟨rfl, rfl⟩ : bv = v ∧ r1 = rest := by
                cases h2t; exact ⟨rfl, rfl⟩
              obtain ⟨hbe, hblen⟩ := broadcast_elem w [a] n i hi
                (by
                  intro u hu l hl
                  simp at hu
                  subst hu
                  exact ihlen1 l hl) bv hb
              simp only [scalarizeV, List.map_cons, List.map_nil] at hbe
              rw [hbe]
              exact ⟨rfl, hblen⟩
        ·
          have h1t : (match rParse vars g ws with
              | Except.error e => Except.error e
              | Except.ok (a, r1) =>
                match rParse vars g r1 with
                | Except.error e => Except.error e
                | Except.ok (b, r2) =>
                  match broadcast w [a, b] with
                  | Except.error e => Except.error e
                  | Except.ok v => Except.ok (v, r2)) =
              Except.ok (v, rest) := h
          show (match rParse (scalarize i vars) g ws with
              | Except.error e => Except.error e
              | Except.ok (a, r1) =>
                match rParse (scalarize i vars) g r1 with
                | Except.error e => Except.error e
                | Except.ok (b, r2) =>
                  match broadcast w [a, b] with
                  | Except.error e => Except.error e
                  | Except.ok v => Except.ok (v, r2)) =
              Except.ok (Value.s (v.elemAt i), rest) ∧
            ∀ (l : List Sc), v = Value.arr l → l.length = n
          cases h1 : rParse vars g ws with
          | error e => rw [h1] at h1t; cases h1t
          | ok p =>
            obtain ⟨a, r1⟩ := p
            rw [h1] at h1t
            have h2t : (match rParse vars g r1 with
                | Except.error e => Except.error e
                | Except.ok (b, r2) =>
                  match broadcast w [a, b] with
                  | Except.error e => Except.error e
                  | Except.ok v => Except.ok (v, r2)) =
                Except.ok (v, rest) := h1t
            obtain ⟨ihv1, ihlen1⟩ := ih ws a r1 h1
            rw [ihv1]
            show (match rParse (scalarize i vars) g r1 with
                | Except.error e => Except.error e
                | Except.ok (b, r2) =>
                  match broadcast w [Value.s (a.elemAt i), b] with
                  | Except.error e => Except.error e
                  | Except.ok v => Except.ok (v, r2)) =
                Except.ok (Value.s (v.elemAt i), rest) ∧
              ∀ (l : List Sc), v = Value.arr l → l.length = n
            cases h2 : rParse vars g r1 with
            | error e => rw [h2] at h2t; cases h2t
            | ok p2 =>
              obtain ⟨b, r2⟩ := p2
              rw [h2] at h2t
              have h3t : (match broadcast w [a, b] with
                  | Except.error e => Except.error e
                  | Except.ok v => Except.ok (v, r2)) =
                  Except.ok (v, rest) := h2t
              obtain ⟨ihv2, ihlen2⟩ := ih r1 b r2 h2
              rw [ihv2]
              show (match broadcast w [Value.s (a.elemAt i),
                    Value.s (b.elemAt i)] with
                  | Except.error e => Except.error e
                  | Except.ok v => Except.ok (v, r2)) =
                  Except.ok (Value.s (v.elemAt i), rest) ∧
                ∀ (l : List Sc), v = Value.arr l → l.length = n
              cases hb : broadcast w [a, b] with
              | error e => rw [hb] at h3t; cases h3t
              | ok bv =>
                rw [hb] at h3t
                obtain ⟨rfl, rfl⟩ : bv = v ∧ r2 = rest := by
                  cases h3t; exact ⟨rfl, rfl⟩
                obtain ⟨hbe, hblen⟩ := broadcast_elem w [a, b] n i hi
                  (by
                    intro u hu l hl
                    simp at hu
                    rcases hu with rfl | rfl
                    · exact ihlen1 l hl
                    · exact ihlen2 l hl) bv hb
                simp only [scalarizeV, List.map_cons, List.map_nil] at hbe
                rw [hbe]
                exact ⟨rfl, hblen⟩
        ·
          have h1t : (match rParse vars g ws with
              | Except.error e => Except.error e
              | Except.ok (a, r1) =>
                match rParse vars g r1 with
                | Except.error e => Except.error e
                | Except.ok (b, r2) =>
                  match rParse vars g r2 with
                  | Except.error e => Except.error e
                  | Except.ok (c, r3) =>
                    match broadcast w [a, b, c] with
                    | Except.error e => Except.error e
                    | Except.ok v => Except.ok (v, r3)) =
              Except.ok (v, rest) := h
          show (match rParse (scalarize i vars) g ws with
              | Except.error e => Except.error e
              | Except.ok (a, r1) =>
                match rParse (scalarize i vars) g r1 with
                | Except.error e => Except.error e
                | Except.ok (b, r2) =>
                  match rParse (scalarize i vars) g r2 with
                  | Except.error e => Except.error e
                  | Except.ok (c, r3) =>
                    match broadcast w [a, b, c] with
                    | Except.error e => Except.error e
                    | Except.ok v => Except.ok (v, r3)) =
              Except.ok (Value.s (v.elemAt i), rest) ∧
            ∀ (l : List Sc), v = Value.arr l → l.length = n
          cases h1 : rParse vars g ws with
          | error e => rw [h1] at h1t; cases h1t
          | ok p =>
            obtain ⟨a, r1⟩ := p
            rw [h1] at h1t
            have h2t : (match rParse vars g r1 with
                | Except.error e => Except.error e
                | Except.ok (b, r2) =>
                  match rParse vars g r2 with
                  | Except.error e => Except.error e
                  | Except.ok (c, r3) =>
                    match broadcast w [a, b, c] with
                    | Except.error e => Except.error e
                    | Except.ok v => Except.ok (v, r3)) =
                Except.ok (v, rest) := h1t
            obtain ⟨ihv1, ihlen1⟩ := ih ws a r1 h1
            rw [ihv1]
            show (match rParse (scalarize i vars) g r1 with
                | Except.error e => Except.error e
                | Except.ok (b, r2) =>
                  match rParse (scalarize i vars) g r2 with
                  | Except.error e => Except.error e
                  | Except.ok (c, r3) =>
                    match broadcast w [Value.s (a.elemAt i), b, c] with
                    | Except.error e => Except.error e
                    | Except.ok v => Except.ok (v, r3)) =
                Except.ok (Value.s (v.elemAt i), rest) ∧
              ∀ (l : List Sc), v = Value.arr l → l.length = n
            cases h2 : rParse vars g r1 with
            | error e => rw [h2] at h2t; cases h2t
            | ok p2 =>
              obtain ⟨b, r2⟩ := p2
              rw [h2] at h2t
              have h3t : (match rParse vars g r2 with
                  | Except.error e => Except.error e
                  | Except.ok (c, r3) =>
                    match broadcast w [a, b, c] with
                    | Except.error e => Except.error e
                    | Except.ok v => Except.ok (v, r3)) =
                  Except.ok (v, rest) := h2t
              obtain ⟨ihv2, ihlen2⟩ := ih r1 b r2 h2
              rw [ihv2]
              show (match rParse (scalarize i vars) g r2 with
                  | Except.error e => Except.error e
                  | Except.ok (c, r3) =>
                    match broadcast w [Value.s (a.elemAt i),
                        Value.s (b.elemAt i), c] with
                    | Except.error e => Except.error e
                    | Except.ok v => Except.ok (v, r3)) =
                  Except.ok (Value.s (v.elemAt i), rest) ∧
                ∀ (l : List Sc), v = Value.arr l → l.length = n
              cases h3 : rParse vars g r2 with
              | error e => rw [h3] at h3t; cases h3t
              | ok p3 =>
                obtain ⟨c, r3⟩ := p3
                rw [h3] at h3t
                have h4t : (match broadcast w [a, b, c] with
                    | Except.error e => Except.error e
                    | Except.ok v => Except.ok (v, r3)) =
                    Except.ok (v, rest) := h3t
                obtain ⟨ihv3, ihlen3⟩ := ih r2 c r3 h3
                rw [ihv3]
                show (match broadcast w [Value.s (a.elemAt i),
                      Value.s (b.elemAt i), Value.s (c.elemAt i)] with
                    | Except.error e => Except.error e
                    | Except.ok v => Except.ok (v, r3)) =
                    Except.ok (Value.s (v.elemAt i), rest) ∧
                  ∀ (l : List Sc), v = Value.arr l → l.length = n
                cases hb : broadcast w [a, b, c] with
                | error e => rw [hb] at h4t; cases h4t
                | ok bv =>
                  rw [hb] at h4t
                  obtain ⟨rfl, rfl⟩ : bv = v ∧ r3 = rest := by
                    cases h4t; exact ⟨rfl, rfl⟩
                  obtain ⟨hbe, hblen⟩ := broadcast_elem w [a, b, c] n i hi
                    (by
                      intro u hu l hl
                      simp at hu
                      rcases hu with rfl | rfl | rfl
                      · exact ihlen1 l hl
                      · exact ihlen2 l hl
                      · exact ihlen3 l hl) bv hb
                  simp only [scalarizeV, List.map_cons, List.map_nil] at hbe
                  rw [hbe]
                  exact ⟨rfl, hblen⟩
      | none =>
        rw [ha] at h
        have h1t : (match vars.lookup w with
            | some v => Except.ok (v, ws)
            | none =>
              if isNumLit w.toList = true then
                Except.ok (Value.s (numValue w), ws)
              else Except.error ("undefined variable " ++ w)) =
            Except.ok (v, rest) := h
        show (match List.lookup w (scalarize i vars) with
            | some v => Except.ok (v, ws)
            | none =>
              if isNumLit w.toList = true then
                Except.ok (Value.s (numValue w), ws)
              else Except.error ("undefined variable " ++ w)) =
            Except.ok (Value.s (v.elemAt i), rest) ∧
          ∀ (l : List Sc), v = Value.arr l → l.length = n
        rw [lookup_scalarize]
        cases hl : vars.lookup w with
        | some u =>
          rw [hl] at h1t
          obtain ⟨rfl, rfl⟩ : u = v ∧ ws = rest := by
            cases h1t; exact ⟨rfl, rfl⟩
          refine ⟨rfl, ?_⟩
          intro l hll
          obtain ⟨k, hk⟩ := lookup_mem vars w u hl
          obtain ⟨l0, hval, hlen⟩ := hvars (k, u) hk
          simp only at hval
          rw [hval] at hll
          cases hll
          rw [← hlen]
        | none =>
          rw [hl] at h1t
          by_cases hn : isNumLit w.toList = true
          · rw [if_pos hn] at h1t
            obtain ⟨rfl, rfl⟩ : Value.s (numValue w) = v ∧ ws = rest := by
              cases h1t; exact ⟨rfl, rfl⟩
            refine ⟨?_, fun l hl => by cases hl⟩
            show (if isNumLit w.toList = true then
                Except.ok (Value.s (numValue w), ws)
              else Except.error ("undefined variable " ++ w)) =
              Except.ok (Value.s (numValue w), ws)
            rw [if_pos hn]
          · rw [if_neg hn] at h1t
            cases h1t

theorem reduce_scalarize (vars : List (String × Value)) (n i : Nat)
    (hvars : ArrVars vars n) (hi : i < n) (s : String) (v : Value)
    (h : reduce vars s = .ok v) :
    reduce (scalarize i vars) s = .ok (.s (v.elemAt i)) := by
  have h2 : (match rParse vars ((reduceWords s).length + 1)
        (reduceWords s) with
      | Except.error e => Except.error e
      | Except.ok (v, []) => Except.ok v
      | Except.ok (_, _ :: _) =>
        Except.error "malformed expression") = Except.ok v := h
  show (match rParse (scalarize i vars) ((reduceWords s).length + 1)
        (reduceWords s) with
      | Except.error e => Except.error e
      | Except.ok (v, []) => Except.ok v
      | Except.ok (_, _ :: _) =>
        Except.error "malformed expression") =
      Except.ok (Value.s (v.elemAt i))
  cases hr : rParse vars ((reduceWords s).length + 1) (reduceWords s) with
  | error e => rw [hr] at h2; cases h2
  | ok p =>
    obtain ⟨u, r⟩ := p
    rw [hr] at h2
    cases r with
    | nil =>
      have hu : u = v := by cases h2; rfl
      subst hu
      obtain ⟨hs, -⟩ := rParse_scalarize vars n i hvars hi
        ((reduceWords s).length + 1) (reduceWords s) u [] hr
      rw [hs]
    | cons x xs => cases h2

theorem splitSp_ne_nil : ∀ l : List Char, splitSp l ≠ [] := by
  intro l
  cases l with
  | nil => simp [splitSp]
  | cons c cs =>
    simp only [splitSp]
    by_cases hc : c = ' '
    · rw [if_pos hc]; simp
    · rw [if_neg hc]; simp

theorem splitSp_append : ∀ a b : List Char,
    splitSp (a ++ ' ' :: b) = splitSp a ++ splitSp b := by
  intro a b
  induction a with
  | nil => simp [splitSp]
  | cons c cs ih =>
    simp only [List.cons_append, List.append_eq, splitSp]
    rw [ih]
    by_cases hc : c = ' '
    · rw [if_pos hc, if_pos hc]; rfl
    · rw [if_neg hc, if_neg hc]
      cases hsp : splitSp cs with
      | nil => exact absurd hsp (splitSp_ne_nil cs)
      | cons x xs => simp

theorem reduceWords_append (a b : String) :
    reduceWords (a ++ " " ++ b) = reduceWords a ++ reduceWords b := by
  unfold reduceWords
  have h : (a ++ " " ++ b).toList = a.toList ++ ' ' :: b.toList := by
    rw [toList_append, toList_append]
    rw [show (" " : String).toList = [' '] from rfl]
    simp
  rw [h, splitSp_append, List.filter_append, List.map_append]

theorem reduceWords_join : ∀ ls : List String,
    reduceWords (joinWords ls) = (ls.map reduceWords).flatten := by
  intro ls
  induction ls with
  | nil => rfl
  | cons x xs ih =>
    cases xs with
    | nil =>
      show reduceWords x = _
      simp
    | cons y ys =>
      rw [joinWords_cons, reduceWords_append, ih]
      simp

theorem reduce_ok_rParse (vars : List (String × Value)) (t : String)
    (v : Value) (h : reduce vars t = .ok v) :
    rParse vars ((reduceWords t).length + 1) (reduceWords t) =
      .ok (v, []) := by
  have h2 : (match rParse vars ((reduceWords t).length + 1)
        (reduceWords t) with
      | Except.error e => Except.error e
      | Except.ok (v, []) => Except.ok v
      | Except.ok (_, _ :: _) =>
        Except.error "malformed expression") = Except.ok v := h
  cases hr : rParse vars ((reduceWords t).length + 1) (reduceWords t) with
  | error e => rw [hr] at h2; cases h2
  | ok p =>
    obtain ⟨u, r⟩ := p
    rw [hr] at h2
    cases r with
    | nil => cases h2; rfl
    | cons x xs => cases h2

theorem reduce_ok_words_ne (vars : List (String × Value)) (t : String)
    (v : Value) (h : reduce vars t = .ok v) : reduceWords t ≠ [] := by
  intro hw
  have h2 := reduce_ok_rParse vars t v h
  rw [hw] at h2
  simp [rParse] at h2

theorem opWord_reduceWords (w : String) (k : Nat) (h : opArity w = some k) :
    reduceWords w = [w] := by
  unfold opArity at h
  by_cases h1 : w = "u-"
  · subst h1; rfl
  · rw [if_neg h1] at h
    by_cases h2 : w ∈ (["+", "-", "*", "/", "^", "<", ">", "<=", ">=",
        "=", "!="] : List String)
    · fin_cases h2 <;> rfl
    · rw [if_neg h2] at h
      by_cases h3 : w = "?"
      · subst h3; rfl
      · rw [if_neg h3] at h; cases h

theorem broadcast_one (w : String) (a : Value) :
    ∃ u, broadcast w [a] = .ok u := by
  cases a <;> exact ⟨_, rfl⟩

theorem reduce_empty (vars : List (String × Value)) :
    reduce vars "" = .error "missing operand" := rfl

theorem rParse_monoApp (vars : List (String × Value)) (more : List String) :
    ∀ f g, f ≤ g → ∀ toks v rest,
      rParse vars f toks = .ok (v, rest) →
      rParse vars g (toks ++ more) = .ok (v, rest ++ more) := by
  intro f
  induction f with
  | zero => intro g hg toks v rest h; cases h
  | succ f ih =>
    intro g hg toks v rest h
    obtain ⟨g0, rfl⟩ : ∃ g0, g = g0 + 1 := ⟨g - 1, by omega⟩
    have hg0 : f ≤ g0 := by omega
    cases toks with
    | nil => cases h
    | cons w ws =>
      simp only [List.cons_append]
      simp only [rParse] at h ⊢
      cases ha : opArity w with
      | some k =>
        rw [ha] at h
        rcases k with _ | _ | _ | k3
        ·
          have h1t : (match rParse vars f ws with
              | Except.error e => Except.error e
              | Except.ok (a, r1) =>
                match rParse vars f r1 with
                | Except.error e => Except.error e
                | Except.ok (b, r2) =>
                  match rParse vars f r2 with
                  | Except.error e => Except.error e
                  | Except.ok (c, r3) =>
                    match broadcast w [a, b, c] with
                    | Except.error e => Except.error e
                    | Except.ok v => Except.ok (v, r3)) =
              Except.ok (v, rest) := h
          show (match rParse vars g0 (ws ++ more) with
              | Except.error e => Except.error e
              | Except.ok (a, r1) =>
                match rParse vars g0 r1 with
                | Except.error e => Except.error e
                | Except.ok (b, r2) =>
                  match rParse vars g0 r2 with
                  | Except.error e => Except.error e
                  | Except.ok (c, r3) =>
                    match broadcast w [a, b, c] with
                    | Except.error e => Except.error e
                    | Except.ok v => Except.ok (v, r3)) =
              Except.ok (v, rest ++ more)
          cases h1 : rParse vars f ws with
          | error e => rw [h1] at h1t; cases h1t
          | ok p =>
            obtain ⟨a, r1⟩ := p
            rw [h1] at h1t
            have h2t : (match rParse vars f r1 with
                | Except.error e => Except.error e
                | Except.ok (b, r2) =>
                  match rParse vars f r2 with
                  | Except.error e => Except.error e
                  | Except.ok (c, r3) =>
                    match broadcast w [a, b, c] with
                    | Except.error e => Except.error e
                    | Except.ok v => Except.ok (v, r3)) =
                Except.ok (v, rest) := h1t
            rw [ih g0 hg0 ws a r1 h1]
            show (match rParse vars g0 (r1 ++ more) with
                | Except.error e => Except.error e
                | Except.ok (b, r2) =>
                  match rParse vars g0 r2 with
                  | Except.error e => Except.error e
                  | Except.ok (c, r3) =>
                    match broadcast w [a, b, c] with
                    | Except.error e => Except.error e
                    | Except.ok v => Except.ok (v, r3)) =
              Except.ok (v, rest ++ more)
            cases h2 : rParse vars f r1 with
            | error e => rw [h2] at h2t; cases h2t
            | ok p2 =>
              obtain ⟨b, r2⟩ := p2
              rw [h2] at h2t
              have h3t : (match rParse vars f r2 with
                  | Except.error e => Except.error e
                  | Except.ok (c, r3) =>
                    match broadcast w [a, b, c] with
                    | Except.error e => Except.error e
                    | Except.ok v => Except.ok (v, r3)) =
                  Except.ok (v, rest) := h2t
              rw [ih g0 hg0 r1 b r2 h2]
              show (match rParse vars g0 (r2 ++ more) with
                  | Except.error e => Except.error e
                  | Except.ok (c, r3) =>
                    match broadcast w [a, b, c] with
                    | Except.error e => Except.error e
                    | Except.ok v => Except.ok (v, r3)) =
                Except.ok (v, rest ++ more)
              cases h3 : rParse vars f r2 with
              | error e => rw [h3] at h3t; cases h3t
              | ok p3 =>
                obtain ⟨c, r3⟩ := p3
                rw [h3] at h3t
                have h4t : (match broadcast w [a, b, c] with
                    | Except.error e => Except.error e
                    | Except.ok v => Except.ok (v, r3)) =
                    Except.ok (v, rest) := h3t
                rw [ih g0 hg0 r2 c r3 h3]
                show (match broadcast w [a, b, c] with
                    | Except.error e => Except.error e
                    | Except.ok v => Except.ok (v, r3 ++ more)) =
                  Except.ok (v, rest ++ more)
                cases hb : broadcast w [a, b, c] with
                | error e => rw [hb] at h4t; cases h4t
                | ok bv =>
                  rw [hb] at h4t
                  obtain ⟨rfl, rfl⟩ : bv = v ∧ r3 = rest := by
                    cases h4t; exact ⟨rfl, rfl⟩
                  rfl
        ·
          have h1t : (match rParse vars f ws with
              | Except.error e => Except.error e
              | Except.ok (a, r1) =>
                match broadcast w [a] with
                | Except.error e => Except.error e
                | Except.ok v => Except.ok (v, r1)) = Except.ok (v, rest) := h
          show (match rParse vars g0 (ws ++ more) with
              | Except.error e => Except.error e
              | Except.ok (a, r1) =>
                match broadcast w [a] with
                | Except.error e => Except.error e
                | Except.ok v => Except.ok (v, r1)) =
              Except.ok (v, rest ++ more)
          cases h1 : rParse vars f ws with
          | error e => rw [h1] at h1t; cases h1t
          | ok p =>
            obtain ⟨a, r1⟩ := p
            rw [h1] at h1t
            have h2t : (match broadcast w [a] with
                | Except.error e => Except.error e
                | Except.ok v => Except.ok (v, r1)) =
                Except.ok (v, rest) := h1t
            rw [ih g0 hg0 ws a r1 h1]
            show (match broadcast w [a] with
                | Except.error e => Except.error e
                | Except.ok v => Except.ok (v, r1 ++ more)) =
              Except.ok (v, rest ++ more)
            cases hb : broadcast w [a] with
            | error e => rw [hb] at h2t; cases h2t
            | ok bv =>
              rw [hb] at h2t
              obtain ⟨rfl, rfl⟩ : bv = v ∧ r1 = rest := by
                cases h2t; exact ⟨rfl, rfl⟩
              rfl
        ·
          have h1t : (match rParse vars f ws with
              | Except.error e => Except.error e
              | Except.ok (a, r1) =>
                match rParse vars f r1 with
                | Except.error e => Except.error e
                | Except.ok (b, r2) =>
                  match broadcast w [a, b] with
                  | Except.error e => Except.error e
                  | Except.ok v => Except.ok (v, r2)) =
              Except.ok (v, rest) := h
          show (match rParse vars g0 (ws ++ more) with
              | Except.error e => Except.error e
              | Except.ok (a, r1) =>
                match rParse vars g0 r1 with
                | Except.error e => Except.error e
                | Except.ok (b, r2) =>
                  match broadcast w [a, b] with
                  | Except.error e => Except.error e
                  | Except.ok v => Except.ok (v, r2)) =
              Except.ok (v, rest ++ more)
          cases h1 : rParse vars f ws with
          | error e => rw [h1] at h1t; cases h1t
          | ok p =>
            obtain ⟨a, r1⟩ := p
            rw [h1] at h1t
            have h2t : (match rParse vars f r1 with
                | Except.error e => Except.error e
                | Except.ok (b, r2) =>
                  match broadcast w [a, b] with
                  | Except.error e => Except.error e
                  | Except.ok v => Except.ok (v, r2)) =
                Except.ok (v, rest) := h1t
            rw [ih g0 hg0 ws a r1 h1]
            show (match rParse vars g0 (r1 ++ more) with
                | Except.error e => Except.error e
                | Except.ok (b, r2) =>
                  match broadcast w [a, b] with
                  | Except.error e => Except.error e
                  | Except.ok v => Except.ok (v, r2)) =
              Except.ok (v, rest ++ more)
            cases h2 : rParse vars f r1 with
            | error e => rw [h2] at h2t; cases h2t
            | ok p2 =>
              obtain ⟨b, r2⟩ := p2
              rw [h2] at h2t
              have h3t : (match broadcast w [a, b] with
                  | Except.error e => Except.error e
                  | Except.ok v => Except.ok (v, r2)) =
                  Except.ok (v, rest) := h2t
              rw [ih g0 hg0 r1 b r2 h2]
              show (match broadcast w [a, b] with
                  | Except.error e => Except.error e
                  | Except.ok v => Except.ok (v, r2 ++ more)) =
                Except.ok (v, rest ++ more)
              cases hb : broadcast w [a, b] with
              | error e => rw [hb] at h3t; cases h3t
              | ok bv =>
                rw [hb] at h3t
                obtain ⟨rfl, rfl⟩ : bv = v ∧ r2 = rest := by
                  cases h3t; exact ⟨rfl, rfl⟩
                rfl
        ·
          have h1t : (match rParse vars f ws with
              | Except.error e => Except.error e
              | Except.ok (a, r1) =>
                match rParse vars f r1 with
                | Except.error e => Except.error e
                | Except.ok (b, r2) =>
                  match rParse vars f r2 with
                  | Except.error e => Except.error e
                  | Except.ok (c, r3) =>
                    match broadcast w [a, b, c] with
                    | Except.error e => Except.error e
                    | Except.ok v => Except.ok (v, r3)) =
              Except.ok (v, rest) := h
          show (match rParse vars g0 (ws ++ more) with
              | Except.error e => Except.error e
              | Except.ok (a, r1) =>
                match rParse vars g0 r1 with
                | Except.error e => Except.error e
                | Except.ok (b, r2) =>
                  match rParse vars g0 r2 with
                  | Except.error e => Except.error e
                  | Except.ok (c, r3) =>
                    match broadcast w [a, b, c] with
                    | Except.error e => Except.error e
                    | Except.ok v => Except.ok (v, r3)) =
              Except.ok (v, rest ++ more)
          cases h1 : rParse vars f ws with
          | error e => rw [h1] at h1t; cases h1t
          | ok p =>
            obtain ⟨a, r1⟩ := p
            rw [h1] at h1t
            have h2t : (match rParse vars f r1 with
                | Except.error e => Except.error e
                | Except.ok (b, r2) =>
                  match rParse vars f r2 with
                  | Except.error e => Except.error e
                  | Except.ok (c, r3) =>
                    match broadcast w [a, b, c] with
                    | Except.error e => Except.error e
                    | Except.ok v => Except.ok (v, r3)) =
                Except.ok (v, rest) := h1t
            rw [ih g0 hg0 ws a r1 h1]
            show (match rParse vars g0 (r1 ++ more) with
                | Except.error e => Except.error e
                | Except.ok (b, r2) =>
                  match rParse vars g0 r2 with
                  | Except.error e => Except.error e
                  | Except.ok (c, r3) =>
                    match broadcast w [a, b, c] with
                    | Except.error e => Except.error e
                    | Except.ok v => Except.ok (v, r3)) =
              Except.ok (v, rest ++ more)
            cases h2 : rParse vars f r1 with
            | error e => rw [h2] at h2t; cases h2t
            | ok p2 =>
              obtain ⟨b, r2⟩ := p2
              rw [h2] at h2t
              have h3t : (match rParse vars f r2 with
                  | Except.error e => Except.error e
                  | Except.ok (c, r3) =>
                    match broadcast w [a, b, c] with
                    | Except.error e => Except.error e
                    | Except.ok v => Except.ok (v, r3)) =
                  Except.ok (v, rest) := h2t
              rw [ih g0 hg0 r1 b r2 h2]
              show (match rParse vars g0 (r2 ++ more) with
                  | Except.error e => Except.error e
                  | Except.ok (c, r3) =>
                    match broadcast w [a, b, c] with
                    | Except.error e => Except.error e
                    | Except.ok v => Except.ok (v, r3)) =
                Except.ok (v, rest ++ more)
              cases h3 : rParse vars f r2 with
              | error e => rw [h3] at h3t; cases h3t
              | ok p3 =>
                obtain ⟨c, r3⟩ := p3
                rw [h3] at h3t
                have h4t : (match broadcast w [a, b, c] with
                    | Except.error e => Except.error e
                    | Except.ok v => Except.ok (v, r3)) =
                    Except.ok (v, rest) := h3t
                rw [ih g0 hg0 r2 c r3 h3]
                show (match broadcast w [a, b, c] with
                    | Except.error e => Except.error e
                    | Except.ok v => Except.ok (v, r3 ++ more)) =
                  Except.ok (v, rest ++ more)
                cases hb : broadcast w [a, b, c] with
                | error e => rw [hb] at h4t; cases h4t
                | ok bv =>
                  rw [hb] at h4t
                  obtain ⟨rfl, rfl⟩ : bv = v ∧ r3 = rest := by
                    cases h4t; exact ⟨rfl, rfl⟩
                  rfl
      | none =>
        rw [ha] at h
        have h1t : (match vars.lookup w with
            | some v => Except.ok (v, ws)
            | none =>
              if isNumLit w.toList = true then
                Except.ok (Value.s (numValue w), ws)
              else Except.error ("undefined variable " ++ w)) =
            Except.ok (v, rest) := h
        show (match vars.lookup w with
            | some v => Except.ok (v, ws ++ more)
            | none =>
              if isNumLit w.toList = true then
                Except.ok (Value.s (numValue w), ws ++ more)
              else Except.error ("undefined variable " ++ w)) =
            Except.ok (v, rest ++ more)
        cases hl : vars.lookup w with
        | some u =>
          rw [hl] at h1t
          obtain ⟨rfl, rfl⟩ : u = v ∧ ws = rest := by
            cases h1t; exact ⟨rfl, rfl⟩
          rfl
        | none =>
          rw [hl] at h1t
          by_cases hn : isNumLit w.toList = true
          · rw [if_pos hn] at h1t
            obtain ⟨rfl, rfl⟩ : Value.s (numValue w) = v ∧ ws = rest := by
              cases h1t; exact ⟨rfl, rfl⟩
            show (if isNumLit w.toList = true then
                Except.ok (Value.s (numValue w), ws ++ more)
              else Except.error ("undefined variable " ++ w)) =
              Except.ok (Value.s (numValue w), ws ++ more)
            rw [if_pos hn]
          · rw [if_neg hn] at h1t
            cases h1t


/-- A word the reducer accepts: an operator, a defined variable, or a
numeric literal. -/
def okW (vars : List (String × Value)) (w : String) : Prop :=
  opArity w ≠ none ∨ vars.lookup w ≠ none ∨ isNumLit w.toList = true

theorem rParse_split (vars : List (String × Value)) :
    ∀ f toks v rest, rParse vars f toks = .ok (v, rest) →
      ∃ used, toks = used ++ rest ∧ used ≠ [] ∧ ∀ w ∈ used, okW vars w := by
  intro f
  induction f with
  | zero => intro toks v rest h; cases h
  | succ f ih =>
    intro toks v rest h
    cases toks with
    | nil => cases h
    | cons w ws =>
      simp only [rParse] at h
      cases ha : opArity w with
      | some k =>
        rw [ha] at h
        rcases k with _ | _ | _ | k3
        ·
          have h1t : (match rParse vars f ws with
              | Except.error e => Except.error e
              | Except.ok (a, r1) =>
                match rParse vars f r1 with
                | Except.error e => Except.error e
                | Except.ok (b, r2) =>
                  match rParse vars f r2 with
                  | Except.error e => Except.error e
                  | Except.ok (c, r3) =>
                    match broadcast w [a, b, c] with
                    | Except.error e => Except.error e
                    | Except.ok v => Except.ok (v, r3)) =
              Except.ok (v, rest) := h
          cases h1 : rParse vars f ws with
          | error e => rw [h1] at h1t; cases h1t
          | ok p =>
            obtain ⟨a, r1⟩ := p
            rw [h1] at h1t
            have h2t : (match rParse vars f r1 with
                | Except.error e => Except.error e
                | Except.ok (b, r2) =>
                  match rParse vars f r2 with
                  | Except.error e => Except.error e
                  | Except.ok (c, r3) =>
                    match broadcast w [a, b, c] with
                    | Except.error e => Except.error e
                    | Except.ok v => Except.ok (v, r3)) =
                Except.ok (v, rest) := h1t
            obtain ⟨u1, hu1, -, hok1⟩ := ih ws a r1 h1
            cases h2 : rParse vars f r1 with
            | error e => rw [h2] at h2t; cases h2t
            | ok p2 =>
              obtain ⟨b, r2⟩ := p2
              rw [h2] at h2t
              have h3t : (match rParse vars f r2 with
                  | Except.error e => Except.error e
                  | Except.ok (c, r3) =>
                    match broadcast w [a, b, c] with
                    | Except.error e => Except.error e
                    | Except.ok v => Except.ok (v, r3)) =
                  Except.ok (v, rest) := h2t
              obtain ⟨u2, hu2, -, hok2⟩ := ih r1 b r2 h2
              cases h3 : rParse vars f r2 with
              | error e => rw [h3] at h3t; cases h3t
              | ok p3 =>
                obtain ⟨c, r3⟩ := p3
                rw [h3] at h3t
                have h4t : (match broadcast w [a, b, c] with
                    | Except.error e => Except.error e
                    | Except.ok v => Except.ok (v, r3)) =
                    Except.ok (v, rest) := h3t
                obtain ⟨u3, hu3, -, hok3⟩ := ih r2 c r3 h3
                cases hb : broadcast w [a, b, c] with
                | error e => rw [hb] at h4t; cases h4t
                | ok bv =>
                  rw [hb] at h4t
                  obtain ⟨rfl, rfl⟩ : bv = v ∧ r3 = rest := by
                    cases h4t; exact ⟨rfl, rfl⟩
                  refine ⟨w :: (u1 ++ u2 ++ u3), ?_, by simp, ?_⟩
                  · rw [hu1, hu2, hu3]; simp
                  · intro x hx
                    rcases List.mem_cons.mp hx with rfl | hx2
                    · exact Or.inl (by simp [ha])
                    · rcases List.mem_append.mp hx2 with hx3 | hx4
                      · rcases List.mem_append.mp hx3 with hx5 | hx5
                        · exact hok1 x hx5
                        · exact hok2 x hx5
                      · exact hok3 x hx4
        ·
          have h1t : (match rParse vars f ws with
              | Except.error e => Except.error e
              | Except.ok (a, r1) =>
                match broadcast w [a] with
                | Except.error e => Except.error e
                | Except.ok v => Except.ok (v, r1)) = Except.ok (v, rest) := h
          cases h1 : rParse vars f ws with
          | error e => rw [h1] at h1t; cases h1t
          | ok p =>
            obtain ⟨a, r1⟩ := p
            rw [h1] at h1t
            have h2t : (match broadcast w [a] with
                | Except.error e => Except.error e
                | Except.ok v => Except.ok (v, r1)) =
                Except.ok (v, rest) := h1t
            obtain ⟨u1, hu1, -, hok1⟩ := ih ws a r1 h1
            cases hb : broadcast w [a] with
            | error e => rw [hb] at h2t; cases h2t
            | ok bv =>
              rw [hb] at h2t
              obtain ⟨rfl, rfl⟩ : bv = v ∧ r1 = rest := by
                cases h2t; exact ⟨rfl, rfl⟩
              refine ⟨w :: u1, ?_, by simp, ?_⟩
              · rw [hu1]; rfl
              · intro x hx
                rcases List.mem_cons.mp hx with rfl | hx2
                · exact Or.inl (by simp [ha])
                · exact hok1 x hx2
        ·
          have h1t : (match rParse vars f ws with
              | Except.error e => Except.error e
              | Except.ok (a, r1) =>
                match rParse vars f r1 with
                | Except.error e => Except.error e
                | Except.ok (b, r2) =>
                  match broadcast w [a, b] with
                  | Except.error e => Except.error e
                  | Except.ok v => Except.ok (v, r2)) =
              Except.ok (v, rest) := h
          cases h1 : rParse vars f ws with
          | error e => rw [h1] at h1t; cases h1t
          | ok p =>
            obtain ⟨a, r1⟩ := p
            rw [h1] at h1t
            have h2t : (match rParse vars f r1 with
                | Except.error e => Except.error e
                | Except.ok (b, r2) =>
                  match broadcast w [a, b] with
                  | Except.error e => Except.error e
                  | Except.ok v => Except.ok (v, r2)) =
                Except.ok (v, rest) := h1t
            obtain ⟨u1, hu1, -, hok1⟩ := ih ws a r1 h1
            cases h2 : rParse vars f r1 with
            | error e => rw [h2] at h2t; cases h2t
            | ok p2 =>
              obtain ⟨b, r2⟩ := p2
              rw [h2] at h2t
              have h3t : (match broadcast w [a, b] with
                  | Except.error e => Except.error e
                  | Except.ok v => Except.ok (v, r2)) =
                  Except.ok (v, rest) := h2t
              obtain ⟨u2, hu2, -, hok2⟩ := ih r1 b r2 h2
              cases hb : broadcast w [a, b] with
              | error e => rw [hb] at h3t; cases h3t
              | ok bv =>
                rw [hb] at h3t
                obtain ⟨rfl, rfl⟩ : bv = v ∧ r2 = rest := by
                  cases h3t; exact ⟨rfl, rfl⟩
                refine ⟨w :: (u1 ++ u2), ?_, by simp, ?_⟩
                · rw [hu1, hu2]; simp
                · intro x hx
                  rcases List.mem_cons.mp hx with rfl | hx2
                  · exact Or.inl (by simp [ha])
                  · rcases List.mem_append.mp hx2 with hx3 | hx3
                    · exact hok1 x hx3
                    · exact hok2 x hx3
        ·
          have h1t : (match rParse vars f ws with
              | Except.error e => Except.error e
              | Except.ok (a, r1) =>
                match rParse vars f r1 with
                | Except.error e => Except.error e
                | Except.ok (b, r2) =>
                  match rParse vars f r2 with
                  | Except.error e => Except.error e
                  | Except.ok (c, r3) =>
                    match broadcast w [a, b, c] with
                    | Except.error e => Except.error e
                    | Except.ok v => Except.ok (v, r3)) =
              Except.ok (v, rest) := h
          cases h1 : rParse vars f ws with
          | error e => rw [h1] at h1t; cases h1t
          | ok p =>
            obtain ⟨a, r1⟩ := p
            rw [h1] at h1t
            have h2t : (match rParse vars f r1 with
                | Except.error e => Except.error e
                | Except.ok (b, r2) =>
                  match rParse vars f r2 with
                  | Except.error e => Except.error e
                  | Except.ok (c, r3) =>
                    match broadcast w [a, b, c] with
                    | Except.error e => Except.error e
                    | Except.ok v => Except.ok (v, r3)) =
                Except.ok (v, rest) := h1t
            obtain ⟨u1, hu1, -, hok1⟩ := ih ws a r1 h1
            cases h2 : rParse vars f r1 with
            | error e => rw [h2] at h2t; cases h2t
            | ok p2 =>
              obtain ⟨b, r2⟩ := p2
              rw [h2] at h2t
              have h3t : (match rParse vars f r2 with
                  | Except.error e => Except.error e
                  | Except.ok (c, r3) =>
                    match broadcast w [a, b, c] with
                    | Except.error e => Except.error e
                    | Except.ok v => Except.ok (v, r3)) =
                  Except.ok (v, rest) := h2t
              obtain ⟨u2, hu2, -, hok2⟩ := ih r1 b r2 h2
              cases h3 : rParse vars f r2 with
              | error e => rw [h3] at h3t; cases h3t
              | ok p3 =>
                obtain ⟨c, r3⟩ := p3
                rw [h3] at h3t
                have h4t : (match broadcast w [a, b, c] with
                    | Except.error e => Except.error e
                    | Except.ok v => Except.ok (v, r3)) =
                    Except.ok (v, rest) := h3t
                obtain ⟨u3, hu3, -, hok3⟩ := ih r2 c r3 h3
                cases hb : broadcast w [a, b, c] with
                | error e => rw [hb] at h4t; cases h4t
                | ok bv =>
                  rw [hb] at h4t
                  obtain ⟨rfl, rfl⟩ : bv = v ∧ r3 = rest := by
                    cases h4t; exact ⟨rfl, rfl⟩
                  refine ⟨w :: (u1 ++ u2 ++ u3), ?_, by simp, ?_⟩
                  · rw [hu1, hu2, hu3]; simp
                  · intro x hx
                    rcases List.mem_cons.mp hx with rfl | hx2
                    · exact Or.inl (by simp [ha])
                    · rcases List.mem_append.mp hx2 with hx3 | hx4
                      · rcases List.mem_append.mp hx3 with hx5 | hx5
                        · exact hok1 x hx5
                        · exact hok2 x hx5
                      · exact hok3 x hx4
      | none =>
        rw [ha] at h
        have h1t : (match vars.lookup w with
            | some v => Except.ok (v, ws)
            | none =>
              if isNumLit w.toList = true then
                Except.ok (Value.s (numValue w), ws)
              else Except.error ("undefined variable " ++ w)) =
            Except.ok (v, rest) := h
        cases hl : vars.lookup w with
        | some u =>
          rw [hl] at h1t
          obtain ⟨rfl, rfl⟩ : u = v ∧ ws = rest := by
            cases h1t; exact ⟨rfl, rfl⟩
          refine ⟨[w], rfl, by simp, ?_⟩
          intro x hx
          rcases List.mem_cons.mp hx with rfl | hx2
          · exact Or.inr (Or.inl (by simp [hl]))
          · cases hx2
        | none =>
          rw [hl] at h1t
          by_cases hn : isNumLit w.toList = true
          · rw [if_pos hn] at h1t
            obtain ⟨rfl, rfl⟩ : Value.s (numValue w) = v ∧ ws = rest := by
              cases h1t; exact ⟨rfl, rfl⟩
            refine ⟨[w], rfl, by simp, ?_⟩
            intro x hx
            rcases List.mem_cons.mp hx with rfl | hx2
            · exact Or.inr (Or.inr hn)
            · cases hx2
          · rw [if_neg hn] at h1t
            cases h1t


theorem rParse_nil (vars : List (String × Value)) (m : Nat) (hm : m ≠ 0) :
    rParse vars m [] = .error "missing operand" := by
  obtain ⟨m0, rfl⟩ : ∃ m0, m = m0 + 1 := ⟨m - 1, by omega⟩
  rfl

theorem rParse_cons_unary (vars : List (String × Value)) (m : Nat)
    (w : String) (l : List String) (h : opArity w = some 1) :
    rParse vars (m + 1) (w :: l) =
      (match rParse vars m l with
       | .error e => .error e
       | .ok (a, r1) =>
         match broadcast w [a] with
         | .error e => .error e
         | .ok v => .ok (v, r1)) := by
  simp only [rParse]
  rw [h]

theorem rParse_cons_binary (vars : List (String × Value)) (m : Nat)
    (w : String) (l : List String) (h : opArity w = some 2) :
    rParse vars (m + 1) (w :: l) =
      (match rParse vars m l with
       | .error e => .error e
       | .ok (a, r1) =>
         match rParse vars m r1 with
         | .error e => .error e
         | .ok (b, r2) =>
           match broadcast w [a, b] with
           | .error e => .error e
           | .ok v => .ok (v, r2)) := by
  simp only [rParse]
  rw [h]

theorem rParse_cons_ternary (vars : List (String × Value)) (m : Nat)
    (w : String) (l : List String) (h : opArity w = some 3) :
    rParse vars (m + 1) (w :: l) =
      (match rParse vars m l with
       | .error e => .error e
       | .ok (a, r1) =>
         match rParse vars m r1 with
         | .error e => .error e
         | .ok (b, r2) =>
           match rParse vars m r2 with
           | .error e => .error e
           | .ok (c, r3) =>
             match broadcast w [a, b, c] with
             | .error e => .error e
             | .ok v => .ok (v, r3)) := by
  simp only [rParse]
  rw [h]

theorem opArity_cases (w : String) (k : Nat) (h : opArity w = some k) :
    k = 1 ∨ k = 2 ∨ k = 3 := by
  unfold opArity at h
  by_cases h1 : w = "u-"
  · rw [if_pos h1] at h; cases h; exact Or.inl rfl
  · rw [if_neg h1] at h
    by_cases h2 : w ∈ (["+", "-", "*", "/", "^", "<", ">", "<=", ">=",
        "=", "!="] : List String)
    · rw [if_pos h2] at h; cases h; exact Or.inr (Or.inl rfl)
    · rw [if_neg h2] at h
      by_cases h3 : w = "?"
      · rw [if_pos h3] at h; cases h; exact Or.inr (Or.inr rfl)
      · rw [if_neg h3] at h; cases h

theorem reduce_error_cases (vars : List (String × Value)) (s : String) :
    ∀ res : Except String (Value × List String),
    rParse vars ((reduceWords s).length + 1) (reduceWords s) = res →
    (∀ u, res ≠ .ok (u, [])) → ∃ e, reduce vars s = .error e := by
  intro res hres hne
  have h2 : reduce vars s =
      (match rParse vars ((reduceWords s).length + 1) (reduceWords s) with
      | Except.error e => Except.error e
      | Except.ok (v, []) => Except.ok v
      | Except.ok (_, _ :: _) =>
        Except.error "malformed expression") := rfl
  rw [hres] at h2
  cases res with
  | error e => exact ⟨e, h2⟩
  | ok p =>
    obtain ⟨u, r⟩ := p
    cases r with
    | nil => exact absurd rfl (hne u)
    | cons x xs => exact ⟨"malformed expression", h2⟩

theorem reduce_words_ok (vars : List (String × Value)) (s : String)
    (v : Value) (h : reduce vars s = .ok v) :
    ∀ w ∈ reduceWords s, okW vars w := by
  have h2 := reduce_ok_rParse vars s v h
  obtain ⟨used, hused, -, hok⟩ := rParse_split vars _ _ _ _ h2
  intro w hw
  rw [hused] at hw
  simp at hw
  exact hok w hw

theorem reduce_wrong_arity (vars : List (String × Value)) (w : String)
    (k : Nat) (ts : List String) (hw : opArity w = some k)
    (hts : ∀ t ∈ ts, ∃ v, reduce vars t = .ok v)
    (hne : ts.length ≠ k) :
    ∃ e, reduce vars (joinWords (w :: ts)) = .error e := by
  have hwords : reduceWords (joinWords (w :: ts)) =
      w :: (ts.map reduceWords).flatten := by
    rw [reduceWords_join]
    show (reduceWords w ++ (ts.map reduceWords).flatten) = _
    rw [opWord_reduceWords w k hw]
    rfl
  rcases opArity_cases w k hw with rfl | rfl | rfl
  · rcases ts with _ | ⟨t1, _ | ⟨t2, ts3⟩⟩
    ·
      have hL0 : (([] : List String).map reduceWords).flatten =
          ([] : List String) := rfl
      refine reduce_error_cases vars _ (.error "missing operand") ?_
        (fun u hcon => by cases hcon)
      rw [hwords, hL0]
      rw [rParse_cons_unary vars _ w _ hw]
      rw [rParse_nil vars (([w] : List String).length) (by simp)]

    ·
      simp at hne

    ·
      obtain ⟨v1, hv1⟩ := hts t1 (by simp)
      have hp1 := reduce_ok_rParse vars t1 v1 hv1
      have hn1 := reduce_ok_words_ne vars t1 v1 hv1
      obtain ⟨v2, hv2⟩ := hts t2 (by simp)
      have hp2 := reduce_ok_rParse vars t2 v2 hv2
      have hn2 := reduce_ok_words_ne vars t2 v2 hv2
      have hL : (((t1 :: t2 :: ts3).map reduceWords).flatten : List String) =
          reduceWords t1 ++ ((t2 :: ts3).map reduceWords).flatten := rfl
      have harg1 : rParse vars
          ((w :: (reduceWords t1 ++
            ((t2 :: ts3).map reduceWords).flatten)).length)
          (reduceWords t1 ++ ((t2 :: ts3).map reduceWords).flatten) =
          .ok (v1, ((t2 :: ts3).map reduceWords).flatten) :=
        rParse_monoApp vars (((t2 :: ts3).map reduceWords).flatten)
          ((reduceWords t1).length + 1) _
          (by simp only [List.length_cons, List.length_append]; omega)
          (reduceWords t1) v1 [] hp1
      have hres : rParse vars
          ((reduceWords (joinWords (w :: t1 :: t2 :: ts3))).length + 1)
          (reduceWords (joinWords (w :: t1 :: t2 :: ts3))) =
          (match broadcast w [v1] with
           | Except.error e => Except.error e
           | Except.ok v =>
             Except.ok (v, ((t2 :: ts3).map reduceWords).flatten)) := by
        rw [hwords, hL]
        rw [rParse_cons_unary vars _ w _ hw]
        rw [harg1]
      cases hb : broadcast w [v1] with
      | error e =>
        rw [hb] at hres
        exact reduce_error_cases vars _ (.error e) hres
          (fun u hcon => by cases hcon)
      | ok bu =>
        rw [hb] at hres
        refine reduce_error_cases vars _
          (.ok (bu, ((t2 :: ts3).map reduceWords).flatten)) hres ?_
        intro u hcon
        injection hcon with hp
        injection hp with hA hB
        have hB2 : reduceWords t2 ++ ((ts3).map reduceWords).flatten =
            ([] : List String) := hB
        rcases List.append_eq_nil.mp hB2 with ⟨hB3, -⟩
        exact hn2 hB3

  · rcases ts with _ | ⟨t1, _ | ⟨t2, _ | ⟨t3, ts4⟩⟩⟩
    ·
      have hL0 : (([] : List String).map reduceWords).flatten =
          ([] : List String) := rfl
      refine reduce_error_cases vars _ (.error "missing operand") ?_
        (fun u hcon => by cases hcon)
      rw [hwords, hL0]
      rw [rParse_cons_binary vars _ w _ hw]
      rw [rParse_nil vars (([w] : List String).length) (by simp)]

    ·
      obtain ⟨v1, hv1⟩ := hts t1 (by simp)
      have hp1 := reduce_ok_rParse vars t1 v1 hv1
      have hn1 := reduce_ok_words_ne vars t1 v1 hv1
      have hL : ((([t1] : List String).map reduceWords).flatten :
          List String) =
          reduceWords t1 ++ (([] : List String).map reduceWords).flatten := rfl
      have harg1 : rParse vars
          ((w :: (reduceWords t1 ++
            (([] : List String).map reduceWords).flatten)).length)
          (reduceWords t1 ++ (([] : List String).map reduceWords).flatten) =
          .ok (v1, ([] : List String)) :=
        rParse_monoApp vars ((([] : List String).map reduceWords).flatten)
          ((reduceWords t1).length + 1) _
          (by simp only [List.length_cons, List.length_append]; omega)
          (reduceWords t1) v1 [] hp1
      refine reduce_error_cases vars _ (.error "missing operand") ?_
        (fun u hcon => by cases hcon)
      rw [hwords, hL]
      rw [rParse_cons_binary vars _ w _ hw]
      rw [harg1]
      show (match rParse vars
            ((w :: (reduceWords t1 ++
              (([] : List String).map reduceWords).flatten)).length)
            ([] : List String) with
          | Except.error e => Except.error e
          | Except.ok (b, r2) =>
            match broadcast w [v1, b] with
            | Except.error e => Except.error e
            | Except.ok v => Except.ok (v, r2)) =
        Except.error "missing operand"
      rw [rParse_nil vars ((w :: (reduceWords t1 ++
        (([] : List String).map reduceWords).flatten)).length) (by simp)]

    ·
      simp at hne

    ·
      obtain ⟨v1, hv1⟩ := hts t1 (by simp)
      have hp1 := reduce_ok_rParse vars t1 v1 hv1
      have hn1 := reduce_ok_words_ne vars t1 v1 hv1
      obtain ⟨v2, hv2⟩ := hts t2 (by simp)
      have hp2 := reduce_ok_rParse vars t2 v2 hv2
      have hn2 := reduce_ok_words_ne vars t2 v2 hv2
      obtain ⟨v3, hv3⟩ := hts t3 (by simp)
      have hp3 := reduce_ok_rParse vars t3 v3 hv3
      have hn3 := reduce_ok_words_ne vars t3 v3 hv3
      have hL : (((t1 :: t2 :: t3 :: ts4).map reduceWords).flatten :
          List String) =
          reduceWords t1 ++ (reduceWords t2 ++
            ((t3 :: ts4).map reduceWords).flatten) := rfl
      have harg1 : rParse vars
          ((w :: (reduceWords t1 ++ (reduceWords t2 ++
            ((t3 :: ts4).map reduceWords).flatten))).length)
          (reduceWords t1 ++ (reduceWords t2 ++
            ((t3 :: ts4).map reduceWords).flatten)) =
          .ok (v1, reduceWords t2 ++
            ((t3 :: ts4).map reduceWords).flatten) :=
        rParse_monoApp vars (reduceWords t2 ++
            ((t3 :: ts4).map reduceWords).flatten)
          ((reduceWords t1).length + 1) _
          (by simp only [List.length_cons, List.length_append]; omega)
          (reduceWords t1) v1 [] hp1
      have harg2 : rParse vars
          ((w :: (reduceWords t1 ++ (reduceWords t2 ++
            ((t3 :: ts4).map reduceWords).flatten))).length)
          (reduceWords t2 ++ ((t3 :: ts4).map reduceWords).flatten) =
          .ok (v2, ((t3 :: ts4).map reduceWords).flatten) :=
        rParse_monoApp vars (((t3 :: ts4).map reduceWords).flatten)
          ((reduceWords t2).length + 1) _
          (by simp only [List.length_cons, List.length_append]; omega)
          (reduceWords t2) v2 [] hp2
      have hres : rParse vars
          ((reduceWords (joinWords (w :: t1 :: t2 :: t3 :: ts4))).length + 1)
          (reduceWords (joinWords (w :: t1 :: t2 :: t3 :: ts4))) =
          (match broadcast w [v1, v2] with
           | Except.error e => Except.error e
           | Except.ok v =>
             Except.ok (v, ((t3 :: ts4).map reduceWords).flatten)) := by
        rw [hwords, hL]
        rw [rParse_cons_binary vars _ w _ hw]
        rw [harg1]
        show (match rParse vars
              ((w :: (reduceWords t1 ++ (reduceWords t2 ++
                ((t3 :: ts4).map reduceWords).flatten))).length)
              (reduceWords t2 ++ ((t3 :: ts4).map reduceWords).flatten) with
            | Except.error e => Except.error e
            | Except.ok (b, r2) =>
              match broadcast w [v1, b] with
              | Except.error e => Except.error e
              | Except.ok v => Except.ok (v, r2)) =
          (match broadcast w [v1, v2] with
           | Except.error e => Except.error e
           | Except.ok v =>
             Except.ok (v, ((t3 :: ts4).map reduceWords).flatten))
        rw [harg2]
      cases hb : broadcast w [v1, v2] with
      | error e =>
        rw [hb] at hres
        exact reduce_error_cases vars _ (.error e) hres
          (fun u hcon => by cases hcon)
      | ok bu =>
        rw [hb] at hres
        refine reduce_error_cases vars _
          (.ok (bu, ((t3 :: ts4).map reduceWords).flatten)) hres ?_
        intro u hcon
        injection hcon with hp
        injection hp with hA hB
        have hB2 : reduceWords t3 ++ ((ts4).map reduceWords).flatten =
            ([] : List String) := hB
        rcases List.append_eq_nil.mp hB2 with ⟨hB3, -⟩
        exact hn3 hB3

  · rcases ts with _ | ⟨t1, _ | ⟨t2, _ | ⟨t3, _ | ⟨t4, ts5⟩⟩⟩⟩
    ·
      have hL0 : (([] : List String).map reduceWords).flatten =
          ([] : List String) := rfl
      refine reduce_error_cases vars _ (.error "missing operand") ?_
        (fun u hcon => by cases hcon)
      rw [hwords, hL0]
      rw [rParse_cons_ternary vars _ w _ hw]
      rw [rParse_nil vars (([w] : List String).length) (by simp)]

    ·
      obtain ⟨v1, hv1⟩ := hts t1 (by simp)
      have hp1 := reduce_ok_rParse vars t1 v1 hv1
      have hn1 := reduce_ok_words_ne vars t1 v1 hv1
      have hL : ((([t1] : List String).map reduceWords).flatten :
          List String) =
          reduceWords t1 ++ (([] : List String).map reduceWords).flatten := rfl
      have harg1 : rParse vars
          ((w :: (reduceWords t1 ++
            (([] : List String).map reduceWords).flatten)).length)
          (reduceWords t1 ++ (([] : List String).map reduceWords).flatten) =
          .ok (v1, ([] : List String)) :=
        rParse_monoApp vars ((([] : List String).map reduceWords).flatten)
          ((reduceWords t1).length + 1) _
          (by simp only [List.length_cons, List.length_append]; omega)
          (reduceWords t1) v1 [] hp1
      refine reduce_error_cases vars _ (.error "missing operand") ?_
        (fun u hcon => by cases hcon)
      rw [hwords, hL]
      rw [rParse_cons_ternary vars _ w _ hw]
      rw [harg1]
      show (match rParse vars
            ((w :: (reduceWords t1 ++
              (([] : List String).map reduceWords).flatten)).length)
            ([] : List String) with
          | Except.error e => Except.error e
          | Except.ok (b, r2) =>
            match rParse vars
              ((w :: (reduceWords t1 ++
                (([] : List String).map reduceWords).flatten)).length) r2 with
            | Except.error e => Except.error e
            | Except.ok (c, r3) =>
              match broadcast w [v1, b, c] with
              | Except.error e => Except.error e
              | Except.ok v => Except.ok (v, r3)) =
        Except.error "missing operand"
      rw [rParse_nil vars ((w :: (reduceWords t1 ++
        (([] : List String).map reduceWords).flatten)).length) (by simp)]

    ·
      obtain ⟨v1, hv1⟩ := hts t1 (by simp)
      have hp1 := reduce_ok_rParse vars t1 v1 hv1
      have hn1 := reduce_ok_words_ne vars t1 v1 hv1
      obtain ⟨v2, hv2⟩ := hts t2 (by simp)
      have hp2 := reduce_ok_rParse vars t2 v2 hv2
      have hn2 := reduce_ok_words_ne vars t2 v2 hv2
      have hL : ((([t1, t2] : List String).map reduceWords).flatten :
          List String) =
          reduceWords t1 ++ (reduceWords t2 ++
            (([] : List String).map reduceWords).flatten) := rfl
      have harg1 : rParse vars
          ((w :: (reduceWords t1 ++ (reduceWords t2 ++
            (([] : List String).map reduceWords).flatten))).length)
          (reduceWords t1 ++ (reduceWords t2 ++
            (([] : List String).map reduceWords).flatten)) =
          .ok (v1, reduceWords t2 ++
            (([] : List String).map reduceWords).flatten) :=
        rParse_monoApp vars (reduceWords t2 ++
            (([] : List String).map reduceWords).flatten)
          ((reduceWords t1).length + 1) _
          (by simp only [List.length_cons, List.length_append]; omega)
          (reduceWords t1) v1 [] hp1
      have harg2 : rParse vars
          ((w :: (reduceWords t1 ++ (reduceWords t2 ++
            (([] : List String).map reduceWords).flatten))).length)
          (reduceWords t2 ++ (([] : List String).map reduceWords).flatten) =
          .ok (v2, ([] : List String)) :=
        rParse_monoApp vars ((([] : List String).map reduceWords).flatten)
          ((reduceWords t2).length + 1) _
          (by simp only [List.length_cons, List.length_append]; omega)
          (reduceWords t2) v2 [] hp2
      refine reduce_error_cases vars _ (.error "missing operand") ?_
        (fun u hcon => by cases hcon)
      rw [hwords, hL]
      rw [rParse_cons_ternary vars _ w _ hw]
      rw [harg1]
      show (match rParse vars
            ((w :: (reduceWords t1 ++ (reduceWords t2 ++
              (([] : List String).map reduceWords).flatten))).length)
            (reduceWords t2 ++
              (([] : List String).map reduceWords).flatten) with
          | Except.error e => Except.error e
          | Except.ok (b, r2) =>
            match rParse vars
              ((w :: (reduceWords t1 ++ (reduceWords t2 ++
                (([] : List String).map reduceWords).flatten))).length)
              r2 with
            | Except.error e => Except.error e
            | Except.ok (c, r3) =>
              match broadcast w [v1, b, c] with
              | Except.error e => Except.error e
              | Except.ok v => Except.ok (v, r3)) =
        Except.error "missing operand"
      rw [harg2]
      show (match rParse vars
            ((w :: (reduceWords t1 ++ (reduceWords t2 ++
              (([] : List String).map reduceWords).flatten))).length)
            ([] : List String) with
          | Except.error e => Except.error e
          | Except.ok (c, r3) =>
            match broadcast w [v1, v2, c] with
            | Except.error e => Except.error e
            | Except.ok v => Except.ok (v, r3)) =
        Except.error "missing operand"
      rw [rParse_nil vars ((w :: (reduceWords t1 ++ (reduceWords t2 ++
        (([] : List String).map reduceWords).flatten))).length) (by simp)]

    ·
      simp at hne

    ·
      obtain ⟨v1, hv1⟩ := hts t1 (by simp)
      have hp1 := reduce_ok_rParse vars t1 v1 hv1
      have hn1 := reduce_ok_words_ne vars t1 v1 hv1
      obtain ⟨v2, hv2⟩ := hts t2 (by simp)
      have hp2 := reduce_ok_rParse vars t2 v2 hv2
      have hn2 := reduce_ok_words_ne vars t2 v2 hv2
      obtain ⟨v3, hv3⟩ := hts t3 (by simp)
      have hp3 := reduce_ok_rParse vars t3 v3 hv3
      have hn3 := reduce_ok_words_ne vars t3 v3 hv3
      obtain ⟨v4, hv4⟩ := hts t4 (by simp)
      have hp4 := reduce_ok_rParse vars t4 v4 hv4
      have hn4 := reduce_ok_words_ne vars t4 v4 hv4
      have hL : (((t1 :: t2 :: t3 :: t4 :: ts5).map reduceWords).flatten :
          List String) =
          reduceWords t1 ++ (reduceWords t2 ++ (reduceWords t3 ++
            ((t4 :: ts5).map reduceWords).flatten)) := rfl
      have harg1 : rParse vars
          ((w :: (reduceWords t1 ++ (reduceWords t2 ++ (reduceWords t3 ++
            ((t4 :: ts5).map reduceWords).flatten)))).length)
          (reduceWords t1 ++ (reduceWords t2 ++ (reduceWords t3 ++
            ((t4 :: ts5).map reduceWords).flatten))) =
          .ok (v1, reduceWords t2 ++ (reduceWords t3 ++
            ((t4 :: ts5).map reduceWords).flatten)) :=
        rParse_monoApp vars (reduceWords t2 ++ (reduceWords t3 ++
            ((t4 :: ts5).map reduceWords).flatten))
          ((reduceWords t1).length + 1) _
          (by simp only [List.length_cons, List.length_append]; omega)
          (reduceWords t1) v1 [] hp1
      have harg2 : rParse vars
          ((w :: (reduceWords t1 ++ (reduceWords t2 ++ (reduceWords t3 ++
            ((t4 :: ts5).map reduceWords).flatten)))).length)
          (reduceWords t2 ++ (reduceWords t3 ++
            ((t4 :: ts5).map reduceWords).flatten)) =
          .ok (v2, reduceWords t3 ++
            ((t4 :: ts5).map reduceWords).flatten) :=
        rParse_monoApp vars (reduceWords t3 ++
            ((t4 :: ts5).map reduceWords).flatten)
          ((reduceWords t2).length + 1) _
          (by simp only [List.length_cons, List.length_append]; omega)
          (reduceWords t2) v2 [] hp2
      have harg3 : rParse vars
          ((w :: (reduceWords t1 ++ (reduceWords t2 ++ (reduceWords t3 ++
            ((t4 :: ts5).map reduceWords).flatten)))).length)
          (reduceWords t3 ++ ((t4 :: ts5).map reduceWords).flatten) =
          .ok (v3, ((t4 :: ts5).map reduceWords).flatten) :=
        rParse_monoApp vars (((t4 :: ts5).map reduceWords).flatten)
          ((reduceWords t3).length + 1) _
          (by simp only [List.length_cons, List.length_append]; omega)
          (reduceWords t3) v3 [] hp3
      have hres : rParse vars
          ((reduceWords (joinWords
            (w :: t1 :: t2 :: t3 :: t4 :: ts5))).length + 1)
          (reduceWords (joinWords (w :: t1 :: t2 :: t3 :: t4 :: ts5))) =
          (match broadcast w [v1, v2, v3] with
           | Except.error e => Except.error e
           | Except.ok v =>
             Except.ok (v, ((t4 :: ts5).map reduceWords).flatten)) := by
        rw [hwords, hL]
        rw [rParse_cons_ternary vars _ w _ hw]
        rw [harg1]
        show (match rParse vars
              ((w :: (reduceWords t1 ++ (reduceWords t2 ++ (reduceWords t3 ++
                ((t4 :: ts5).map reduceWords).flatten)))).length)
              (reduceWords t2 ++ (reduceWords t3 ++
                ((t4 :: ts5).map reduceWords).flatten)) with
            | Except.error e => Except.error e
            | Except.ok (b, r2) =>
              match rParse vars
                ((w :: (reduceWords t1 ++ (reduceWords t2 ++
                  (reduceWords t3 ++
                    ((t4 :: ts5).map reduceWords).flatten)))).length) r2 with
              | Except.error e => Except.error e
              | Except.ok (c, r3) =>
                match broadcast w [v1, b, c] with
                | Except.error e => Except.error e
                | Except.ok v => Except.ok (v, r3)) =
          (match broadcast w [v1, v2, v3] with
           | Except.error e => Except.error e
           | Except.ok v =>
             Except.ok (v, ((t4 :: ts5).map reduceWords).flatten))
        rw [harg2]
        show (match rParse vars
              ((w :: (reduceWords t1 ++ (reduceWords t2 ++ (reduceWords t3 ++
                ((t4 :: ts5).map reduceWords).flatten)))).length)
              (reduceWords t3 ++ ((t4 :: ts5).map reduceWords).flatten) with
            | Except.error e => Except.error e
            | Except.ok (c, r3) =>
              match broadcast w [v1, v2, c] with
              | Except.error e => Except.error e
              | Except.ok v => Except.ok (v, r3)) =
          (match broadcast w [v1, v2, v3] with
           | Except.error e => Except.error e
           | Except.ok v =>
             Except.ok (v, ((t4 :: ts5).map reduceWords).flatten))
        rw [harg3]
      cases hb : broadcast w [v1, v2, v3] with
      | error e =>
        rw [hb] at hres
        exact reduce_error_cases vars _ (.error e) hres
          (fun u hcon => by cases hcon)
      | ok bu =>
        rw [hb] at hres
        refine reduce_error_cases vars _
          (.ok (bu, ((t4 :: ts5).map reduceWords).flatten)) hres ?_
        intro u hcon
        injection hcon with hp
        injection hp with hA hB
        have hB2 : reduceWords t4 ++ ((ts5).map reduceWords).flatten =
            ([] : List String) := hB
        rcases List.append_eq_nil.mp hB2 with ⟨hB3, -⟩
        exact hn4 hB3



/-- C2: evaluation on array variables is element-wise: when every variable
is an array of length n and the reducer yields an array, that array has
length n, and its entry at each position i equals the scalar obtained by
evaluating the same prefix expression with every variable replaced by its
scalar value at position i. -/
theorem c2_reduce_elementwise (vars : List (String × Value)) (n : Nat)
    (hvars : ArrVars vars n) (hn : 0 < n) (s : String) (l : List Sc)
    (h : reduce vars s = .ok (.arr l)) :
    l.length = n ∧
      ∀ i, i < n → reduce (scalarize i vars) s = .ok (.s (l.getD i 0)) := by
  constructor
  · have h2 := reduce_ok_rParse vars s (.arr l) h
    obtain ⟨-, hlen⟩ := rParse_scalarize vars n 0 hvars hn _ _ _ _ h2
    exact hlen l rfl
  · intro i hi
    exact reduce_scalarize vars n i hvars hi s (.arr l) h

/-- Witness for C2 at the array variable of the test suite and the
expression * a 2. -/
theorem c2_reduce_elementwise_witness :
    ([0, 2, 4, 6] : List Sc).length = 4 ∧
      ∀ i, i < 4 → reduce (scalarize i aVar) "* a 2" =
        .ok (.s (([0, 2, 4, 6] : List Sc).getD i 0)) :=
  c2_reduce_elementwise aVar 4
    (by
      intro p hp
      simp only [aVar, List.mem_singleton] at hp
      subst hp
      exact ⟨[0, 1, 2, 3], rfl, by decide⟩)
    (by decide) "* a 2" [0, 2, 4, 6] (by decide)

/-- C5: the reducer fails on empty input; a successful reduction consumes
only operator words, defined variables, and numeric literals, so an
expression referencing an undefined variable fails; and an operator word
applied to the wrong number of complete operand terms fails. -/
theorem c5_reduce_failure_conditions :
    (∀ vars : List (String × Value),
      reduce vars "" = .error "missing operand") ∧
    (∀ (vars : List (String × Value)) (s : String) (v : Value),
      reduce vars s = .ok v → ∀ w ∈ reduceWords s,
        opArity w = none → isNumLit w.toList = false →
          vars.lookup w ≠ none) ∧
    (∀ (vars : List (String × Value)) (w : String) (k : Nat)
      (ts : List String), opArity w = some k →
      (∀ t ∈ ts, ∃ v, reduce vars t = .ok v) → ts.length ≠ k →
      ∃ e, reduce vars (joinWords (w :: ts)) = .error e) := by
  refine ⟨reduce_empty, ?_, reduce_wrong_arity⟩
  intro vars s v h w hw ha hn
  rcases reduce_words_ok vars s v h w hw with h1 | h1 | h1
  · exact absurd ha h1
  · exact h1
  · rw [h1] at hn
    simp at hn

/-- Witness for C5: the binary operator + applied to three operand terms
is rejected, as in the test suite. -/
theorem c5_reduce_failure_conditions_witness :
    ∃ e, reduce [] (joinWords ["+", "1", "2", "3"]) = .error e :=
  c5_reduce_failure_conditions.2.2 [] "+" 2 ["1", "2", "3"] (by decide)
    (by
      intro t ht
      fin_cases ht
      · exact ⟨.s 1, by decide⟩
      · exact ⟨.s 2, by decide⟩
      · exact ⟨.s 3, by decide⟩)
    (by decide)

/-- What tokenisation guarantees about each produced token: names carry the
classifier's checks, punctuation and operators carry nothing. -/
def tokWFc (cfg : Cfg) : Tok → Prop
  | .sym s => s ∈ cfg.vars
  | .num s => isNumLit s.toList = true ∧ s ∉ cfg.vars ∧ s ∉ cfg.fnBs ∧
      s ∉ cfg.fnTs ∧ s ≠ "if" ∧ s ≠ "then" ∧ s ≠ "else"
  | .fnB s => s ∈ cfg.fnBs ∧ s ∉ cfg.vars ∧ s ≠ "if" ∧ s ≠ "then" ∧
      s ≠ "else"
  | .fnT s => s ∈ cfg.fnTs ∧ s ∉ cfg.fnBs ∧ s ∉ cfg.vars ∧ s ≠ "if" ∧
      s ≠ "then" ∧ s ≠ "else"
  | _ => True

theorem classify_wf (cfg : Cfg) (w : List Char) (t : Tok)
    (h : classify cfg w = .ok t) : tokWFc cfg t := by
  simp only [classify] at h
  by_cases h1 : String.mk w ∈ cfg.vars
  · rw [if_pos h1] at h
    cases h
    exact h1
  · rw [if_neg h1] at h
    by_cases h2 : String.mk w = "if"
    · rw [if_pos h2] at h; cases h; trivial
    · rw [if_neg h2] at h
      by_cases h3 : String.mk w = "then"
      · rw [if_pos h3] at h; cases h; trivial
      · rw [if_neg h3] at h
        by_cases h4 : String.mk w = "else"
        · rw [if_pos h4] at h; cases h; trivial
        · rw [if_neg h4] at h
          by_cases h5 : String.mk w ∈ cfg.fnBs
          · rw [if_pos h5] at h
            cases h
            exact ⟨h5, h1, h2, h3, h4⟩
          · rw [if_neg h5] at h
            by_cases h6 : String.mk w ∈ cfg.fnTs
            · rw [if_pos h6] at h
              cases h
              exact ⟨h6, h5, h1, h2, h3, h4⟩
            · rw [if_neg h6] at h
              by_cases h7 : isNumLit w = true
              · rw [if_pos h7] at h
                cases h
                exact ⟨h7, h1, h5, h6, h2, h3, h4⟩
              · rw [if_neg h7] at h; cases h

theorem scanChunk_wf (cfg : Cfg) : ∀ fuel l ts,
    scanChunk cfg fuel l = .ok ts → ∀ t ∈ ts, tokWFc cfg t := by
  intro fuel
  induction fuel with
  | zero => intro l ts h; cases h
  | succ n ih =>
    intro l ts h
    cases l with
    | nil =>
      obtain rfl : ([] : List Tok) = ts := by cases h; rfl
      intro t ht; cases ht
    | cons c cs =>
      simp only [scanChunk] at h
      by_cases h1 : c = '('
      · rw [if_pos h1] at h
        cases hr : scanChunk cfg n cs with
        | error e => rw [hr] at h; cases h
        | ok ts2 =>
          rw [hr] at h
          obtain rfl : (Tok.lparen :: ts2 : List Tok) = ts := by
            cases h; rfl
          intro t ht
          rcases List.mem_cons.mp ht with rfl | ht2
          · trivial
          · exact ih cs ts2 hr t ht2
      · rw [if_neg h1] at h
        by_cases h2 : c = ')'
        · rw [if_pos h2] at h
          cases hr : scanChunk cfg n cs with
          | error e => rw [hr] at h; cases h
          | ok ts2 =>
            rw [hr] at h
            obtain rfl : (Tok.rparen :: ts2 : List Tok) = ts := by
              cases h; rfl
            intro t ht
            rcases List.mem_cons.mp ht with rfl | ht2
            · trivial
            · exact ih cs ts2 hr t ht2
        · rw [if_neg h2] at h
          by_cases h3 : c = ','
          · rw [if_pos h3] at h
            cases hr : scanChunk cfg n cs with
            | error e => rw [hr] at h; cases h
            | ok ts2 =>
              rw [hr] at h
              obtain rfl : (Tok.comma :: ts2 : List Tok) = ts := by
                cases h; rfl
              intro t ht
              rcases List.mem_cons.mp ht with rfl | ht2
              · trivial
              · exact ih cs ts2 hr t ht2
          · rw [if_neg h3] at h
            by_cases h4 : c ∈ opChars
            · rw [if_pos h4] at h
              by_cases h5 : (c = '<' ∨ c = '>' ∨ c = '!') ∧
                  cs.headD ' ' = '='
              · rw [if_pos h5] at h
                cases hr : scanChunk cfg n cs.tail with
                | error e => rw [hr] at h; cases h
                | ok ts2 =>
                  rw [hr] at h
                  obtain rfl : ((if c = '<' then Tok.bop .ble
                      else if c = '>' then Tok.bop .bge
                      else Tok.bop .bne) :: ts2 : List Tok) = ts := by
                    cases h; rfl
                  intro t ht
                  rcases List.mem_cons.mp ht with rfl | ht2
                  · by_cases hca : c = '<'
                    · rw [if_pos hca]; trivial
                    · rw [if_neg hca]
                      by_cases hcb : c = '>'
                      · rw [if_pos hcb]; trivial
                      · rw [if_neg hcb]; trivial
                  · exact ih cs.tail ts2 hr t ht2
              · rw [if_neg h5] at h
                by_cases h6 : c = '!'
                · rw [if_pos h6] at h; cases h
                · rw [if_neg h6] at h
                  by_cases hc0 : c = '+'
                  · rw [if_pos hc0] at h
                    cases hr : scanChunk cfg n cs with
                    | error e => rw [hr] at h; cases h
                    | ok ts2 =>
                      rw [hr] at h
                      obtain rfl : ((Tok.bop .add) :: ts2 : List Tok) = ts := by
                        cases h; rfl
                      intro t ht
                      rcases List.mem_cons.mp ht with rfl | ht2
                      · trivial
                      · exact ih cs ts2 hr t ht2
                  · rw [if_neg hc0] at h
                    by_cases hc1 : c = '-'
                    · rw [if_pos hc1] at h
                      cases hr : scanChunk cfg n cs with
                      | error e => rw [hr] at h; cases h
                      | ok ts2 =>
                        rw [hr] at h
                        obtain rfl : ((Tok.bop .sub) :: ts2 : List Tok) = ts := by
                          cases h; rfl
                        intro t ht
                        rcases List.mem_cons.mp ht with rfl | ht2
                        · trivial
                        · exact ih cs ts2 hr t ht2
                    · rw [if_neg hc1] at h
                      by_cases hc2 : c = '*'
                      · rw [if_pos hc2] at h
                        cases hr : scanChunk cfg n cs with
                        | error e => rw [hr] at h; cases h
                        | ok ts2 =>
                          rw [hr] at h
                          obtain rfl : ((Tok.bop .mul) :: ts2 : List Tok) = ts := by
                            cases h; rfl
                          intro t ht
                          rcases List.mem_cons.mp ht with rfl | ht2
                          · trivial
                          · exact ih cs ts2 hr t ht2
                      · rw [if_neg hc2] at h
                        by_cases hc3 : c = '/'
                        · rw [if_pos hc3] at h
                          cases hr : scanChunk cfg n cs with
                          | error e => rw [hr] at h; cases h
                          | ok ts2 =>
                            rw [hr] at h
                            obtain rfl : ((Tok.bop .div) :: ts2 : List Tok) = ts := by
                              cases h; rfl
                            intro t ht
                            rcases List.mem_cons.mp ht with rfl | ht2
                            · trivial
                            · exact ih cs ts2 hr t ht2
                        · rw [if_neg hc3] at h
                          by_cases hc4 : c = '^'
                          · rw [if_pos hc4] at h
                            cases hr : scanChunk cfg n cs with
                            | error e => rw [hr] at h; cases h
                            | ok ts2 =>
                              rw [hr] at h
                              obtain rfl : ((Tok.bop .pow) :: ts2 : List Tok) = ts := by
                                cases h; rfl
                              intro t ht
                              rcases List.mem_cons.mp ht with rfl | ht2
                              · trivial
                              · exact ih cs ts2 hr t ht2
                          · rw [if_neg hc4] at h
                            by_cases hc5 : c = '<'
                            · rw [if_pos hc5] at h
                              cases hr : scanChunk cfg n cs with
                              | error e => rw [hr] at h; cases h
                              | ok ts2 =>
                                rw [hr] at h
                                obtain rfl : ((Tok.bop .blt) :: ts2 : List Tok) = ts := by
                                  cases h; rfl
                                intro t ht
                                rcases List.mem_cons.mp ht with rfl | ht2
                                · trivial
                                · exact ih cs ts2 hr t ht2
                            · rw [if_neg hc5] at h
                              by_cases hc6 : c = '>'
                              · rw [if_pos hc6] at h
                                cases hr : scanChunk cfg n cs with
                                | error e => rw [hr] at h; cases h
                                | ok ts2 =>
                                  rw [hr] at h
                                  obtain rfl : ((Tok.bop .bgt) :: ts2 : List Tok) = ts := by
                                    cases h; rfl
                                  intro t ht
                                  rcases List.mem_cons.mp ht with rfl | ht2
                                  · trivial
                                  · exact ih cs ts2 hr t ht2
                              · rw [if_neg hc6] at h
                                by_cases hc7 : c = '='
                                · rw [if_pos hc7] at h
                                  cases hr : scanChunk cfg n cs with
                                  | error e => rw [hr] at h; cases h
                                  | ok ts2 =>
                                    rw [hr] at h
                                    obtain rfl : ((Tok.bop .beq) :: ts2 : List Tok) = ts := by
                                      cases h; rfl
                                    intro t ht
                                    rcases List.mem_cons.mp ht with rfl | ht2
                                    · trivial
                                    · exact ih cs ts2 hr t ht2
                                · rw [if_neg hc7] at h
                                  by_cases hc8 : c = '?'
                                  · rw [if_pos hc8] at h
                                    cases hr : scanChunk cfg n cs with
                                    | error e => rw [hr] at h; cases h
                                    | ok ts2 =>
                                      rw [hr] at h
                                      obtain rfl : ((Tok.question) :: ts2 : List Tok) = ts := by
                                        cases h; rfl
                                      intro t ht
                                      rcases List.mem_cons.mp ht with rfl | ht2
                                      · trivial
                                      · exact ih cs ts2 hr t ht2
                                  · rw [if_neg hc8] at h
                                    by_cases hc9 : c = ':'
                                    · rw [if_pos hc9] at h
                                      cases hr : scanChunk cfg n cs with
                                      | error e => rw [hr] at h; cases h
                                      | ok ts2 =>
                                        rw [hr] at h
                                        obtain rfl : ((Tok.colon) :: ts2 : List Tok) = ts := by
                                          cases h; rfl
                                        intro t ht
                                        rcases List.mem_cons.mp ht with rfl | ht2
                                        · trivial
                                        · exact ih cs ts2 hr t ht2
                                    · rw [if_neg hc9] at h
                                      cases h

            · rw [if_neg h4] at h
              cases hc : classify cfg (c :: cs.takeWhile
                  (fun d => !stopChar d)) with
              | error e => rw [hc] at h; cases h
              | ok t1 =>
                rw [hc] at h
                cases hr : scanChunk cfg n (cs.dropWhile
                    (fun d => !stopChar d)) with
                | error e => rw [hr] at h; cases h
                | ok ts2 =>
                  rw [hr] at h
                  obtain rfl : (t1 :: ts2 : List Tok) = ts := by
                    cases h; rfl
                  intro t ht
                  rcases List.mem_cons.mp ht with rfl | ht2
                  · exact classify_wf cfg _ t hc
                  · exact ih _ ts2 hr t ht2

theorem mapM_scan_wf (cfg : Cfg) : ∀ (chunks : List (List Char))
    (tss : List (List Tok)),
    chunks.mapM (fun ch => scanChunk cfg (ch.length + 1) ch) = .ok tss →
    ∀ ts ∈ tss, ∀ t ∈ ts, tokWFc cfg t := by
  intro chunks
  induction chunks with
  | nil =>
    intro tss h
    obtain rfl : ([] : List (List Tok)) = tss := by cases h; rfl
    intro ts ht; cases ht
  | cons ch chunks ih =>
    intro tss h
    rw [List.mapM_cons] at h
    cases hs : scanChunk cfg (ch.length + 1) ch with
    | error e => rw [hs] at h; cases h
    | ok ts1 =>
      rw [hs] at h
      cases hm : chunks.mapM (fun ch => scanChunk cfg (ch.length + 1) ch) with
      | error e => rw [hm] at h; cases h
      | ok rest =>
        rw [hm] at h
        obtain rfl : ts1 :: rest = tss := by cases h; rfl
        intro ts ht
        rcases List.mem_cons.mp ht with rfl | ht2
        · exact scanChunk_wf cfg _ ch ts hs
        · exact ih rest hm ts ht2

theorem tokenize_wf (cfg : Cfg) (s : String) (toks : List Tok)
    (h : tokenize cfg s = .ok toks) : ∀ t ∈ toks, tokWFc cfg t := by
  unfold tokenize at h
  cases hm : ((splitSp s.toList).filter (fun c => !c.isEmpty)).mapM
      (fun ch => scanChunk cfg (ch.length + 1) ch) with
  | error e => rw [hm] at h; cases h
  | ok tss =>
    rw [hm] at h
    obtain rfl : tss.flatten = toks := by cases h; rfl
    intro t ht
    obtain ⟨ts, hts, htt⟩ := List.mem_flatten.mp ht
    exact mapM_scan_wf cfg _ tss hm ts hts t htt

theorem wfE_num_tok (cfg : Cfg) (s : String) (h : tokWFc cfg (.num s)) :
    wfE cfg (.num s) = true := by
  obtain ⟨h1, h2, h3, h4, h5, h6, h7⟩ := h
  simp [wfE, h2, h3, h4, h5, h6, h7]
  exact h1

theorem wfE_var_tok (cfg : Cfg) (s : String) (h : tokWFc cfg (.sym s)) :
    wfE cfg (.var s) = true := by
  have h2 : s ∈ cfg.vars := h
  simp [wfE, h2]

theorem wfE_neg_of (cfg : Cfg) (x : Expr) (h : wfE cfg x = true) :
    wfE cfg (.neg x) = true := h

theorem wfE_bin_of (cfg : Cfg) (o : BOp) (l r : Expr)
    (hl : wfE cfg l = true) (hr : wfE cfg r = true) :
    wfE cfg (.bin o l r) = true := by
  simp [wfE, hl, hr]

theorem wfE_tern_of (cfg : Cfg) (c t f : Expr) (hc : wfE cfg c = true)
    (ht : wfE cfg t = true) (hf : wfE cfg f = true) :
    wfE cfg (.tern c t f) = true := by
  simp [wfE, hc, ht, hf]

theorem wfE_callB_of (cfg : Cfg) (f : String) (a b : Expr)
    (h : tokWFc cfg (.fnB f)) (ha : wfE cfg a = true)
    (hb : wfE cfg b = true) : wfE cfg (.callB f a b) = true := by
  obtain ⟨h1, h2, h3, h4, h5⟩ := h
  simp [wfE, h1, h2, h3, h4, h5, ha, hb]

theorem wfE_callT_of (cfg : Cfg) (f : String) (a b c : Expr)
    (h : tokWFc cfg (.fnT f)) (ha : wfE cfg a = true)
    (hb : wfE cfg b = true) (hc : wfE cfg c = true) :
    wfE cfg (.callT f a b c) = true := by
  obtain ⟨h1, h2, h3, h4, h5, h6⟩ := h
  simp [wfE, h1, h2, h3, h4, h5, h6, ha, hb, hc]

theorem pP_wf (cfg : Cfg) : ∀ fuel rbp mode toks e rest,
    (∀ t ∈ toks, tokWFc cfg t) →
    (∀ l, mode = .inr l → wfE cfg l = true) →
    pP cfg fuel rbp mode toks = .ok (e, rest) →
    wfE cfg e = true ∧ ∀ t ∈ rest, tokWFc cfg t := by
  intro fuel
  induction fuel with
  | zero => intro rbp mode toks e rest h1 h2 h; cases h
  | succ f ih =>
    intro rbp mode toks e rest htoks hmode h
    cases mode with
    | inl uu =>
      cases toks with
      | nil => cases h
      | cons t ts =>
        have hts : ∀ x ∈ ts, tokWFc cfg x :=
          fun x hx => htoks x (by simp [hx])
        have hthead : tokWFc cfg t := htoks t (by simp)
        cases t with
        | num s =>
          exact ih rbp (.inr (.num s)) ts e rest hts
            (by intro l hl; cases hl; exact wfE_num_tok cfg s hthead) h
        | sym s =>
          exact ih rbp (.inr (.var s)) ts e rest hts
            (by intro l hl; cases hl; exact wfE_var_tok cfg s hthead) h
        | bop o =>
          cases o with
          | sub =>
              have h1t : (match pP cfg f 45 (.inl ()) ts with
                  | Except.error e => Except.error e
                  | Except.ok (x, r) => pP cfg f rbp (.inr (.neg x)) r) =
                  .ok (e, rest) := h
              cases h1 : pP cfg f 45 (.inl ()) ts with
              | error e2 => rw [h1] at h1t; cases h1t
              | ok p =>
                obtain ⟨x, r⟩ := p
                rw [h1] at h1t
                obtain ⟨hx, hr⟩ := ih 45 (.inl ()) ts x r hts
                  (by intro l hl; cases hl) h1
                exact ih rbp (.inr (.neg x)) r e rest hr
                  (by intro l hl; cases hl; exact wfE_neg_of cfg x hx) h1t
          | add => cases h
          | mul => cases h
          | div => cases h
          | pow => cases h
          | blt => cases h
          | bgt => cases h
          | ble => cases h
          | bge => cases h
          | beq => cases h
          | bne => cases h
        | lparen =>
          have h1t : (match pP cfg f 0 (.inl ()) ts with
              | Except.error e => Except.error e
              | Except.ok (x, r) =>
                match r with
                | Tok.rparen :: r2 => pP cfg f rbp (.inr x) r2
                | _ => Except.error "mismatched parenthesis") = .ok (e, rest) := h
          cases h1 : pP cfg f 0 (.inl ()) ts with
          | error e2 => rw [h1] at h1t; cases h1t
          | ok p =>
            obtain ⟨x, r⟩ := p
            rw [h1] at h1t
            obtain ⟨hx, hr⟩ := ih 0 (.inl ()) ts x r hts
              (by intro l hl; cases hl) h1
            have h2t : (match r with
                | Tok.rparen :: r2 => pP cfg f rbp (.inr x) r2
                | _ => Except.error "mismatched parenthesis") = .ok (e, rest) := h1t
            cases r with
            | nil => cases h2t
            | cons rt r2 =>
              have hr2 : ∀ y ∈ r2, tokWFc cfg y :=
                fun y hy => hr y (by simp [hy])
              cases rt with
              | rparen =>
                exact ih rbp (.inr x) r2 e rest hr2
                  (by intro l hl; cases hl; exact hx) h2t
              | num s0 => cases h2t
              | sym s0 => cases h2t
              | bop o0 => cases h2t
              | question => cases h2t
              | colon => cases h2t
              | lparen => cases h2t
              | comma => cases h2t
              | kIf => cases h2t
              | kThen => cases h2t
              | kElse => cases h2t
              | fnB f0 => cases h2t
              | fnT f0 => cases h2t
        | kIf =>
          have h1t : (match pP cfg f 0 (.inl ()) ts with
              | Except.error e => Except.error e
              | Except.ok (c, r1) =>
                match r1 with
                | Tok.kThen :: r2 =>
                  match pP cfg f 0 (.inl ()) r2 with
                  | Except.error e => Except.error e
                  | Except.ok (a, r3) =>
                    match r3 with
                    | Tok.kElse :: r4 =>
                      match pP cfg f 9 (.inl ()) r4 with
                      | Except.error e => Except.error e
                      | Except.ok (b, r5) => pP cfg f rbp (.inr (.tern c a b)) r5
                    | _ => Except.error "expected else"
                | _ => Except.error "expected then") = .ok (e, rest) := h
          cases h1 : pP cfg f 0 (.inl ()) ts with
          | error e2 => rw [h1] at h1t; cases h1t
          | ok p =>
            obtain ⟨cx, r1⟩ := p
            rw [h1] at h1t
            obtain ⟨hcx, hr1⟩ := ih 0 (.inl ()) ts cx r1 hts
              (by intro l hl; cases hl) h1
            have h2t : (match r1 with
                | Tok.kThen :: r2 =>
                  match pP cfg f 0 (.inl ()) r2 with
                  | Except.error e => Except.error e
                  | Except.ok (a, r3) =>
                    match r3 with
                    | Tok.kElse :: r4 =>
                      match pP cfg f 9 (.inl ()) r4 with
                      | Except.error e => Except.error e
                      | Except.ok (b, r5) => pP cfg f rbp (.inr (.tern cx a b)) r5
                    | _ => Except.error "expected else"
                | _ => Except.error "expected then") = .ok (e, rest) := h1t
            cases r1 with
            | nil => cases h2t
            | cons rt r2 =>
              have hr2 : ∀ y ∈ r2, tokWFc cfg y :=
                fun y hy => hr1 y (by simp [hy])
              cases rt with
              | kThen =>
                have h3t : (match pP cfg f 0 (.inl ()) r2 with
                    | Except.error e => Except.error e
                    | Except.ok (a, r3) =>
                      match r3 with
                      | Tok.kElse :: r4 =>
                        match pP cfg f 9 (.inl ()) r4 with
                        | Except.error e => Except.error e
                        | Except.ok (b, r5) => pP cfg f rbp (.inr (.tern cx a b)) r5
                      | _ => Except.error "expected else") =
                    .ok (e, rest) := h2t
                cases h3 : pP cfg f 0 (.inl ()) r2 with
                | error e2 => rw [h3] at h3t; cases h3t
                | ok p2 =>
                  obtain ⟨ax, r3⟩ := p2
                  rw [h3] at h3t
                  obtain ⟨hax, hr3⟩ := ih 0 (.inl ()) r2 ax r3 hr2
                    (by intro l hl; cases hl) h3
                  have h4t : (match r3 with
                      | Tok.kElse :: r4 =>
                        match pP cfg f 9 (.inl ()) r4 with
                        | Except.error e => Except.error e
                        | Except.ok (b, r5) => pP cfg f rbp (.inr (.tern cx ax b)) r5
                      | _ => Except.error "expected else") = .ok (e, rest) := h3t
                  cases r3 with
                  | nil => cases h4t
                  | cons rt2 r4 =>
                    have hr4 : ∀ y ∈ r4, tokWFc cfg y :=
                      fun y hy => hr3 y (by simp [hy])
                    cases rt2 with
                    | kElse =>
                      have h5t : (match pP cfg f 9 (.inl ()) r4 with
                          | Except.error e => Except.error e
                          | Except.ok (b, r5) =>
                            pP cfg f rbp (.inr (.tern cx ax b)) r5) =
                          .ok (e, rest) := h4t
                      cases h5 : pP cfg f 9 (.inl ()) r4 with
                      | error e2 => rw [h5] at h5t; cases h5t
                      | ok p3 =>
                        obtain ⟨bx, r5⟩ := p3
                        rw [h5] at h5t
                        obtain ⟨hbx, hr5⟩ := ih 9 (.inl ()) r4 bx r5 hr4
                          (by intro l hl; cases hl) h5
                        exact ih rbp (.inr (.tern cx ax bx)) r5 e rest hr5
                          (by
                            intro l hl
                            cases hl
                            exact wfE_tern_of cfg cx ax bx hcx hax hbx) h5t
                    | num s0 => cases h4t
                    | sym s0 => cases h4t
                    | bop o0 => cases h4t
                    | question => cases h4t
                    | colon => cases h4t
                    | lparen => cases h4t
                    | rparen => cases h4t
                    | comma => cases h4t
                    | kIf => cases h4t
                    | kThen => cases h4t
                    | fnB f0 => cases h4t
                    | fnT f0 => cases h4t
              | num s0 => cases h2t
              | sym s0 => cases h2t
              | bop o0 => cases h2t
              | question => cases h2t
              | colon => cases h2t
              | lparen => cases h2t
              | rparen => cases h2t
              | comma => cases h2t
              | kIf => cases h2t
              | kElse => cases h2t
              | fnB f0 => cases h2t
              | fnT f0 => cases h2t
        | fnB fn =>
          have h1t : (match ts with
              | Tok.lparen :: u1 =>
                match pP cfg f 0 (.inl ()) u1 with
                | Except.error e => Except.error e
                | Except.ok (a, r1) =>
                  match r1 with
                  | Tok.comma :: r2 =>
                    match pP cfg f 0 (.inl ()) r2 with
                    | Except.error e => Except.error e
                    | Except.ok (b, r3) =>
                      match r3 with
                      | Tok.rparen :: r4 =>
                        pP cfg f rbp (.inr (.callB fn a b)) r4
                      | _ => Except.error "expected closing parenthesis"
                  | _ => Except.error "expected comma"
              | _ => Except.error "expected opening parenthesis") = .ok (e, rest) := h
          cases ts with
          | nil => cases h1t
          | cons t1 u1 =>
            have hu1 : ∀ y ∈ u1, tokWFc cfg y :=
              fun y hy => hts y (by simp [hy])
            cases t1 with
            | lparen =>
              have h2t : (match pP cfg f 0 (.inl ()) u1 with
                  | Except.error e => Except.error e
                  | Except.ok (a, r1) =>
                    match r1 with
                    | Tok.comma :: r2 =>
                      match pP cfg f 0 (.inl ()) r2 with
                      | Except.error e => Except.error e
                      | Except.ok (b, r3) =>
                        match r3 with
                        | Tok.rparen :: r4 =>
                          pP cfg f rbp (.inr (.callB fn a b)) r4
                        | _ => Except.error "expected closing parenthesis"
                    | _ => Except.error "expected comma") = .ok (e, rest) := h1t
              cases h2 : pP cfg f 0 (.inl ()) u1 with
              | error e2 => rw [h2] at h2t; cases h2t
              | ok p =>
                obtain ⟨ax, r1⟩ := p
                rw [h2] at h2t
                obtain ⟨hax, hr1⟩ := ih 0 (.inl ()) u1 ax r1 hu1
                  (by intro l hl; cases hl) h2
                have h3t : (match r1 with
                    | Tok.comma :: r2 =>
                      match pP cfg f 0 (.inl ()) r2 with
                      | Except.error e => Except.error e
                      | Except.ok (b, r3) =>
                        match r3 with
                        | Tok.rparen :: r4 =>
                          pP cfg f rbp (.inr (.callB fn ax b)) r4
                        | _ => Except.error "expected closing parenthesis"
                    | _ => Except.error "expected comma") = .ok (e, rest) := h2t
                cases r1 with
                | nil => cases h3t
                | cons rt r2 =>
                  have hr2 : ∀ y ∈ r2, tokWFc cfg y :=
                    fun y hy => hr1 y (by simp [hy])
                  cases rt with
                  | comma =>
                    have h4t : (match pP cfg f 0 (.inl ()) r2 with
                        | Except.error e => Except.error e
                        | Except.ok (b, r3) =>
                          match r3 with
                          | Tok.rparen :: r4 =>
                            pP cfg f rbp (.inr (.callB fn ax b)) r4
                          | _ => Except.error "expected closing parenthesis") =
                        .ok (e, rest) := h3t
                    cases h4 : pP cfg f 0 (.inl ()) r2 with
                    | error e2 => rw [h4] at h4t; cases h4t
                    | ok p2 =>
                      obtain ⟨bx, r3⟩ := p2
                      rw [h4] at h4t
                      obtain ⟨hbx, hr3⟩ := ih 0 (.inl ()) r2 bx r3 hr2
                        (by intro l hl; cases hl) h4
                      have h5t : (match r3 with
                          | Tok.rparen :: r4 =>
                            pP cfg f rbp (.inr (.callB fn ax bx)) r4
                          | _ => Except.error "expected closing parenthesis") =
                          .ok (e, rest) := h4t
                      cases r3 with
                      | nil => cases h5t
                      | cons rt2 r4 =>
                        have hr4 : ∀ y ∈ r4, tokWFc cfg y :=
                          fun y hy => hr3 y (by simp [hy])
                        cases rt2 with
                        | rparen =>
                          exact ih rbp (.inr (.callB fn ax bx)) r4 e rest hr4
                            (by
                              intro l hl
                              cases hl
                              exact wfE_callB_of cfg fn ax bx hthead hax hbx)
                            h5t
                        | num s0 => cases h5t
                        | sym s0 => cases h5t
                        | bop o0 => cases h5t
                        | question => cases h5t
                        | colon => cases h5t
                        | lparen => cases h5t
                        | comma => cases h5t
                        | kIf => cases h5t
                        | kThen => cases h5t
                        | kElse => cases h5t
                        | fnB f0 => cases h5t
                        | fnT f0 => cases h5t
                  | num s0 => cases h3t
                  | sym s0 => cases h3t
                  | bop o0 => cases h3t
                  | question => cases h3t
                  | colon => cases h3t
                  | lparen => cases h3t
                  | rparen => cases h3t
                  | kIf => cases h3t
                  | kThen => cases h3t
                  | kElse => cases h3t
                  | fnB f0 => cases h3t
                  | fnT f0 => cases h3t
            | num s0 => cases h1t
            | sym s0 => cases h1t
            | bop o0 => cases h1t
            | question => cases h1t
            | colon => cases h1t
            | rparen => cases h1t
            | comma => cases h1t
            | kIf => cases h1t
            | kThen => cases h1t
            | kElse => cases h1t
            | fnB f0 => cases h1t
            | fnT f0 => cases h1t
        | fnT fn =>
          have h1t : (match ts with
              | Tok.lparen :: u1 =>
                match pP cfg f 0 (.inl ()) u1 with
                | Except.error e => Except.error e
                | Except.ok (a, r1) =>
                  match r1 with
                  | Tok.comma :: r2 =>
                    match pP cfg f 0 (.inl ()) r2 with
                    | Except.error e => Except.error e
                    | Except.ok (b, r3) =>
                      match r3 with
                      | Tok.comma :: r4 =>
                        match pP cfg f 0 (.inl ()) r4 with
                        | Except.error e => Except.error e
                        | Except.ok (c, r5) =>
                          match r5 with
                          | Tok.rparen :: r6 =>
                            pP cfg f rbp (.inr (.callT fn a b c)) r6
                          | _ => Except.error "expected closing parenthesis"
                      | _ => Except.error "expected comma"
                  | _ => Except.error "expected comma"
              | _ => Except.error "expected opening parenthesis") = .ok (e, rest) := h
          cases ts with
          | nil => cases h1t
          | cons t1 u1 =>
            have hu1 : ∀ y ∈ u1, tokWFc cfg y :=
              fun y hy => hts y (by simp [hy])
            cases t1 with
            | lparen =>
              have h2t : (match pP cfg f 0 (.inl ()) u1 with
                  | Except.error e => Except.error e
                  | Except.ok (a, r1) =>
                    match r1 with
                    | Tok.comma :: r2 =>
                      match pP cfg f 0 (.inl ()) r2 with
                      | Except.error e => Except.error e
                      | Except.ok (b, r3) =>
                        match r3 with
                        | Tok.comma :: r4 =>
                          match pP cfg f 0 (.inl ()) r4 with
                          | Except.error e => Except.error e
                          | Except.ok (c, r5) =>
                            match r5 with
                            | Tok.rparen :: r6 =>
                              pP cfg f rbp (.inr (.callT fn a b c)) r6
                            | _ => Except.error "expected closing parenthesis"
                        | _ => Except.error "expected comma"
                    | _ => Except.error "expected comma") = .ok (e, rest) := h1t
              cases h2 : pP cfg f 0 (.inl ()) u1 with
              | error e2 => rw [h2] at h2t; cases h2t
              | ok p =>
                obtain ⟨ax, r1⟩ := p
                rw [h2] at h2t
                obtain ⟨hax, hr1⟩ := ih 0 (.inl ()) u1 ax r1 hu1
                  (by intro l hl; cases hl) h2
                have h3t : (match r1 with
                    | Tok.comma :: r2 =>
                      match pP cfg f 0 (.inl ()) r2 with
                      | Except.error e => Except.error e
                      | Except.ok (b, r3) =>
                        match r3 with
                        | Tok.comma :: r4 =>
                          match pP cfg f 0 (.inl ()) r4 with
                          | Except.error e => Except.error e
                          | Except.ok (c, r5) =>
                            match r5 with
                            | Tok.rparen :: r6 =>
                              pP cfg f rbp (.inr (.callT fn ax b c)) r6
                            | _ => Except.error "expected closing parenthesis"
                        | _ => Except.error "expected comma"
                    | _ => Except.error "expected comma") = .ok (e, rest) := h2t
                cases r1 with
                | nil => cases h3t
                | cons rt r2 =>
                  have hr2 : ∀ y ∈ r2, tokWFc cfg y :=
                    fun y hy => hr1 y (by simp [hy])
                  cases rt with
                  | comma =>
                    have h4t : (match pP cfg f 0 (.inl ()) r2 with
                        | Except.error e => Except.error e
                        | Except.ok (b, r3) =>
                          match r3 with
                          | Tok.comma :: r4 =>
                            match pP cfg f 0 (.inl ()) r4 with
                            | Except.error e => Except.error e
                            | Except.ok (c, r5) =>
                              match r5 with
                              | Tok.rparen :: r6 =>
                                pP cfg f rbp (.inr (.callT fn ax b c)) r6
                              | _ => Except.error "expected closing parenthesis"
                          | _ => Except.error "expected comma") =
                        .ok (e, rest) := h3t
                    cases h4 : pP cfg f 0 (.inl ()) r2 with
                    | error e2 => rw [h4] at h4t; cases h4t
                    | ok p2 =>
                      obtain ⟨bx, r3⟩ := p2
                      rw [h4] at h4t
                      obtain ⟨hbx, hr3⟩ := ih 0 (.inl ()) r2 bx r3 hr2
                        (by intro l hl; cases hl) h4
                      have h5t : (match r3 with
                          | Tok.comma :: r4 =>
                            match pP cfg f 0 (.inl ()) r4 with
                            | Except.error e => Except.error e
                            | Except.ok (c, r5) =>
                              match r5 with
                              | Tok.rparen :: r6 =>
                                pP cfg f rbp (.inr (.callT fn ax bx c)) r6
                              | _ => Except.error "expected closing parenthesis"
                          | _ => Except.error "expected comma") = .ok (e, rest) := h4t
                      cases r3 with
                      | nil => cases h5t
                      | cons rt2 r4 =>
                        have hr4 : ∀ y ∈ r4, tokWFc cfg y :=
                          fun y hy => hr3 y (by simp [hy])
                        cases rt2 with
                        | comma =>
                          have h6t : (match pP cfg f 0 (.inl ()) r4 with
                              | Except.error e => Except.error e
                              | Except.ok (c, r5) =>
                                match r5 with
                                | Tok.rparen :: r6 =>
                                  pP cfg f rbp (.inr (.callT fn ax bx c)) r6
                                | _ =>
                                  .error "expected closing parenthesis") =
                              .ok (e, rest) := h5t
                          cases h6 : pP cfg f 0 (.inl ()) r4 with
                          | error e2 => rw [h6] at h6t; cases h6t
                          | ok p3 =>
                            obtain ⟨cx, r5⟩ := p3
                            rw [h6] at h6t
                            obtain ⟨hcx, hr5⟩ := ih 0 (.inl ()) r4 cx r5 hr4
                              (by intro l hl; cases hl) h6
                            have h7t : (match r5 with
                                | Tok.rparen :: r6 =>
                                  pP cfg f rbp (.inr (.callT fn ax bx cx)) r6
                                | _ =>
                                  .error "expected closing parenthesis") =
                                .ok (e, rest) := h6t
                            cases r5 with
                            | nil => cases h7t
                            | cons rt3 r6 =>
                              have hr6 : ∀ y ∈ r6, tokWFc cfg y :=
                                fun y hy => hr5 y (by simp [hy])
                              cases rt3 with
                              | rparen =>
                                exact ih rbp (.inr (.callT fn ax bx cx)) r6
                                  e rest hr6
                                  (by
                                    intro l hl
                                    cases hl
                                    exact wfE_callT_of cfg fn ax bx cx
                                      hthead hax hbx hcx) h7t
                              | num s0 => cases h7t
                              | sym s0 => cases h7t
                              | bop o0 => cases h7t
                              | question => cases h7t
                              | colon => cases h7t
                              | lparen => cases h7t
                              | comma => cases h7t
                              | kIf => cases h7t
                              | kThen => cases h7t
                              | kElse => cases h7t
                              | fnB f0 => cases h7t
                              | fnT f0 => cases h7t
                        | num s0 => cases h5t
                        | sym s0 => cases h5t
                        | bop o0 => cases h5t
                        | question => cases h5t
                        | colon => cases h5t
                        | lparen => cases h5t
                        | rparen => cases h5t
                        | kIf => cases h5t
                        | kThen => cases h5t
                        | kElse => cases h5t
                        | fnB f0 => cases h5t
                        | fnT f0 => cases h5t
                  | num s0 => cases h3t
                  | sym s0 => cases h3t
                  | bop o0 => cases h3t
                  | question => cases h3t
                  | colon => cases h3t
                  | lparen => cases h3t
                  | rparen => cases h3t
                  | kIf => cases h3t
                  | kThen => cases h3t
                  | kElse => cases h3t
                  | fnB f0 => cases h3t
                  | fnT f0 => cases h3t
            | num s0 => cases h1t
            | sym s0 => cases h1t
            | bop o0 => cases h1t
            | question => cases h1t
            | colon => cases h1t
            | rparen => cases h1t
            | comma => cases h1t
            | kIf => cases h1t
            | kThen => cases h1t
            | kElse => cases h1t
            | fnB f0 => cases h1t
            | fnT f0 => cases h1t
        | question => cases h
        | colon => cases h
        | rparen => cases h
        | comma => cases h
        | kThen => cases h
        | kElse => cases h
    | inr left =>
      have hleft : wfE cfg left = true := hmode left rfl
      cases toks with
      | nil =>
        obtain ⟨rfl, rfl⟩ : left = e ∧ ([] : List Tok) = rest := by
          cases h; exact ⟨rfl, rfl⟩
        exact ⟨hleft, by intro t ht; cases ht⟩
      | cons t ts =>
        have hts : ∀ x ∈ ts, tokWFc cfg x :=
          fun x hx => htoks x (by simp [hx])
        cases t with
        | bop o =>
          have h0 : pP cfg (f + 1) rbp (.inr left) (Tok.bop o :: ts) =
              (if o.lbp > rbp then
                match pP cfg f o.rbp (.inl ()) ts with
                | Except.error e => Except.error e
                | Except.ok (r, rest2) => pP cfg f rbp (.inr (.bin o left r)) rest2
              else .ok (left, Tok.bop o :: ts)) := rfl
          rw [h0] at h
          by_cases hbp : o.lbp > rbp
          · rw [if_pos hbp] at h
            cases h1 : pP cfg f o.rbp (.inl ()) ts with
            | error e2 => rw [h1] at h; cases h
            | ok p =>
              obtain ⟨rx, rest2⟩ := p
              rw [h1] at h
              obtain ⟨hrx, hrest2⟩ := ih o.rbp (.inl ()) ts rx rest2 hts
                (by intro l hl; cases hl) h1
              exact ih rbp (.inr (.bin o left rx)) rest2 e rest hrest2
                (by
                  intro l hl
                  cases hl
                  exact wfE_bin_of cfg o left rx hleft hrx) h
          · rw [if_neg hbp] at h
            obtain ⟨rfl, rfl⟩ : left = e ∧ Tok.bop o :: ts = rest := by
              cases h; exact ⟨rfl, rfl⟩
            exact ⟨hleft, htoks⟩
        | question =>
          have h0 : pP cfg (f + 1) rbp (.inr left) (Tok.question :: ts) =
              (if 10 > rbp then
                match pP cfg f 0 (.inl ()) ts with
                | Except.error e => Except.error e
                | Except.ok (m, r1) =>
                  match r1 with
                  | Tok.colon :: r2 =>
                    match pP cfg f 9 (.inl ()) r2 with
                    | Except.error e => Except.error e
                    | Except.ok (fb, r3) => pP cfg f rbp (.inr (.tern left m fb)) r3
                  | _ => Except.error "expected colon"
              else .ok (left, Tok.question :: ts)) := rfl
          rw [h0] at h
          by_cases hbp : 10 > rbp
          · rw [if_pos hbp] at h
            cases h1 : pP cfg f 0 (.inl ()) ts with
            | error e2 => rw [h1] at h; cases h
            | ok p =>
              obtain ⟨mx, r1⟩ := p
              rw [h1] at h
              obtain ⟨hmx, hr1⟩ := ih 0 (.inl ()) ts mx r1 hts
                (by intro l hl; cases hl) h1
              have h2t : (match r1 with
                  | Tok.colon :: r2 =>
                    match pP cfg f 9 (.inl ()) r2 with
                    | Except.error e => Except.error e
                    | Except.ok (fb, r3) =>
                      pP cfg f rbp (.inr (.tern left mx fb)) r3
                  | _ => Except.error "expected colon") = .ok (e, rest) := h
              cases r1 with
              | nil => cases h2t
              | cons rt r2 =>
                have hr2 : ∀ y ∈ r2, tokWFc cfg y :=
                  fun y hy => hr1 y (by simp [hy])
                cases rt with
                | colon =>
                  have h3t : (match pP cfg f 9 (.inl ()) r2 with
                      | Except.error e => Except.error e
                      | Except.ok (fb, r3) =>
                        pP cfg f rbp (.inr (.tern left mx fb)) r3) =
                      .ok (e, rest) := h2t
                  cases h3 : pP cfg f 9 (.inl ()) r2 with
                  | error e2 => rw [h3] at h3t; cases h3t
                  | ok p2 =>
                    obtain ⟨fbx, r3⟩ := p2
                    rw [h3] at h3t
                    obtain ⟨hfbx, hr3⟩ := ih 9 (.inl ()) r2 fbx r3 hr2
                      (by intro l hl; cases hl) h3
                    exact ih rbp (.inr (.tern left mx fbx)) r3 e rest hr3
                      (by
                        intro l hl
                        cases hl
                        exact wfE_tern_of cfg left mx fbx hleft hmx hfbx) h3t
                | num s0 => cases h2t
                | sym s0 => cases h2t
                | bop o0 => cases h2t
                | question => cases h2t
                | lparen => cases h2t
                | rparen => cases h2t
                | comma => cases h2t
                | kIf => cases h2t
                | kThen => cases h2t
                | kElse => cases h2t
                | fnB f0 => cases h2t
                | fnT f0 => cases h2t
          · rw [if_neg hbp] at h
            obtain ⟨rfl, rfl⟩ : left = e ∧ Tok.question :: ts = rest := by
              cases h; exact ⟨rfl, rfl⟩
            exact ⟨hleft, htoks⟩
        | num s0 =>
          obtain ⟨rfl, rfl⟩ : left = e ∧ Tok.num s0 :: ts = rest := by
            cases h; exact ⟨rfl, rfl⟩
          exact ⟨hleft, htoks⟩
        | sym s0 =>
          obtain ⟨rfl, rfl⟩ : left = e ∧ Tok.sym s0 :: ts = rest := by
            cases h; exact ⟨rfl, rfl⟩
          exact ⟨hleft, htoks⟩
        | colon =>
          obtain ⟨rfl, rfl⟩ : left = e ∧ Tok.colon :: ts = rest := by
            cases h; exact ⟨rfl, rfl⟩
          exact ⟨hleft, htoks⟩
        | lparen =>
          obtain ⟨rfl, rfl⟩ : left = e ∧ Tok.lparen :: ts = rest := by
            cases h; exact ⟨rfl, rfl⟩
          exact ⟨hleft, htoks⟩
        | rparen =>
          obtain ⟨rfl, rfl⟩ : left = e ∧ Tok.rparen :: ts = rest := by
            cases h; exact ⟨rfl, rfl⟩
          exact ⟨hleft, htoks⟩
        | comma =>
          obtain ⟨rfl, rfl⟩ : left = e ∧ Tok.comma :: ts = rest := by
            cases h; exact ⟨rfl, rfl⟩
          exact ⟨hleft, htoks⟩
        | kIf =>
          obtain ⟨rfl, rfl⟩ : left = e ∧ Tok.kIf :: ts = rest := by
            cases h; exact ⟨rfl, rfl⟩
          exact ⟨hleft, htoks⟩
        | kThen =>
          obtain ⟨rfl, rfl⟩ : left = e ∧ Tok.kThen :: ts = rest := by
            cases h; exact ⟨rfl, rfl⟩
          exact ⟨hleft, htoks⟩
        | kElse =>
          obtain ⟨rfl, rfl⟩ : left = e ∧ Tok.kElse :: ts = rest := by
            cases h; exact ⟨rfl, rfl⟩
          exact ⟨hleft, htoks⟩
        | fnB f0 =>
          obtain ⟨rfl, rfl⟩ : left = e ∧ Tok.fnB f0 :: ts = rest := by
            cases h; exact ⟨rfl, rfl⟩
          exact ⟨hleft, htoks⟩
        | fnT f0 =>
          obtain ⟨rfl, rfl⟩ : left = e ∧ Tok.fnT f0 :: ts = rest := by
            cases h; exact ⟨rfl, rfl⟩
          exact ⟨hleft, htoks⟩

/-- A successful parse yields a well-formed expression over its
configuration. -/
theorem parse_wf (cfg : Cfg) (s : String) (e : Expr)
    (h : parse cfg s = .ok e) : wfE cfg e = true := by
  unfold parse at h
  cases ht : tokenize cfg s with
  | error e2 => rw [ht] at h; cases h
  | ok toks =>
    rw [ht] at h
    have h2 : (match pP cfg (2 * toks.length + 1) 0 (.inl ()) toks with
        | Except.error e => Except.error e
        | Except.ok (e, []) => Except.ok e
        | Except.ok (_, _ :: _) =>
          Except.error "missing operator between operands") = .ok e := h
    cases hp : pP cfg (2 * toks.length + 1) 0 (.inl ()) toks with
    | error e2 => rw [hp] at h2; cases h2
    | ok p =>
      obtain ⟨x, r⟩ := p
      rw [hp] at h2
      cases r with
      | nil =>
        have hxe : x = e := by cases h2; rfl
        rw [← hxe]
        exact (pP_wf cfg (2 * toks.length + 1) 0 (.inl ()) toks x []
          (tokenize_wf cfg s toks ht) (by intro l hl; cases hl) hp).1
      | cons a b => cases h2

/-- A single word of ordinary characters that the classifier rejects is a
parse error: unknown identifiers and malformed numeric literals abort the
parse with the classifier's message. -/
theorem parse_unknown_word (cfg : Cfg) (c : Char) (cs : List Char)
    (msg : String) (hok : ∀ d ∈ c :: cs, okChar d = true)
    (hhead : c ∉ opChars)
    (hcl : classify cfg (c :: cs) = .error msg) :
    parse cfg (String.mk (c :: cs)) = .error msg := by
  obtain ⟨h1, h2, h3, hsp⟩ := okChar_spec (hok c (by simp))
  have hsplit : splitSp (String.mk (c :: cs)).toList = [c :: cs] :=
    splitSp_nosp _ (fun d hd => (okChar_spec (hok d hd)).2.2.2)
  have htake : cs.takeWhile (fun d => !stopChar d) = cs :=
    takeWhile_all (fun d hd => by
      simp [okChar_not_stop (hok d (by simp [hd]))])
  unfold parse tokenize
  rw [hsplit]
  have hfilter : ([c :: cs].filter (fun x => !x.isEmpty)) = [c :: cs] := rfl
  rw [hfilter, List.mapM_cons]
  rw [scanChunk_cons cfg (c :: cs).length c cs h1 h2 h3 hhead]
  rw [htake, hcl]
  rfl

/-- C1: honoring the precedence the spec claims would parse - 2 ^ 3 as
(- 2) ^ 3, since it puts unary minus above exponentiation; the parser
instead groups the exponentiation under the unary minus, as the test suite
pins with * 1 u- ^ 2 3. -/
theorem c1_unary_minus_counterexample :
    parse cfgBasic "1 * - 2 ^ 3" =
      .ok (.bin .mul (.num "1") (.neg (.bin .pow (.num "2") (.num "3")))) ∧
    (Expr.bin .mul (.num "1") (.neg (.bin .pow (.num "2") (.num "3"))) ≠
      Expr.bin .mul (.num "1") (.bin .pow (.neg (.num "2")) (.num "3"))) := by
  decide

/-- C1 (amended): with the precedence ordering exponentiation
(right-associative) > unary minus > multiplicative > additive > comparison
> ternary conditional, parentheses overriding precedence and built-in
functions taking fixed binary or ternary arity, the parser maps the
canonical minimal-parenthesization rendering of every well-formed operator
tree back to exactly that tree. -/
theorem c1_amended_precedence (cfg : Cfg) (e : Expr)
    (hcfg : cfgWF cfg = true) (he : wfE cfg e = true) :
    parse cfg (renderStr e) = .ok e :=
  parse_render cfg e hcfg he

/-- Witness for C1 (amended) at the tree of 1 * - 2 ^ 3. -/
theorem c1_amended_precedence_witness :
    parse cfgBasic (renderStr (.bin .mul (.num "1")
      (.neg (.bin .pow (.num "2") (.num "3"))))) =
      .ok (.bin .mul (.num "1") (.neg (.bin .pow (.num "2") (.num "3")))) :=
  c1_amended_precedence cfgBasic
    (.bin .mul (.num "1") (.neg (.bin .pow (.num "2") (.num "3"))))
    (by decide) (by decide)

/-- C4: the parser rejects empty input, any single word the classifier
rejects (unknown identifiers, malformed literals), and each malformed
input family of the test suite (missing operators between adjacent
operands, mismatched parentheses, wrong function arity, malformed
conditionals), while every well-formed expression tree parses from its
rendering. -/
theorem c4_parse_error_conditions :
    (∀ cfg : Cfg, parse cfg "" = .error "expected an operand") ∧
    (∀ (cfg : Cfg) (c : Char) (cs : List Char) (msg : String),
      (∀ d ∈ c :: cs, okChar d = true) → c ∉ opChars →
      classify cfg (c :: cs) = .error msg →
      parse cfg (String.mk (c :: cs)) = .error msg) ∧
    (parse cfgRaises "a2" =
        .error "unknown identifier or malformed literal a2" ∧
      parse cfgRaises "a-a" =
        .error "unknown identifier or malformed literal a-a" ∧
      parse cfgRaises "1.0.0" =
        .error "unknown identifier or malformed literal 1.0.0" ∧
      parse cfgRaises "1 1 + 2" =
        .error "missing operator between operands" ∧
      parse cfgRaises "1 + (2 + 3" = .error "mismatched parenthesis" ∧
      parse cfgRaises "1 + (2 + 3))" =
        .error "missing operator between operands" ∧
      parse cfgRaises "1 ? 2 3" = .error "expected colon" ∧
      parse cfgRaises "1 ? 2 else 3" = .error "expected colon" ∧
      parse cfgRaises "tf(1 2, 3)" = .error "expected comma" ∧
      parse cfgRaises "tf(1, 2, 3,)" =
        .error "expected closing parenthesis" ∧
      parse cfgRaises "tf 1, 2, 3" = .error "expected opening parenthesis") ∧
    (∀ (cfg : Cfg) (e : Expr), cfgWF cfg = true → wfE cfg e = true →
      ∃ x, parse cfg (renderStr e) = .ok x) :=
  ⟨fun _ => rfl, parse_unknown_word, by decide,
    fun cfg e hc he => ⟨e, parse_render cfg e hc he⟩⟩

/-- Witness for C4: the unknown identifier a2 of the test suite aborts the
parse with the classifier's message. -/
theorem c4_parse_error_conditions_witness :
    parse cfgRaises (String.mk ['a', '2']) =
      .error "unknown identifier or malformed literal a2" :=
  c4_parse_error_conditions.2.1 cfgRaises 'a' ['2']
    "unknown identifier or malformed literal a2"
    (by decide) (by decide) (by decide)

/-- C6: parsing is not idempotent on the rendered prefix output: 1 - 2
parses and renders to the prefix string - 1 2, but parsing - 1 2 fails,
since - is read as unary minus and the trailing 2 is an operand with no
operator. -/
theorem c6_prefix_not_reparsed :
    parseStr cfgBasic "1 - 2" = .ok "- 1 2" ∧
      parse cfgBasic "- 1 2" =
        .error "missing operator between operands" := by
  decide

/-- C6 (amended): the parser is idempotent through its canonical infix
rendering: re-parsing the rendering of any accepted expression succeeds
with the same tree and hence renders the same prefix string again. -/
theorem c6_amended_idempotent_render (cfg : Cfg) (s : String) (e : Expr)
    (hcfg : cfgWF cfg = true) (h : parse cfg s = .ok e) :
    parse cfg (renderStr e) = .ok e ∧
      parseStr cfg (renderStr e) = .ok e.preStr := by
  have hwf := parse_wf cfg s e h
  have hp := parse_render cfg e hcfg hwf
  refine ⟨hp, ?_⟩
  unfold parseStr
  rw [hp]
  rfl

/-- Witness for C6 (amended) at 1 - 2. -/
theorem c6_amended_idempotent_render_witness :
    parse cfgBasic (renderStr (.bin .sub (.num "1") (.num "2"))) =
        .ok (.bin .sub (.num "1") (.num "2")) ∧
      parseStr cfgBasic (renderStr (.bin .sub (.num "1") (.num "2"))) =
        .ok (Expr.preStr (.bin .sub (.num "1") (.num "2"))) :=
  c6_amended_idempotent_render cfgBasic "1 - 2"
    (.bin .sub (.num "1") (.num "2")) (by decide) (by decide)

end Pratt

section LaserCalib

open Pratt

/-- The laser state of `util/laser.py`: per-element 2D grids of raw counts
and the scalar configuration and linear calibration parameters. -/
structure Laser where
  data : List (String × List (List Sc))
  scantime : Sc
  speed : Sc
  spotsize : Sc
  gradient : Sc
  intercept : Sc
  deriving DecidableEq, Repr

/-- `Laser.calibrate`: store new calibration parameters. -/
def Laser.calibrate (l : Laser) (gradient intercept : Sc) : Laser :=
  { l with gradient := gradient, intercept := intercept }

/-- `Laser.getData(element)`: the selected element's raw grid with the
intercept subtracted and the result divided by the gradient, element-wise
as numpy broadcasts the scalars; the laser state is returned unchanged
alongside, since the method only reads it. -/
def Laser.getData (l : Laser) (element : String) :
    Option (List (List Sc)) × Laser :=
  ((l.data.lookup element).map
    (fun g => g.map (fun row =>
      row.map (fun x => (x - l.intercept) / l.gradient))), l)

theorem getD_map_lt {α β : Type} (f : α → β) (l : List α) (i : Nat)
    (d : β) (d0 : α) (hi : i < l.length) :
    (l.map f).getD i d = f (l.getD i d0) := by
  induction l generalizing i with
  | nil => cases hi
  | cons a as ih =>
    cases i with
    | zero => rfl
    | succ j => exact ih j (by simpa using hi)

/-- C9: calibration is the linear transform determined by gradient and
intercept: getData yields the selected raw grid with the intercept
subtracted and the result divided by the gradient at every cell, and
leaves the laser state, in particular the stored raw data, unchanged. -/
theorem c9_getData_calibration (l : Laser) (element : String)
    (g : List (List Sc)) (h : l.data.lookup element = some g) :
    (l.getData element).2 = l ∧
    ∃ cal, (l.getData element).1 = some cal ∧
      cal.length = g.length ∧
      ∀ i, i < g.length → ∀ j, j < (g.getD i []).length →
        (cal.getD i []).getD j 0 =
          ((g.getD i []).getD j 0 - l.intercept) / l.gradient := by
  refine ⟨rfl, g.map (fun row =>
    row.map (fun x => (x - l.intercept) / l.gradient)), ?_, by simp, ?_⟩
  · show (l.data.lookup element).map _ = _
    rw [h]
    rfl
  · intro i hi j hj
    rw [getD_map_lt (fun row =>
      row.map (fun x => (x - l.intercept) / l.gradient)) g i [] [] hi]
    show ((g.getD i []).map
      (fun x => (x - l.intercept) / l.gradient)).getD j 0 = _
    rw [getD_map_lt (fun x => (x - l.intercept) / l.gradient)
      (g.getD i []) j 0 0 hj]

/-- Witness for C9 at a two-by-two grid with gradient 2 and intercept 1. -/
theorem c9_getData_calibration_witness :
    ((Laser.mk [("Fe", [[3, 5], [7, 9]])] 1 1 1 2 1).getData "Fe").2 =
        Laser.mk [("Fe", [[3, 5], [7, 9]])] 1 1 1 2 1 ∧
    ∃ cal, ((Laser.mk [("Fe", [[3, 5], [7, 9]])] 1 1 1 2 1).getData
        "Fe").1 = some cal ∧
      cal.length = ([[3, 5], [7, 9]] : List (List Sc)).length ∧
      ∀ i, i < ([[3, 5], [7, 9]] : List (List Sc)).length →
        ∀ j, j < (([[3, 5], [7, 9]] : List (List Sc)).getD i []).length →
        (cal.getD i []).getD j 0 =
          ((([[3, 5], [7, 9]] : List (List Sc)).getD i []).getD j 0 -
            (1 : Sc)) / (2 : Sc) :=
  c9_getData_calibration (Laser.mk [("Fe", [[3, 5], [7, 9]])] 1 1 1 2 1)
    "Fe" [[3, 5], [7, 9]] (by decide)

end LaserCalib

section VtkIO

/-- Element size of the Float64 arrays the VTK writer exports
(`v.data.itemsize`). -/
def vtkItemsize : Nat := 8

/-- The DataArray declarations `save` writes: the offset accumulator
starts at zero and each array advances it by its byte size plus the
eight-byte block-size header (`offset += v.data.size * v.data.itemsize +
8`). -/
def vtkDecls (off : Nat) : List (String × Nat) → List (String × Nat)
  | [] => []
  | (k, n) :: rest => (k, off) :: vtkDecls (off + (n * vtkItemsize + 8)) rest

/-- The appended raw section of `save`: per array, the block-size header
value written first and the byte count of the raw payload written after
it. -/
def vtkBlocks (data : List (String × Nat)) : List (Nat × Nat) :=
  data.map (fun p => (p.2 * vtkItemsize, p.2 * vtkItemsize))

/-- The parts of the VTK XML output that vary: the grid type attribute,
the declared byte order, the block-size header type, the DataArray
declarations and the appended binary blocks. -/
structure VtkFile where
  fileType : String
  byteOrder : String
  headerType : String
  decls : List (String × Nat)
  blocks : List (Nat × Nat)
  deriving DecidableEq, Repr

/-- `pewpew/lib/io/vtk.py` `save`, over named arrays given by element
count: the VTKFile type attribute is the literal ImageData, byte_order
names the machine endianness, each DataArray carries the running offset,
and the appended data holds one size-prefixed raw block per array. -/
def vtkSave (littleEndian : Bool) (data : List (String × Nat)) : VtkFile :=
  { fileType := "ImageData"
  , byteOrder := if littleEndian then "LittleEndian" else "BigEndian"
  , headerType := "UInt64"
  , decls := vtkDecls 0 data
  , blocks := vtkBlocks data }

theorem vtkDecls_length (off : Nat) (data : List (String × Nat)) :
    (vtkDecls off data).length = data.length := by
  induction data generalizing off with
  | nil => rfl
  | cons p rest ih =>
    obtain ⟨k, n⟩ := p
    show (vtkDecls (off + (n * vtkItemsize + 8)) rest).length + 1 = _
    rw [ih]
    rfl

theorem vtkDecls_getD (off : Nat) (data : List (String × Nat)) (i : Nat)
    (hi : i < data.length) :
    (vtkDecls off data).getD i ("", 0) =
      ((data.getD i ("", 0)).1,
        off + ((data.take i).map (fun p => p.2 * vtkItemsize + 8)).sum) := by
  induction data generalizing off i with
  | nil => cases hi
  | cons p rest ih =>
    obtain ⟨k, n⟩ := p
    cases i with
    | zero => simp [vtkDecls]
    | succ j =>
      show (vtkDecls (off + (n * vtkItemsize + 8)) rest).getD j ("", 0) = _
      rw [ih (off + (n * vtkItemsize + 8)) j (by simpa using hi)]
      refine congrArg _ ?_
      show off + (n * vtkItemsize + 8) +
          ((rest.take j).map (fun p => p.2 * vtkItemsize + 8)).sum = _
      have hsum : (((k, n) :: rest).take (j + 1)).map
          (fun p => p.2 * vtkItemsize + 8) =
          (n * vtkItemsize + 8) ::
            (rest.take j).map (fun p => p.2 * vtkItemsize + 8) := rfl
      rw [hsum, List.sum_cons]
      omega

/-- C8: the writer does not emit a rectilinear-grid VTK file: the VTKFile
type attribute it writes is the literal ImageData, the uniform-grid
format. -/
theorem c8_imagedata_counterexample :
    (vtkSave true [("A", 4)]).fileType = "ImageData" ∧
      (vtkSave true [("A", 4)]).fileType ≠ "RectilinearGrid" := by
  decide

/-- C8 (amended): the export is an image-data (uniform grid) VTK XML file
whose header declares the element byte order explicitly; one raw block per
array is appended, preceded by a block-size header equal to its byte
count, and each array's declared offset equals the cumulative byte count,
data plus eight-byte block-size headers, of the arrays before it. -/
theorem c8_amended_offsets (littleEndian : Bool)
    (data : List (String × Nat)) :
    (vtkSave littleEndian data).fileType = "ImageData" ∧
    (vtkSave littleEndian data).byteOrder =
      (if littleEndian then "LittleEndian" else "BigEndian") ∧
    (vtkSave littleEndian data).decls.length = data.length ∧
    (vtkSave littleEndian data).blocks.length = data.length ∧
    ∀ i, i < data.length →
      (vtkSave littleEndian data).decls.getD i ("", 0) =
        ((data.getD i ("", 0)).1,
          ((data.take i).map (fun p => p.2 * vtkItemsize + 8)).sum) ∧
      (vtkSave littleEndian data).blocks.getD i (0, 0) =
        ((data.getD i ("", 0)).2 * vtkItemsize,
          (data.getD i ("", 0)).2 * vtkItemsize) := by
  refine ⟨rfl, rfl, vtkDecls_length 0 data,
    show (vtkBlocks data).length = data.length by simp [vtkBlocks], ?_⟩
  intro i hi
  constructor
  · show (vtkDecls 0 data).getD i ("", 0) = _
    rw [vtkDecls_getD 0 data i hi]
    rw [Nat.zero_add]
  · show (vtkBlocks data).getD i (0, 0) = _
    unfold vtkBlocks
    rw [getD_map_lt (fun p => (p.2 * vtkItemsize, p.2 * vtkItemsize))
      data i (0, 0) ("", 0) hi]

/-- Witness for C8 (amended): with two arrays of three and two elements,
the second declaration's offset is 3 * 8 + 8 = 32. -/
theorem c8_amended_offsets_witness :
    (vtkSave true [("A", 3), ("B", 2)]).decls.getD 1 ("", 0) = ("B", 32) := by
  have h := (c8_amended_offsets true [("A", 3), ("B", 2)]).2.2.2.2 1
    (by decide)
  exact h.1.trans (by decide)

end VtkIO

section KrissKross

open Pratt

/-- Column slice `layer[:, warmup:warmup+length]` of
`util/krisskross.py`. -/
def colSlice (warmup len : Nat) (m : List (List Sc)) : List (List Sc) :=
  m.map (fun row => (row.drop warmup).take len)

/-- `np.repeat(layer, aspect, axis=0)`: each row repeated aspect times. -/
def repeatRows (aspect : Nat) (m : List (List Sc)) : List (List Sc) :=
  (m.map (fun row => List.replicate aspect row)).flatten

/-- `layer.T` for a rectangular layer. -/
def transposeM (m : List (List Sc)) : List (List Sc) :=
  (List.range (m.headD []).length).map
    (fun j => m.map (fun row => row.getD j 0))

/-- `layer[:-trim, :-trim]`. -/
def trimTail (t : Nat) (m : List (List Sc)) : List (List Sc) :=
  (m.take (m.length - t)).map (fun r => r.take (r.length - t))

/-- `layer[trim:, trim:]`. -/
def trimHead (t : Nat) (m : List (List Sc)) : List (List Sc) :=
  (m.drop t).map (fun r => r.drop t)

/-- The per-layer transform of `krissKrossLayers`: trim the columns to
`[warmup, warmup+len)`, stretch the rows by `aspect`, and either transpose
and trim the leading edges (odd layers) or trim the trailing edges when
`trim > 0` (even layers). -/
def kkLayer (aspect warmup len : Nat) (odd : Bool)
    (layer : List (List Sc)) : List (List Sc) :=
  let trim := aspect / 2
  let l2 := repeatRows aspect (colSlice warmup len layer)
  if odd then trimHead trim (transposeM l2)
  else if 0 < trim then trimTail trim l2
  else l2

/-- `np.dstack`: a rows-by-columns raster whose cells stack the layers. -/
def dstackM (ms : List (List (List Sc))) : List (List (List Sc)) :=
  (List.range (ms.headD []).length).map (fun i =>
    (List.range ((ms.headD []).headD []).length).map (fun j =>
      ms.map (fun m => (m.getD i []).getD j 0)))

/-- `krissKrossLayers`: each layer is transformed with the line length
taken from the other orientation's row count times the aspect, odd
positions (shifted when vertical lines come first) are transposed, and the
results are depth-stacked. -/
def krissKrossLayers (layers : List (List (List Sc)))
    (aspect warmup : Nat) (horizontalFirst : Bool) :
    List (List (List Sc)) :=
  let j := if horizontalFirst then 0 else 1
  dstackM ((List.range layers.length).map (fun i =>
    kkLayer aspect warmup
      (if (i + j) % 2 = 0 then (layers.getD 1 []).length * aspect
       else (layers.getD 0 []).length * aspect)
      (decide ((i + j) % 2 = 1))
      (layers.getD i [])))

/-- `KrissKrossData.flatten`: the mean across the stacked axis. -/
def kkFlatten (d : List (List (List Sc))) : List (List Sc) :=
  d.map (fun row => row.map (fun cell =>
    cell.foldl (fun a b => a + b) 0 / (⟨(cell.length : Int), 1⟩ : Sc)))

theorem rangeMap_getD {α : Type} (f : Nat → α) (n i : Nat) (d : α)
    (hi : i < n) : ((List.range n).map f).getD i d = f i := by
  simp [List.getD_eq_getElem?_getD, List.getElem?_map,
    List.getElem?_range, hi]

theorem take_getD {α : Type} (l : List α) (n i : Nat) (d : α)
    (hi : i < n) : (l.take n).getD i d = l.getD i d := by
  rw [List.getD_eq_getElem?_getD, List.getD_eq_getElem?_getD,
    List.getElem?_take, if_pos hi]

theorem drop_getD {α : Type} (l : List α) (n i : Nat) (d : α) :
    (l.drop n).getD i d = l.getD (n + i) d := by
  rw [List.getD_eq_getElem?_getD, List.getD_eq_getElem?_getD,
    List.getElem?_drop]

theorem drop_take_getD (row : List Sc) (w len c : Nat) (hc : c < len)
    (hwc : w + c < row.length) :
    ((row.drop w).take len).getD c 0 = row.getD (w + c) 0 := by
  rw [take_getD _ _ _ _ hc, drop_getD]

theorem colSlice_length (w len : Nat) (m : List (List Sc)) :
    (colSlice w len m).length = m.length := by
  simp [colSlice]

theorem repeatRows_length (a : Nat) (m : List (List Sc)) :
    (repeatRows a m).length = m.length * a := by
  induction m with
  | nil => simp [repeatRows]
  | cons row rest ih =>
    show ((List.replicate a row) ++ repeatRows a rest).length = _
    rw [List.length_append, List.length_replicate, ih, List.length_cons,
      Nat.succ_mul]
    omega

theorem repeatRows_getD (a : Nat) (m : List (List Sc)) (r : Nat)
    (ha : 0 < a) (hr : r < m.length * a) :
    (repeatRows a m).getD r [] = m.getD (r / a) [] := by
  induction m generalizing r with
  | nil => simp at hr
  | cons row rest ih =>
    show ((List.replicate a row) ++ repeatRows a rest).getD r [] = _
    by_cases hra : r < a
    · rw [List.getD_append _ _ _ _ (by simpa using hra)]
      have hrep : (List.replicate a row).getD r [] = row := by
        rw [List.getD_eq_getElem?_getD, List.getElem?_replicate, if_pos hra]
        rfl
      rw [hrep, Nat.div_eq_of_lt hra]
      rfl
    · push_neg at hra
      rw [List.getD_append_right _ _ _ _
        (by simpa using hra)]
      rw [List.length_replicate]
      obtain ⟨r2, rfl⟩ : ∃ r2, r = r2 + a := ⟨r - a, by omega⟩
      rw [Nat.add_sub_cancel]
      rw [ih r2 (by
        rw [List.length_cons, Nat.succ_mul] at hr
        omega)]
      rw [Nat.add_div_right r2 ha]
      rfl

theorem colSlice_getD (w len : Nat) (m : List (List Sc)) (i : Nat)
    (hi : i < m.length) :
    (colSlice w len m).getD i [] = ((m.getD i []).drop w).take len :=
  getD_map_lt _ m i [] [] hi

theorem transposeM_getD (m : List (List Sc)) (x y : Nat)
    (hx : x < (m.headD []).length) (hy : y < m.length) :
    ((transposeM m).getD x []).getD y 0 = (m.getD y []).getD x 0 := by
  unfold transposeM
  rw [rangeMap_getD _ _ x [] hx]
  exact getD_map_lt (fun row => row.getD x 0) m y 0 [] hy

theorem repeatRows_headD (a : Nat) (m : List (List Sc)) (ha : 0 < a)
    (hm : 0 < m.length) :
    (repeatRows a m).headD [] = m.headD [] := by
  cases m with
  | nil => simp at hm
  | cons row rest =>
    obtain ⟨a2, rfl⟩ : ∃ a2, a = a2 + 1 := ⟨a - 1, by omega⟩
    rfl

theorem kkLayer_even (aspect warmup len : Nat) (layer : List (List Sc))
    (r c : Nat) (ha : 0 < aspect)
    (hr : r < layer.length * aspect - aspect / 2)
    (hc : c < len - aspect / 2)
    (hwide : warmup + len ≤ (layer.getD (r / aspect) []).length) :
    ((kkLayer aspect warmup len false layer).getD r []).getD c 0 =
      (layer.getD (r / aspect) []).getD (warmup + c) 0 := by
  have hrA : r < layer.length * aspect := by omega
  have hdiv : r / aspect < layer.length := by
    rw [Nat.div_lt_iff_lt_mul ha]
    exact hrA
  have hl2len : (repeatRows aspect (colSlice warmup len layer)).length =
      layer.length * aspect := by
    rw [repeatRows_length, colSlice_length]
  have hl2row : (repeatRows aspect (colSlice warmup len layer)).getD r [] =
      ((layer.getD (r / aspect) []).drop warmup).take len := by
    rw [repeatRows_getD aspect _ r ha (by rw [colSlice_length]; exact hrA)]
    exact colSlice_getD warmup len layer (r / aspect) hdiv
  have hrowlen :
      (((layer.getD (r / aspect) []).drop warmup).take len).length = len := by
    rw [List.length_take, List.length_drop]
    omega
  have hcl : c < len := by omega
  have hwc : warmup + c < (layer.getD (r / aspect) []).length := by omega
  unfold kkLayer
  rw [if_neg (by simp)]
  by_cases htrim : 0 < aspect / 2
  · rw [if_pos htrim]
    unfold trimTail
    rw [getD_map_lt
      (fun row => row.take (row.length - aspect / 2)) _ r [] []
      (by
        rw [List.length_take, hl2len]
        omega)]
    rw [take_getD (repeatRows aspect (colSlice warmup len layer))
      ((repeatRows aspect (colSlice warmup len layer)).length - aspect / 2)
      r [] (by rw [hl2len]; omega)]
    rw [hl2row]
    rw [take_getD _ _ _ _ (by rw [hrowlen]; omega)]
    exact drop_take_getD _ warmup len c hcl hwc
  · rw [if_neg htrim]
    rw [hl2row]
    exact drop_take_getD _ warmup len c hcl hwc

theorem kkLayer_odd (aspect warmup len : Nat) (layer : List (List Sc))
    (r c : Nat) (ha : 0 < aspect) (hlay : 0 < layer.length)
    (hr : aspect / 2 + r < len)
    (hc : aspect / 2 + c < layer.length * aspect)
    (hfirst : warmup + len ≤ (layer.headD []).length)
    (hwide : warmup + len ≤
      (layer.getD ((aspect / 2 + c) / aspect) []).length) :
    ((kkLayer aspect warmup len true layer).getD r []).getD c 0 =
      (layer.getD ((aspect / 2 + c) / aspect) []).getD
        (warmup + (aspect / 2 + r)) 0 := by
  have hdiv : (aspect / 2 + c) / aspect < layer.length := by
    rw [Nat.div_lt_iff_lt_mul ha]
    exact hc
  have hl2len : (repeatRows aspect (colSlice warmup len layer)).length =
      layer.length * aspect := by
    rw [repeatRows_length, colSlice_length]
  have hl2head : (repeatRows aspect (colSlice warmup len layer)).headD [] =
      ((layer.headD []).drop warmup).take len := by
    rw [repeatRows_headD aspect _ ha (by rw [colSlice_length]; exact hlay)]
    cases layer with
    | nil => simp at hlay
    | cons row rest => rfl
  have hW2 :
      ((repeatRows aspect (colSlice warmup len layer)).headD []).length =
        len := by
    rw [hl2head, List.length_take, List.length_drop]
    omega
  have hltlen :
      (transposeM (repeatRows aspect (colSlice warmup len layer))).length =
        len := by
    unfold transposeM
    rw [List.length_map, List.length_range, hW2]
  unfold kkLayer
  rw [if_pos rfl]
  unfold trimHead
  rw [getD_map_lt (fun row => row.drop (aspect / 2)) _ r [] []
    (by rw [List.length_drop, hltlen]; omega)]
  rw [drop_getD _ (aspect / 2) r []]
  show (((transposeM (repeatRows aspect
      (colSlice warmup len layer))).getD (aspect / 2 + r) []).drop
    (aspect / 2)).getD c 0 = _
  rw [drop_getD _ (aspect / 2) c 0]
  rw [show (transposeM (repeatRows aspect
      (colSlice warmup len layer))).getD (aspect / 2 + r) [] =
      (repeatRows aspect (colSlice warmup len layer)).map
        (fun row => row.getD (aspect / 2 + r) 0) from by
    unfold transposeM
    rw [rangeMap_getD _ _ (aspect / 2 + r) [] (by rw [hW2]; omega)]]
  rw [getD_map_lt (fun row : List Sc => row.getD (aspect / 2 + r) 0)
    (repeatRows aspect (colSlice warmup len layer))
    (aspect / 2 + c) 0 [] (by rw [hl2len]; omega)]
  show ((repeatRows aspect (colSlice warmup len layer)).getD
    (aspect / 2 + c) []).getD (aspect / 2 + r) 0 = _
  rw [repeatRows_getD aspect _ (aspect / 2 + c) ha
    (by rw [colSlice_length]; exact hc)]
  rw [colSlice_getD warmup len layer _ hdiv]
  exact drop_take_getD _ warmup len (aspect / 2 + r) hr (by omega)

theorem dstackM_getD (ms : List (List (List Sc))) (i j k : Nat)
    (hi : i < (ms.headD []).length)
    (hj : j < ((ms.headD []).headD []).length) (hk : k < ms.length) :
    (((dstackM ms).getD i []).getD j []).getD k 0 =
      ((ms.getD k []).getD i []).getD j 0 := by
  unfold dstackM
  rw [rangeMap_getD _ _ i [] hi]
  show (((List.range ((ms.headD []).headD []).length).map (fun j =>
    ms.map (fun m => (m.getD i []).getD j 0))).getD j []).getD k 0 = _
  rw [rangeMap_getD _ _ j [] hj]
  show (ms.map (fun m => (m.getD i []).getD j 0)).getD k 0 = _
  exact getD_map_lt (fun m => (m.getD i []).getD j 0) ms k 0 [] hk

theorem kkFlatten_getD (d : List (List (List Sc))) (i j : Nat)
    (hi : i < d.length) (hj : j < (d.getD i []).length) :
    ((kkFlatten d).getD i []).getD j 0 =
      ((d.getD i []).getD j []).foldl (fun a b => a + b) 0 /
        (⟨(((d.getD i []).getD j []).length : Int), 1⟩ : Sc) := by
  unfold kkFlatten
  rw [getD_map_lt _ d i [] [] hi]
  show ((d.getD i []).map (fun cell =>
    cell.foldl (fun a b => a + b) 0 /
      (⟨(cell.length : Int), 1⟩ : Sc))).getD j 0 = _
  rw [getD_map_lt _ _ j 0 [] hj]

theorem krissKross_assembly (layers : List (List (List Sc)))
    (aspect warmup : Nat) (hf : Bool) (r c k : Nat)
    (hk : k < layers.length)
    (hr : r < (krissKrossLayers layers aspect warmup hf).length)
    (hc : c <
      ((krissKrossLayers layers aspect warmup hf).getD r []).length) :
    (((krissKrossLayers layers aspect warmup hf).getD r []).getD
        c []).getD k 0 =
      ((kkLayer aspect warmup
        (if (k + (if hf then 0 else 1)) % 2 = 0 then
          (layers.getD 1 []).length * aspect
         else (layers.getD 0 []).length * aspect)
        (decide ((k + (if hf then 0 else 1)) % 2 = 1))
        (layers.getD k [])).getD r []).getD c 0 := by
  set ms := (List.range layers.length).map (fun i =>
    kkLayer aspect warmup
      (if (i + (if hf then 0 else 1)) % 2 = 0 then
        (layers.getD 1 []).length * aspect
       else (layers.getD 0 []).length * aspect)
      (decide ((i + (if hf then 0 else 1)) % 2 = 1))
      (layers.getD i [])) with hms
  have hr2 : r < (dstackM ms).length := hr
  have hc2 : c < ((dstackM ms).getD r []).length := hc
  have hH : r < (ms.headD []).length := by
    have hlen : (dstackM ms).length = (ms.headD []).length := by
      unfold dstackM
      rw [List.length_map, List.length_range]
    rw [hlen] at hr2
    exact hr2
  have hW : c < ((ms.headD []).headD []).length := by
    have hrow : (dstackM ms).getD r [] =
        (List.range ((ms.headD []).headD []).length).map (fun j =>
          ms.map (fun m => (m.getD r []).getD j 0)) := by
      unfold dstackM
      rw [rangeMap_getD _ _ r [] hH]
    rw [hrow, List.length_map, List.length_range] at hc2
    exact hc2
  have hkm : k < ms.length := by
    rw [hms, List.length_map, List.length_range]
    exact hk
  show (((dstackM ms).getD r []).getD c []).getD k 0 = _
  rw [dstackM_getD ms r c k hH hW hkm]
  rw [hms]
  rw [rangeMap_getD _ _ k [] hk]

/-- C3: each layer of a kriss-kross reconstruction is trimmed of its
warmup and excess columns, its rows stretched aspect times, odd positions
transposed and trimmed by aspect / 2 at the leading edges and even
positions trimmed at the trailing edges, and the transformed layers are
depth-stacked into one raster whose flattening averages the stack; stated
cell by cell. -/
theorem c3_krisskross_interleaves :
    (∀ (aspect warmup len : Nat) (layer : List (List Sc)) (r c : Nat),
      0 < aspect → r < layer.length * aspect - aspect / 2 →
      c < len - aspect / 2 →
      warmup + len ≤ (layer.getD (r / aspect) []).length →
      ((kkLayer aspect warmup len false layer).getD r []).getD c 0 =
        (layer.getD (r / aspect) []).getD (warmup + c) 0) ∧
    (∀ (aspect warmup len : Nat) (layer : List (List Sc)) (r c : Nat),
      0 < aspect → 0 < layer.length → aspect / 2 + r < len →
      aspect / 2 + c < layer.length * aspect →
      warmup + len ≤ (layer.headD []).length →
      warmup + len ≤ (layer.getD ((aspect / 2 + c) / aspect) []).length →
      ((kkLayer aspect warmup len true layer).getD r []).getD c 0 =
        (layer.getD ((aspect / 2 + c) / aspect) []).getD
          (warmup + (aspect / 2 + r)) 0) ∧
    (∀ (ms : List (List (List Sc))) (i j k : Nat),
      i < (ms.headD []).length → j < ((ms.headD []).headD []).length →
      k < ms.length →
      (((dstackM ms).getD i []).getD j []).getD k 0 =
        ((ms.getD k []).getD i []).getD j 0) ∧
    (∀ (d : List (List (List Sc))) (i j : Nat),
      i < d.length → j < (d.getD i []).length →
      ((kkFlatten d).getD i []).getD j 0 =
        ((d.getD i []).getD j []).foldl (fun a b => a + b) 0 /
          (⟨(((d.getD i []).getD j []).length : Int), 1⟩ : Sc)) ∧
    (∀ (layers : List (List (List Sc))) (aspect warmup : Nat) (hf : Bool)
      (r c k : Nat), k < layers.length →
      r < (krissKrossLayers layers aspect warmup hf).length →
      c < ((krissKrossLayers layers aspect warmup hf).getD r []).length →
      (((krissKrossLayers layers aspect warmup hf).getD r []).getD
          c []).getD k 0 =
        ((kkLayer aspect warmup
          (if (k + (if hf then 0 else 1)) % 2 = 0 then
            (layers.getD 1 []).length * aspect
           else (layers.getD 0 []).length * aspect)
          (decide ((k + (if hf then 0 else 1)) % 2 = 1))
          (layers.getD k [])).getD r []).getD c 0) :=
  ⟨kkLayer_even, kkLayer_odd, dstackM_getD, kkFlatten_getD,
    krissKross_assembly⟩

/-- Witness for C3: interleaving one horizontal and one vertical line at
aspect 2 and warmup 1; the vertical layer's cell of the single raster
position is 6. -/
theorem c3_krisskross_interleaves_witness :
    (((krissKrossLayers [[[1, 2, 3]], [[4, 5, 6]]] 2 1 true).getD
        0 []).getD 0 []).getD 1 0 = (6 : Sc) := by
  have h := c3_krisskross_interleaves.2.2.2.2 [[[1, 2, 3]], [[4, 5, 6]]]
    2 1 true 0 0 1 (by decide) (by decide) (by decide)
  exact h.trans (by decide)

end KrissKross

section ImportCsv

open Pratt

/-- `str.split(sep)`: split a character list at every separator
occurrence, keeping empty pieces. -/
def splitCh (sep : Char) : List Char → List (List Char)
  | [] => [[]]
  | c :: cs =>
    let r := splitCh sep cs
    if c = sep then [] :: r
    else (c :: r.headD []) :: r.tail

/-- Python float() on the spellings the importer meets: an optional minus
sign before a numeric literal. -/
def pyFloat? (s : String) : Option Sc :=
  match s.toList with
  | '-' :: cs =>
    if isNumLit cs then some (-(numValue (String.mk cs))) else none
  | cs => if isNumLit cs then some (numValue (String.mk cs)) else none

/-- `config[k] = v` on the shared dict: replace the value at the existing
key. -/
def setKey (m : List (String × Sc)) (k : String) (v : Sc) :
    List (String × Sc) :=
  m.map (fun p => if p.1 = k then (k, v) else p)

/-- The token loop of `importCsv`: `config` aliases the class-level
`LaserData.DEFAULT_CONFIG` (`config = LaserData.DEFAULT_CONFIG` binds, it
does not copy), so each `config[k] = float(v)` mutates the shared dict;
the final state of that dict is returned along with the error, if any.  A
token that does not split into exactly key and value raises an uncaught
ValueError in the source, returned here as its message. -/
def importConfigTokens :
    List (String × Sc) → List String → List (String × Sc) × Option String
  | cfg, [] => (cfg, none)
  | cfg, tok :: rest =>
    match (splitCh '=' tok.toList).map String.mk with
    | [k, v] =>
      if cfg.all (fun p => p.1 ≠ k) then
        (cfg, some ("Invalid config key '" ++ k ++ "'."))
      else
        match pyFloat? v with
        | some q => importConfigTokens (setKey cfg k q) rest
        | none => (cfg, some ("Invalid value '" ++ v ++ "'."))
    | _ => (cfg, some "ValueError")

/-- The config-line handling of `importCsv` for a pewpew-exported file:
the malformed-line check fires before any mutation, then the tokens of
`line.split(";")` are folded through the shared default config. -/
def importCsvConfigLine (sharedDefault : List (String × Sc))
    (line : String) : List (String × Sc) × Option String :=
  if ¬ (';' ∈ line.toList) ∨ ¬ ('=' ∈ line.toList) then
    (sharedDefault, some ("Malformed config line '" ++ line ++ "'."))
  else
    importConfigTokens sharedDefault
      ((splitCh ';' line.toList).map String.mk)

/-- The shared class-level default config the importer aliases; the exact
entries are immaterial to the aliasing, only that spotsize is a key. -/
def DEFAULT_CONFIG : List (String × Sc) :=
  [("spotsize", 10), ("speed", 10), ("scantime", 1)]

/-- C7: an import failure does not leave prior state unchanged: on a
config line whose first token is valid and whose second token has an
unknown key, the loop first writes the first value through the alias into
the shared default config and only then fails with the config error, so
the class-wide default leaves the aborted import with spotsize changed
to 2. -/
theorem c7_default_config_mutated :
    (importCsvConfigLine DEFAULT_CONFIG "spotsize=2.0;junk=1").2 =
      some "Invalid config key 'junk'." ∧
    (importCsvConfigLine DEFAULT_CONFIG "spotsize=2.0;junk=1").1 ≠
      DEFAULT_CONFIG ∧
    (importCsvConfigLine DEFAULT_CONFIG
      "spotsize=2.0;junk=1").1.lookup "spotsize" = some 2 := by
  decide

end ImportCsv

section Kmeans

open Pratt

/-- Absolute value of a scalar. -/
def scAbs (a : Sc) : Sc := if a.num < 0 then -a else a

/-- `np.allclose` on one pair: |a - b| ≤ atol + rtol * |b| with numpy's
defaults rtol = 1e-5 and atol = 1e-8. -/
def closeSc (a b : Sc) : Bool :=
  (scAbs (a - b)).le
    ((⟨1, 100000000⟩ : Sc) + (⟨1, 100000⟩ : Sc) * scAbs b)

/-- `np.allclose` over matrices. -/
def allcloseRows (a b : List (List Sc)) : Bool :=
  a.length = b.length && (a.zip b).all (fun p =>
    p.1.length = p.2.length &&
      (p.1.zip p.2).all (fun q => closeSc q.1 q.2))

/-- Squared euclidean distance.  The source takes a square root, but uses
the distances only through argmin and through squaring the minimum; the
square root is monotone, so the squared distance models both exactly. -/
def sqDist (a b : List Sc) : Sc :=
  ((a.zip b).map (fun p => (p.1 - p.2) * (p.1 - p.2))).foldl
    (fun u v => u + v) 0

/-- Minimum of a list (`np.amin`), zero for an empty one. -/
def listMin (l : List Sc) : Sc :=
  match l with
  | [] => 0
  | v :: r => r.foldl (fun a b => if b.lt a then b else a) v

def argminGo (best : Nat) (bv : Sc) (i : Nat) : List Sc → Nat
  | [] => best
  | v :: rest =>
    if v.lt bv then argminGo i v (i + 1) rest
    else argminGo best bv (i + 1) rest

/-- `np.argmin`: index of the first minimal element. -/
def argminIdx : List Sc → Nat
  | [] => 0
  | v :: rest => argminGo 0 v 1 rest

/-- `np.argmin(distances, axis=0)`: each object goes to its nearest
center, ties to the first. -/
def assignClusters (centers x : List (List Sc)) : List Nat :=
  x.map (fun p => argminIdx (centers.map (fun c => sqDist c p)))

/-- `np.mean(rows, axis=0)`. -/
def meanRows (rows : List (List Sc)) : List Sc :=
  match rows with
  | [] => []
  | r0 :: _ =>
    (List.range r0.length).map (fun j =>
      ((rows.map (fun r => r.getD j 0)).foldl (fun a b => a + b) 0) /
        (⟨(rows.length : Int), 1⟩ : Sc))

/-- The center update: each cluster that received objects moves to their
mean, the others keep their center. -/
def updateCenters (centers x : List (List Sc)) (idx : List Nat) :
    List (List Sc) :=
  (List.range centers.length).map (fun i =>
    if (((x.zip idx).filter (fun p => p.2 = i)).map (fun p => p.1)).isEmpty
    then centers.getD i []
    else meanRows (((x.zip idx).filter (fun p => p.2 = i)).map
      (fun p => p.1)))

/-- The `while max_iterations > 0` loop of `kmeans`: assign, update,
return the assignment on convergence, and fail when the iterations run
out. -/
def kmLoop (x : List (List Sc)) :
    Nat → List (List Sc) → Except String (List Nat)
  | 0, _ => .error "No convergance in allowed iterations."
  | m + 1, centers =>
    if allcloseRows centers
        (updateCenters centers x (assignClusters centers x))
    then .ok (assignClusters centers x)
    else kmLoop x m (updateCenters centers x (assignClusters centers x))

/-- The k-means++ seeding loop: from the current centers, the squared
minimum distances weight the next random choice; when every distance is
zero the probability vector is 0/0, numpy's NaN, and `np.random.choice`
raises.  The random draw itself is abstracted by the oracle. -/
def kmeansPPGo (x : List (List Sc)) (oracle : Nat → Nat) :
    Nat → List (List Sc) → Except String (List (List Sc))
  | 0, cs => .ok cs
  | m + 1, cs =>
    if ((x.map (fun p => listMin (cs.map (fun c => sqDist c p)))).foldl
        (fun a b => a + b) 0) = (0 : Sc) then
      .error "probabilities contain NaN"
    else
      kmeansPPGo x oracle m
        (cs ++ [x.getD (oracle cs.length % x.length) []])

/-- `kmeans_plus_plus`: first center drawn uniformly, the rest by the
weighted loop. -/
def kmeansPP (x : List (List Sc)) (k : Nat) (oracle : Nat → Nat) :
    Except String (List (List Sc)) :=
  kmeansPPGo x oracle (k - 1) [x.getD (oracle 0 % x.length) []]

def insertByFst (row : List Sc) : List (List Sc) → List (List Sc)
  | [] => [row]
  | r :: rs =>
    if (r.headD 0).lt (row.headD 0) then r :: insertByFst row rs
    else row :: r :: rs

/-- `centers[np.argsort(centers[:, 0])]`: sort rows by first attribute. -/
def sortByFst (l : List (List Sc)) : List (List Sc) :=
  l.foldr insertByFst []

/-- `kmeans(x, k, init, max_iterations)` with the random draws supplied
by an oracle of in-range indices. -/
def kmeans (x : List (List Sc)) (k : Nat) (init : String)
    (maxIterations : Nat) (oracle : Nat → Nat) :
    Except String (List Nat) :=
  match (if init = "kmeans++" then kmeansPP x k oracle
         else if init = "random" then
           .ok ((List.range k).map (fun i => x.getD (oracle i % x.length) []))
         else .error "'init' must be 'kmeans++' or 'random'.") with
  | .error e => .error e
  | .ok cs => kmLoop x maxIterations (sortByFst cs)

theorem argminGo_lt : ∀ (rest : List Sc) (best : Nat) (bv : Sc) (i n : Nat),
    best < n → i + rest.length ≤ n → argminGo best bv i rest < n := by
  intro rest
  induction rest with
  | nil => intro best bv i n hb _; exact hb
  | cons v r ih =>
    intro best bv i n hb hle
    show (if v.lt bv = true then argminGo i v (i + 1) r
      else argminGo best bv (i + 1) r) < n
    rw [List.length_cons] at hle
    by_cases hv : v.lt bv = true
    · rw [if_pos hv]
      exact ih i v (i + 1) n (by omega) (by omega)
    · rw [if_neg hv]
      exact ih best bv (i + 1) n hb (by omega)

theorem argminIdx_lt (l : List Sc) (hl : 0 < l.length) :
    argminIdx l < l.length := by
  cases l with
  | nil => simp at hl
  | cons v rest =>
    show argminGo 0 v 1 rest < rest.length + 1
    exact argminGo_lt rest 0 v 1 (rest.length + 1) (by omega) (by omega)

theorem updateCenters_length (centers x : List (List Sc))
    (idx : List Nat) :
    (updateCenters centers x idx).length = centers.length := by
  unfold updateCenters
  rw [List.length_map, List.length_range]

theorem assignClusters_length (centers x : List (List Sc)) :
    (assignClusters centers x).length = x.length := by
  unfold assignClusters
  rw [List.length_map]

theorem kmLoop_ok (x : List (List Sc)) (k : Nat) (hk : 0 < k) :
    ∀ m centers idx, centers.length = k →
      kmLoop x m centers = .ok idx →
      idx.length = x.length ∧ ∀ i ∈ idx, i < k := by
  intro m
  induction m with
  | zero => intro centers idx hlen h; cases h
  | succ m ih =>
    intro centers idx hlen h
    have h1t : (if allcloseRows centers
          (updateCenters centers x (assignClusters centers x)) = true
        then Except.ok (assignClusters centers x)
        else kmLoop x m
          (updateCenters centers x (assignClusters centers x))) =
        .ok idx := h
    by_cases hcl : allcloseRows centers
        (updateCenters centers x (assignClusters centers x)) = true
    · rw [if_pos hcl] at h1t
      obtain rfl : assignClusters centers x = idx := by cases h1t; rfl
      refine ⟨assignClusters_length centers x, ?_⟩
      intro i hi
      unfold assignClusters at hi
      obtain ⟨p, hp, rfl⟩ := List.mem_map.mp hi
      have hlt := argminIdx_lt (centers.map (fun c => sqDist c p))
        (by rw [List.length_map, hlen]; exact hk)
      rw [List.length_map, hlen] at hlt
      exact hlt
    · rw [if_neg hcl] at h1t
      exact ih (updateCenters centers x (assignClusters centers x)) idx
        (by rw [updateCenters_length, hlen]) h1t

theorem kmLoop_err (x : List (List Sc)) :
    ∀ m centers e, kmLoop x m centers = .error e →
      e = "No convergance in allowed iterations." := by
  intro m
  induction m with
  | zero =>
    intro centers e h
    cases h
    rfl
  | succ m ih =>
    intro centers e h
    have h1t : (if allcloseRows centers
          (updateCenters centers x (assignClusters centers x)) = true
        then Except.ok (assignClusters centers x)
        else kmLoop x m
          (updateCenters centers x (assignClusters centers x))) =
        .error e := h
    by_cases hcl : allcloseRows centers
        (updateCenters centers x (assignClusters centers x)) = true
    · rw [if_pos hcl] at h1t
      cases h1t
    · rw [if_neg hcl] at h1t
      exact ih _ e h1t

theorem kmeansPPGo_err (x : List (List Sc)) (oracle : Nat → Nat) :
    ∀ m cs e, kmeansPPGo x oracle m cs = .error e →
      e = "probabilities contain NaN" := by
  intro m
  induction m with
  | zero => intro cs e h; cases h
  | succ m ih =>
    intro cs e h
    have h1t : (if ((x.map (fun p =>
          listMin (cs.map (fun c => sqDist c p)))).foldl
            (fun a b => a + b) 0) = (0 : Sc) then
          (Except.error "probabilities contain NaN" :
            Except String (List (List Sc)))
        else kmeansPPGo x oracle m
          (cs ++ [x.getD (oracle cs.length % x.length) []])) =
        .error e := h
    by_cases hc : ((x.map (fun p =>
        listMin (cs.map (fun c => sqDist c p)))).foldl
          (fun a b => a + b) 0) = (0 : Sc)
    · rw [if_pos hc] at h1t
      cases h1t
      rfl
    · rw [if_neg hc] at h1t
      exact ih _ e h1t

theorem kmeansPPGo_length (x : List (List Sc)) (oracle : Nat → Nat) :
    ∀ m cs cs2, kmeansPPGo x oracle m cs = .ok cs2 →
      cs2.length = cs.length + m := by
  intro m
  induction m with
  | zero =>
    intro cs cs2 h
    obtain rfl : cs = cs2 := by cases h; rfl
    rfl
  | succ m ih =>
    intro cs cs2 h
    have h1t : (if ((x.map (fun p =>
          listMin (cs.map (fun c => sqDist c p)))).foldl
            (fun a b => a + b) 0) = (0 : Sc) then
          (Except.error "probabilities contain NaN" :
            Except String (List (List Sc)))
        else kmeansPPGo x oracle m
          (cs ++ [x.getD (oracle cs.length % x.length) []])) =
        .ok cs2 := h
    by_cases hc : ((x.map (fun p =>
        listMin (cs.map (fun c => sqDist c p)))).foldl
          (fun a b => a + b) 0) = (0 : Sc)
    · rw [if_pos hc] at h1t
      cases h1t
    · rw [if_neg hc] at h1t
      have := ih _ cs2 h1t
      rw [List.length_append] at this
      simp at this
      omega

theorem insertByFst_length (row : List Sc) :
    ∀ l, (insertByFst row l).length = l.length + 1 := by
  intro l
  induction l with
  | nil => rfl
  | cons r rs ih =>
    show (if (r.headD 0).lt (row.headD 0) = true
      then r :: insertByFst row rs
      else row :: r :: rs).length = _
    by_cases h : (r.headD 0).lt (row.headD 0) = true
    · rw [if_pos h]
      rw [List.length_cons, ih]
      rfl
    · rw [if_neg h]
      rfl

theorem sortByFst_length : ∀ l : List (List Sc),
    (sortByFst l).length = l.length := by
  intro l
  induction l with
  | nil => rfl
  | cons r rs ih =>
    show (insertByFst r (sortByFst rs)).length = _
    rw [insertByFst_length, ih]
    rfl

/-- C10: kmeans on degenerate data fails before ever iterating: with the
default kmeans++ seeding and two identical rows, every squared distance
to the first seed is zero, the probability vector divides by zero into
NaNs and the random draw raises; the error is not the claimed
iteration-exhaustion failure, so the claim's trichotomy omits a real
outcome. -/
theorem c10_kmeans_nan_counterexample :
    kmeans [[0], [0]] 2 "kmeans++" 1000 (fun _ => 0) =
      .error "probabilities contain NaN" ∧
    ("probabilities contain NaN" : String) ≠
      "No convergance in allowed iterations." := by
  decide

/-- C10 (amended): for every data set and k > 0, kmeans rejects an init
that is neither kmeans++ nor random; a successful run returns one cluster
index below k per data row; and every failure is the init rejection, the
iteration-exhaustion error, or the kmeans++ NaN-probability error on
degenerate seeding. -/
theorem c10_kmeans_amended (x : List (List Sc)) (k : Nat) (init : String)
    (maxIter : Nat) (oracle : Nat → Nat) (hk : 0 < k) :
    (init ≠ "kmeans++" → init ≠ "random" →
      kmeans x k init maxIter oracle =
        .error "'init' must be 'kmeans++' or 'random'.") ∧
    (∀ idx, kmeans x k init maxIter oracle = .ok idx →
      idx.length = x.length ∧ ∀ i ∈ idx, i < k) ∧
    (∀ e, kmeans x k init maxIter oracle = .error e →
      e = "'init' must be 'kmeans++' or 'random'." ∨
      e = "No convergance in allowed iterations." ∨
      e = "probabilities contain NaN") := by
  refine ⟨?_, ?_, ?_⟩
  · intro h1 h2
    unfold kmeans
    rw [if_neg h1, if_neg h2]
  · intro idx h
    unfold kmeans at h
    by_cases h1 : init = "kmeans++"
    · rw [if_pos h1] at h
      cases hpp : kmeansPP x k oracle with
      | error e => rw [hpp] at h; cases h
      | ok cs =>
        rw [hpp] at h
        have hlen : cs.length = k := by
          have h2 := kmeansPPGo_length x oracle (k - 1) _ cs hpp
          simp at h2
          omega
        exact kmLoop_ok x k hk maxIter (sortByFst cs) idx
          (by rw [sortByFst_length, hlen]) h
    · rw [if_neg h1] at h
      by_cases h2 : init = "random"
      · rw [if_pos h2] at h
        exact kmLoop_ok x k hk maxIter _ idx
          (by rw [sortByFst_length, List.length_map, List.length_range]) h
      · rw [if_neg h2] at h
        cases h
  · intro e h
    unfold kmeans at h
    by_cases h1 : init = "kmeans++"
    · rw [if_pos h1] at h
      cases hpp : kmeansPP x k oracle with
      | error e2 =>
        rw [hpp] at h
        have hee : e2 = e := by cases h; rfl
        rw [← hee]
        exact Or.inr (Or.inr (kmeansPPGo_err x oracle (k - 1) _ e2 hpp))
      | ok cs =>
        rw [hpp] at h
        exact Or.inr (Or.inl (kmLoop_err x maxIter _ e h))
    · rw [if_neg h1] at h
      by_cases h2 : init = "random"
      · rw [if_pos h2] at h
        exact Or.inr (Or.inl (kmLoop_err x maxIter _ e h))
      · rw [if_neg h2] at h
        obtain rfl : "'init' must be 'kmeans++' or 'random'." = e := by
          cases h; rfl
        exact Or.inl rfl

/-- Witness for C10 (amended): a two-point run with random init converges
immediately and maps each row to a cluster index below 2. -/
theorem c10_kmeans_amended_witness :
    ([0, 1] : List Nat).length = ([[0], [4]] : List (List Sc)).length ∧
      ∀ i ∈ ([0, 1] : List Nat), i < 2 :=
  (c10_kmeans_amended [[0], [4]] 2 "random" 10 (fun i => i)
    (by decide)).2.1 [0, 1] (by decide)

end Kmeans
